import Mathlib

/-!
Verification development for the MiniPy toolchain (lexer, parser AST,
semantic analyzer, optimizer, bytecode compiler, stack VM).

Shallow embedding notes:
* Python `int` is embedded as `Int`; Python floor division `//` is `Int.fdiv`.
* Python dictionaries (`globals`, scope frames, pools) are embedded as
  association lists with insertion-order semantics (`storeVar` overwrites in
  place, appends new keys at the end), matching dict iteration order.
* Exception messages are embedded as inductive error kinds, one constructor
  per `raise` site in the source.
* The tree-walk interpreter and the VM loop may diverge (while loops), so both
  are embedded as fuel-indexed evaluators with an explicit `timeout` outcome;
  a genuine result of the Python code corresponds to a large enough fuel.
-/

namespace MiniPy

/-! ## AST (src/ast_nodes.py) -/

/-- Expression nodes: `BinOp`, `Number`, `Var` (src/ast_nodes.py). -/
inductive Expr where
  | number (value : Int) (line : Int)
  | var (name : String) (line : Int)
  | binop (left : Expr) (op : String) (right : Expr) (line : Int)
deriving DecidableEq, Repr

/-- Statement nodes: `Assign`, `Print`, `If`, `While` (src/ast_nodes.py).
`If.elseBody` is `Optional[List[Statement]]` exactly as in the source. -/
inductive Stmt where
  | assign (name : String) (expr : Expr) (line : Int)
  | print (expr : Expr) (line : Int)
  | ifS (cond : Expr) (thenBody : List Stmt) (elseBody : Option (List Stmt)) (line : Int)
  | whileS (cond : Expr) (body : List Stmt) (line : Int)

/-- `Program` root node. -/
structure Program where
  statements : List Stmt

/-! ## Global variable mapping

Both the interpreter and the VM keep `self.globals`, a Python dict from names
to integer values.  We embed it as an association list: overwriting keeps the
key position, a fresh key is appended (dict insertion order). -/

abbrev Globals := List (String × Int)

/-- Dict read: `globals[name]` / `name in globals`. -/
def lookupVar : Globals → String → Option Int
  | [], _ => none
  | (k, v) :: rest, n => if k = n then some v else lookupVar rest n

/-- Dict write: `globals[name] = value`. -/
def storeVar : Globals → String → Int → Globals
  | [], n, v => [(n, v)]
  | (k, w) :: rest, n, v =>
      if k = n then (n, v) :: rest else (k, w) :: storeVar rest n v

/-! ## Tree-walk interpreter (src/interpreter.py) -/

/-- Runtime faults of the tree-walk interpreter, one per `raise` site:
`SemanticError("Undefined variable: …")`, `ValueError("Division by zero")`,
`ValueError("Unknown operator: …")`. -/
inductive RunErr where
  | undefinedVariable (name : String)
  | divisionByZero
  | unknownOperator (op : String)
deriving DecidableEq, Repr

/-- The operator dispatch of `Interpreter.interpret_binop` (src/interpreter.py
lines 79-96): only `+ - * / < > ==` are handled; any other operator raises
`ValueError("Unknown operator")`.  Python `//` is floor division. -/
def applyBinOp (op : String) (left right : Int) : Except RunErr Int :=
  if op = "+" then .ok (left + right)
  else if op = "-" then .ok (left - right)
  else if op = "*" then .ok (left * right)
  else if op = "/" then
    if right = 0 then .error .divisionByZero else .ok (Int.fdiv left right)
  else if op = "<" then .ok (if left < right then 1 else 0)
  else if op = ">" then .ok (if left > right then 1 else 0)
  else if op = "==" then .ok (if left = right then 1 else 0)
  else .error (.unknownOperator op)

/-- `Interpreter.interpret` on expression nodes. -/
def interpExpr (g : Globals) : Expr → Except RunErr Int
  | .number v _ => .ok v
  | .var n _ =>
      match lookupVar g n with
      | some v => .ok v
      | none => .error (.undefinedVariable n)
  | .binop l op r _ => do
      let a ← interpExpr g l
      let b ← interpExpr g r
      applyBinOp op a b

/-- Observable interpreter state: the `globals` dict plus everything written
to standard output by `print` (one integer per print). -/
structure InterpSt where
  globals : Globals
  output : List Int
deriving DecidableEq, Repr

/-- Possible outcomes of a fuel-indexed run. -/
inductive Res (α : Type) where
  | ok (a : α)
  | err (e : RunErr)
  | timeout
deriving DecidableEq, Repr

mutual

/-- `Interpreter.interpret` on statement nodes (fuel-indexed; the Python code
recurses without fuel and may diverge on `while`). -/
def interpStmt : Nat → InterpSt → Stmt → Res InterpSt
  | 0, _, _ => .timeout
  | _ + 1, st, .assign n e _ =>
      match interpExpr st.globals e with
      | .ok v => .ok ⟨storeVar st.globals n v, st.output⟩
      | .error er => .err er
  | _ + 1, st, .print e _ =>
      match interpExpr st.globals e with
      | .ok v => .ok ⟨st.globals, st.output ++ [v]⟩
      | .error er => .err er
  | fuel + 1, st, .ifS c tb eb _ =>
      match interpExpr st.globals c with
      | .ok v =>
          if v ≠ 0 then interpStmts fuel st tb
          else
            match eb with
            | some es => interpStmts fuel st es
            | none => .ok st
      | .error er => .err er
  | fuel + 1, st, .whileS c body line =>
      match interpExpr st.globals c with
      | .ok v =>
          if v = 0 then .ok st
          else
            match interpStmts fuel st body with
            | .ok st1 => interpStmt fuel st1 (.whileS c body line)
            | r => r
      | .error er => .err er

/-- Interpret a statement list in order (the `for stmt in …` loops). -/
def interpStmts : Nat → InterpSt → List Stmt → Res InterpSt
  | _, st, [] => .ok st
  | 0, _, _ :: _ => .timeout
  | fuel + 1, st, s :: rest =>
      match interpStmt fuel st s with
      | .ok st1 => interpStmts fuel st1 rest
      | r => r

end

/-- `Interpreter.interpret` on a `Program`: starts with an empty `globals`
dict and returns it (plus the produced output). -/
def interpProgram (fuel : Nat) (p : Program) : Res InterpSt :=
  interpStmts fuel ⟨[], []⟩ p.statements

/-! ## Bytecode (src/bytecode.py) -/

/-- The opcode constants of src/bytecode.py (a closed set of strings in the
source). -/
inductive Opcode where
  | LOAD_CONST | LOAD_NAME | STORE_NAME
  | ADD | SUB | MUL | DIV
  | CMP_LT | CMP_GT | CMP_LE | CMP_GE | CMP_EQ | CMP_NEQ
  | JUMP | JUMP_IF_FALSE | JUMP_IF_TRUE
  | POP | PRINT | HALT
deriving DecidableEq, Repr

/-- `Instruction(opcode, arg=None)`: the operand is `None` or an integer
(a pool index or an instruction address, always non-negative). -/
structure Instr where
  opcode : Opcode
  arg : Option Nat
deriving DecidableEq, Repr

/-! ## Virtual machine (src/vm.py) -/

/-- VM faults, one constructor per failure site of `VM.run`:
`"Stack underflow"`, `"Undefined variable: …"`, `"Division by zero"`,
`"Unknown opcode: …"`.  `badOperand` stands for the uncaught Python
`TypeError`/`IndexError` that would occur when an instruction's `arg` is
`None` or out of pool range (never reachable from compiled code). -/
inductive VMErr where
  | stackUnderflow
  | undefinedVariable (name : String)
  | divisionByZero
  | unknownOpcode (op : Opcode)
  | badOperand
deriving DecidableEq, Repr

/-- The VM's mutable state: operand stack, `globals` dict, standard output so
far, and the instruction pointer. -/
structure VMState where
  stack : List Int
  globals : Globals
  output : List Int
  ip : Nat
deriving DecidableEq, Repr

/-- Result of one dispatch step of the `while self.ip < len(self.code)` loop:
continue looping, leave the loop (`HALT` or `ip` past the end), or fault. -/
inductive StepRes where
  | cont (st : VMState)
  | halted (st : VMState)
  | fault (e : VMErr) (ip : Nat)
deriving DecidableEq, Repr

/-- One iteration of `VM.run`'s dispatch loop (src/vm.py lines 41-126).
Binary operations pop `b` first, then `a`.  The dispatch handles exactly the
opcodes the source handles: `CMP_LE`, `CMP_GE`, `CMP_NEQ` (and `JUMP_IF_TRUE`,
`POP`) fall through to `raise VMError("Unknown opcode: …")`. -/
def vmStep (code : List Instr) (consts : List Int) (names : List String)
    (st : VMState) : StepRes :=
  match code[st.ip]? with
  | none => .halted st
  | some instr =>
    match instr.opcode with
    | .LOAD_CONST =>
        match instr.arg with
        | some i =>
            match consts[i]? with
            | some v => .cont ⟨v :: st.stack, st.globals, st.output, st.ip + 1⟩
            | none => .fault .badOperand st.ip
        | none => .fault .badOperand st.ip
    | .LOAD_NAME =>
        match instr.arg with
        | some i =>
            match names[i]? with
            | some n =>
                match lookupVar st.globals n with
                | some v => .cont ⟨v :: st.stack, st.globals, st.output, st.ip + 1⟩
                | none => .fault (.undefinedVariable n) st.ip
            | none => .fault .badOperand st.ip
        | none => .fault .badOperand st.ip
    | .STORE_NAME =>
        match st.stack with
        | v :: rest =>
            match instr.arg with
            | some i =>
                match names[i]? with
                | some n => .cont ⟨rest, storeVar st.globals n v, st.output, st.ip + 1⟩
                | none => .fault .badOperand st.ip
            | none => .fault .badOperand st.ip
        | [] => .fault .stackUnderflow st.ip
    | .ADD =>
        match st.stack with
        | b :: a :: rest => .cont ⟨(a + b) :: rest, st.globals, st.output, st.ip + 1⟩
        | _ => .fault .stackUnderflow st.ip
    | .SUB =>
        match st.stack with
        | b :: a :: rest => .cont ⟨(a - b) :: rest, st.globals, st.output, st.ip + 1⟩
        | _ => .fault .stackUnderflow st.ip
    | .MUL =>
        match st.stack with
        | b :: a :: rest => .cont ⟨(a * b) :: rest, st.globals, st.output, st.ip + 1⟩
        | _ => .fault .stackUnderflow st.ip
    | .DIV =>
        match st.stack with
        | b :: a :: rest =>
            if b = 0 then .fault .divisionByZero st.ip
            else .cont ⟨Int.fdiv a b :: rest, st.globals, st.output, st.ip + 1⟩
        | _ => .fault .stackUnderflow st.ip
    | .CMP_LT =>
        match st.stack with
        | b :: a :: rest =>
            .cont ⟨(if a < b then (1 : Int) else 0) :: rest, st.globals, st.output, st.ip + 1⟩
        | _ => .fault .stackUnderflow st.ip
    | .CMP_GT =>
        match st.stack with
        | b :: a :: rest =>
            .cont ⟨(if a > b then (1 : Int) else 0) :: rest, st.globals, st.output, st.ip + 1⟩
        | _ => .fault .stackUnderflow st.ip
    | .CMP_EQ =>
        match st.stack with
        | b :: a :: rest =>
            .cont ⟨(if a = b then (1 : Int) else 0) :: rest, st.globals, st.output, st.ip + 1⟩
        | _ => .fault .stackUnderflow st.ip
    | .JUMP =>
        match instr.arg with
        | some t => .cont ⟨st.stack, st.globals, st.output, t⟩
        | none => .fault .badOperand st.ip
    | .JUMP_IF_FALSE =>
        match st.stack with
        | v :: rest =>
            if v = 0 then
              match instr.arg with
              | some t => .cont ⟨rest, st.globals, st.output, t⟩
              | none => .fault .badOperand st.ip
            else .cont ⟨rest, st.globals, st.output, st.ip + 1⟩
        | [] => .fault .stackUnderflow st.ip
    | .PRINT =>
        match st.stack with
        | v :: rest => .cont ⟨rest, st.globals, st.output ++ [v], st.ip + 1⟩
        | [] => .fault .stackUnderflow st.ip
    | .HALT => .halted st
    | op => .fault (.unknownOpcode op) st.ip

/-- Overall outcome of `VM.run`: the returned `globals` dict together with the
produced output, a fatal `VMError`, or fuel exhaustion (the Python loop has no
bound and can diverge). -/
inductive RunRes where
  | ok (globals : Globals) (output : List Int)
  | fault (e : VMErr) (ip : Nat)
  | timeout
deriving DecidableEq, Repr

/-- `VM.run`: iterate `vmStep` until the loop exits (returning
`self.globals`) or a `VMError` is raised. -/
def vmRun (fuel : Nat) (code : List Instr) (consts : List Int)
    (names : List String) (st : VMState) : RunRes :=
  match fuel with
  | 0 => .timeout
  | fuel + 1 =>
      match vmStep code consts names st with
      | .cont st1 => vmRun fuel code consts names st1
      | .halted st1 => .ok st1.globals st1.output
      | .fault e i => .fault e i

/-! ## Compiler (src/compiler.py) -/

/-- First index of a value in a pool (`self.const_map[value]` /
`self.name_map[name]`; the maps always agree with first-occurrence order in
the pool lists). -/
def poolIdx {α : Type} [DecidableEq α] : List α → α → Option Nat
  | [], _ => none
  | x :: rest, v =>
      if x = v then some 0
      else match poolIdx rest v with
        | some i => some (i + 1)
        | none => none

/-- Compiler state: the growing `self.code`, `self.consts`, `self.names`. -/
structure CompSt where
  code : List Instr
  consts : List Int
  names : List String
deriving DecidableEq, Repr

/-- `Compiler.const_index`: intern a constant, deduplicating by value. -/
def constIndex (s : CompSt) (v : Int) : Nat × CompSt :=
  match poolIdx s.consts v with
  | some i => (i, s)
  | none => (s.consts.length, ⟨s.code, s.consts ++ [v], s.names⟩)

/-- `Compiler.name_index`: intern a name, deduplicating by value. -/
def nameIndex (s : CompSt) (n : String) : Nat × CompSt :=
  match poolIdx s.names n with
  | some i => (i, s)
  | none => (s.names.length, ⟨s.code, s.consts, s.names ++ [n]⟩)

/-- `Compiler.emit`: append an instruction, return its position. -/
def emit (s : CompSt) (op : Opcode) (arg : Option Nat) : Nat × CompSt :=
  (s.code.length, ⟨s.code ++ [⟨op, arg⟩], s.consts, s.names⟩)

/-- `Compiler.patch_jump`: overwrite the operand of the instruction at `pos`
(a no-op when `pos` is out of range, as in the source). -/
def patchJump (s : CompSt) (pos target : Nat) : CompSt :=
  if h : pos < s.code.length then
    ⟨s.code.set pos ⟨(s.code.get ⟨pos, h⟩).opcode, some target⟩, s.consts, s.names⟩
  else s

/-- The only failure of `Compiler.compile`: `raise ValueError("Unknown
operator: …")` in `compile_binop` (the unknown-node branch is unreachable in
this closed AST). -/
inductive CompileErr where
  | unknownOperator (op : String)
deriving DecidableEq, Repr

/-- The operator table of `Compiler.compile_binop` (src/compiler.py lines
137-158). -/
def opcodeOf (op : String) : Option Opcode :=
  if op = "+" then some .ADD
  else if op = "-" then some .SUB
  else if op = "*" then some .MUL
  else if op = "/" then some .DIV
  else if op = "<" then some .CMP_LT
  else if op = ">" then some .CMP_GT
  else if op = "<=" then some .CMP_LE
  else if op = ">=" then some .CMP_GE
  else if op = "==" then some .CMP_EQ
  else if op = "!=" then some .CMP_NEQ
  else none

/-- `Compiler.compile` on expressions: post-order emission (`compile_number`,
`compile_var`, `compile_binop`). -/
def compileExpr (s : CompSt) : Expr → Except CompileErr CompSt
  | .number v _ =>
      let (i, s1) := constIndex s v
      .ok (emit s1 .LOAD_CONST (some i)).2
  | .var n _ =>
      let (i, s1) := nameIndex s n
      .ok (emit s1 .LOAD_NAME (some i)).2
  | .binop l op r _ => do
      let s1 ← compileExpr s l
      let s2 ← compileExpr s1 r
      match opcodeOf op with
      | some oc => .ok (emit s2 oc none).2
      | none => .error (.unknownOperator op)

/-- Python truthiness of the `else_body` field (`if node.else_body:`): `None`
and the empty list are both falsy. -/
def elseTruthy : Option (List Stmt) → Bool
  | none => false
  | some es => !es.isEmpty

mutual

/-- `Compiler.compile` on statements (`compile_assign`, `compile_print`,
`compile_if`, `compile_while`), with backpatching exactly as in the source. -/
def compileStmt (s : CompSt) : Stmt → Except CompileErr CompSt
  | .assign n e _ => do
      let s1 ← compileExpr s e
      let (i, s2) := nameIndex s1 n
      .ok (emit s2 .STORE_NAME (some i)).2
  | .print e _ => do
      let s1 ← compileExpr s e
      .ok (emit s1 .PRINT none).2
  | .ifS c tb eb _ => do
      let s1 ← compileExpr s c
      let (elsePos, s2) := emit s1 .JUMP_IF_FALSE none
      let s3 ← compileStmts s2 tb
      let (endPos, s4) := emit s3 .JUMP none
      let s5 := patchJump s4 elsePos s4.code.length
      let s6 ←
        match eb with
        | some es => if es.isEmpty then .ok s5 else compileStmts s5 es
        | none => .ok s5
      .ok (patchJump s6 endPos s6.code.length)
  | .whileS c body _ => do
      let loopStart := s.code.length
      let s1 ← compileExpr s c
      let (endPos, s2) := emit s1 .JUMP_IF_FALSE none
      let s3 ← compileStmts s2 body
      let s4 := (emit s3 .JUMP (some loopStart)).2
      .ok (patchJump s4 endPos s4.code.length)

/-- Compile a statement list in order. -/
def compileStmts (s : CompSt) : List Stmt → Except CompileErr CompSt
  | [] => .ok s
  | st :: rest => do
      let s1 ← compileStmt s st
      compileStmts s1 rest

end

/-- `Compiler.compile` on a `Program`: compile all statements, then emit
`HALT` and return `(code, consts, names)`. -/
def compileProgram (p : Program) :
    Except CompileErr (List Instr × List Int × List String) := do
  let s ← compileStmts ⟨[], [], []⟩ p.statements
  let s1 := (emit s .HALT none).2
  .ok (s1.code, s1.consts, s1.names)

/-! ## Optimizer (src/optimizer.py) -/

/-- `Optimizer.evaluate_constants`: fold a constant binary operation;
division by the constant zero returns `None` (not folded). -/
def evaluateConstants (left : Int) (op : String) (right : Int) : Option Int :=
  if op = "+" then some (left + right)
  else if op = "-" then some (left - right)
  else if op = "*" then some (left * right)
  else if op = "/" then
    if right = 0 then none else some (Int.fdiv left right)
  else if op = "<" then some (if left < right then 1 else 0)
  else if op = ">" then some (if left > right then 1 else 0)
  else if op = "<=" then some (if left ≤ right then 1 else 0)
  else if op = ">=" then some (if left ≥ right then 1 else 0)
  else if op = "==" then some (if left = right then 1 else 0)
  else if op = "!=" then some (if left ≠ right then 1 else 0)
  else none

/-- `isinstance(e, Number) and e.value == v`. -/
def isNumberEq (e : Expr) (v : Int) : Bool :=
  match e with
  | .number w _ => w = v
  | _ => false

/-- The "both operands are numbers" folding step of `optimize_binop`:
`some` of the folded `Number`, or `none` when folding does not apply. -/
def foldConstants (left : Expr) (op : String) (right : Expr) (line : Int) : Option Expr :=
  match left, right with
  | .number lv _, .number rv _ =>
      match evaluateConstants lv op rv with
      | some result => some (.number result line)
      | none => none
  | _, _ => none

/-- The body of `Optimizer.optimize_binop` after its two child nodes have
been optimized: constant folding (skipped for a zero divisor), then the
algebraic identities, then rebuild the `BinOp`. -/
def optimizeBinopCore (left : Expr) (op : String) (right : Expr) (line : Int) : Expr :=
  match foldConstants left op right line with
  | some e => e
  | none =>
      if op = "+" then
        if isNumberEq right 0 then left
        else if isNumberEq left 0 then right
        else .binop left op right line
      else if op = "*" then
        if isNumberEq right 1 then left
        else if isNumberEq left 1 then right
        else if isNumberEq left 0 || isNumberEq right 0 then .number 0 line
        else .binop left op right line
      else if op = "-" then
        if isNumberEq right 0 then left
        else .binop left op right line
      else .binop left op right line

/-- `Optimizer.optimize` on expressions: `optimize_binop` for `BinOp`
(optimize both children, then `optimizeBinopCore`), identity on
`Number`/`Var` (the final `return node` of `optimize`). -/
def optimizeExpr : Expr → Expr
  | .binop l op r line => optimizeBinopCore (optimizeExpr l) op (optimizeExpr r) line
  | e => e

mutual

/-- `Optimizer.optimize` on statements (`optimize_assign`, `optimize_print`,
`optimize_if` with dead-branch elimination, `optimize_while` with
dead-loop elimination). -/
def optimizeStmt : Stmt → Stmt
  | .assign n e line => .assign n (optimizeExpr e) line
  | .print e line => .print (optimizeExpr e) line
  | .ifS c tb eb line =>
      let cond := optimizeExpr c
      match cond with
      | .number v vline =>
          if v ≠ 0 then .ifS (.number v vline) (optimizeStmts tb) none line
          else
            match eb with
            | some es =>
                if es.isEmpty then .ifS (.number v vline) [] none line
                else .ifS (.number v vline) [] (some (optimizeStmts es)) line
            | none => .ifS (.number v vline) [] none line
      | _ =>
          .ifS cond (optimizeStmts tb)
            (match eb with
             | some es => if es.isEmpty then none else some (optimizeStmts es)
             | none => none) line
  | .whileS c body line =>
      let cond := optimizeExpr c
      match cond with
      | .number 0 vline => .whileS (.number 0 vline) [] line
      | _ => .whileS cond (optimizeStmts body) line

/-- Optimize a statement list (`[self.optimize(stmt) for stmt in …]`). -/
def optimizeStmts : List Stmt → List Stmt
  | [] => []
  | s :: rest => optimizeStmt s :: optimizeStmts rest

end

/-- `Optimizer.optimize` on a `Program`. -/
def optimizeProgram (p : Program) : Program :=
  ⟨optimizeStmts p.statements⟩

/-! ## Semantic analyzer (src/semantic.py) -/

/-- The closed type enum: `IntType`, `BoolType`, `ErrorType`. -/
inductive Ty where
  | int | bool | error
deriving DecidableEq, Repr

/-- `VariableInfo(name, type, declared, line)`. -/
structure VariableInfo where
  name : String
  type : Ty
  declared : Bool
  line : Int
deriving DecidableEq, Repr

/-- Semantic diagnostics, one constructor per `SemanticError` construction
site in src/semantic.py (each carries the source line). -/
inductive SemErr where
  | alreadyDeclared (name : String) (line : Int)
  | usedBeforeDeclaration (name : String) (line : Int)
  | typeMismatch (exprTy varTy : Ty) (name : String) (line : Int)
  | condNotBool (got : Ty) (line : Int)
  | arithOperands (op : String) (l r : Ty) (line : Int)
  | cmpOperands (op : String) (l r : Ty) (line : Int)
  | eqOperands (op : String) (l r : Ty) (line : Int)
  | undefinedVariable (name : String) (line : Int)
deriving DecidableEq, Repr

/-- One scope frame: the `self.variables` dict of a `Scope`. -/
abbrev Frame := List (String × VariableInfo)

/-- Dict read on one frame. -/
def frameFind : Frame → String → Option VariableInfo
  | [], _ => none
  | (k, vi) :: rest, n => if k = n then some vi else frameFind rest n

/-- Dict write on one frame (replace in place; frames never hold duplicate
keys, since entries are only added when absent). -/
def frameSet (f : Frame) (n : String) (vi : VariableInfo) : Frame :=
  f.map fun kv => if kv.1 = n then (kv.1, vi) else kv

/-- A `Scope` chain, innermost frame first.  The Python `Scope` objects form
a parent-linked chain; mutation of a parent through `update` is reflected in
the returned tail. -/
abbrev ScopeChain := List Frame

/-- `Scope.lookup`: check this scope's dict, then the parents. -/
def scopeLookup : ScopeChain → String → Option VariableInfo
  | [], _ => none
  | f :: rest, n =>
      match frameFind f n with
      | some vi => some vi
      | none => scopeLookup rest n

/-- `Scope.declare`: raise if the name is already in this scope's own dict,
else insert it.  (The empty-chain case cannot arise: the analyzer's current
scope always has at least one frame.) -/
def scopeDeclare : ScopeChain → String → Ty → Int → Except SemErr ScopeChain
  | [], _, _, _ => .ok []
  | f :: rest, n, t, line =>
      if (frameFind f n).isSome then .error (.alreadyDeclared n line)
      else .ok ((f ++ [(n, ⟨n, t, true, line⟩)]) :: rest)

/-- `Scope.update`: look the name up along the chain; raise "used before
declaration" when absent, else replace the `VariableInfo` in the frame that
declares it. -/
def scopeUpdate : ScopeChain → String → Ty → Int → Except SemErr ScopeChain
  | [], n, _, line => .error (.usedBeforeDeclaration n line)
  | f :: rest, n, t, line =>
      match scopeLookup (f :: rest) n with
      | none => .error (.usedBeforeDeclaration n line)
      | some _ =>
          if (frameFind f n).isSome then .ok (frameSet f n ⟨n, t, true, line⟩ :: rest)
          else
            match scopeUpdate rest n t line with
            | .ok rest1 => .ok (f :: rest1)
            | .error e => .error e

/-- Analyzer state: `self.current_scope` and the accumulated `self.errors`. -/
structure AState where
  scope : ScopeChain
  errors : List SemErr
deriving DecidableEq, Repr

/-- `SemanticAnalyzer.analyze` on expressions (`analyze_binop`,
`analyze_number`, `analyze_var`): returns the node's type and may append
diagnostics; never raises. -/
def analyzeExpr (st : AState) : Expr → Ty × AState
  | .number _ _ => (.int, st)
  | .var n line =>
      match scopeLookup st.scope n with
      | some vi => (vi.type, st)
      | none => (.error, ⟨st.scope, st.errors ++ [.undefinedVariable n line]⟩)
  | .binop l op r line =>
      let (leftTy, st1) := analyzeExpr st l
      let (rightTy, st2) := analyzeExpr st1 r
      if op = "+" ∨ op = "-" ∨ op = "*" ∨ op = "/" then
        if leftTy ≠ .int ∨ rightTy ≠ .int then
          (.error, ⟨st2.scope, st2.errors ++ [.arithOperands op leftTy rightTy line]⟩)
        else (.int, st2)
      else if op = "<" ∨ op = ">" ∨ op = "<=" ∨ op = ">=" then
        if leftTy ≠ .int ∨ rightTy ≠ .int then
          (.error, ⟨st2.scope, st2.errors ++ [.cmpOperands op leftTy rightTy line]⟩)
        else (.bool, st2)
      else if op = "==" ∨ op = "!=" then
        if leftTy ≠ rightTy then
          (.error, ⟨st2.scope, st2.errors ++ [.eqOperands op leftTy rightTy line]⟩)
        else (.bool, st2)
      else (.error, st2)

/-- Drop the innermost frame: `self.current_scope = old_scope` after a block
(the parents, including any `update` mutations made through the child, are
exactly the tail of the child chain). -/
def restoreScope : ScopeChain → ScopeChain
  | [] => []
  | _ :: rest => rest

mutual

/-- `SemanticAnalyzer.analyze` on statements.  Only `Scope.declare` and
`Scope.update` can raise; every other path appends diagnostics and
continues. -/
def analyzeStmt (st : AState) : Stmt → Except SemErr (Ty × AState)
  | .assign n e line =>
      let (exprTy, st1) := analyzeExpr st e
      match scopeLookup st1.scope n with
      | none =>
          if exprTy = .error then .ok (.error, st1)
          else do
            let sc ← scopeDeclare st1.scope n exprTy line
            .ok (exprTy, ⟨sc, st1.errors⟩)
      | some vi =>
          if exprTy ≠ vi.type then
            .ok (.error, ⟨st1.scope, st1.errors ++ [.typeMismatch exprTy vi.type n line]⟩)
          else do
            let sc ← scopeUpdate st1.scope n exprTy line
            .ok (exprTy, ⟨sc, st1.errors⟩)
  | .print e _ =>
      let (_, st1) := analyzeExpr st e
      .ok (.error, st1)
  | .ifS c tb eb line => do
      let (condTy, st1) := analyzeExpr st c
      let st2 : AState :=
        if condTy ≠ .bool then ⟨st1.scope, st1.errors ++ [.condNotBool condTy line]⟩
        else st1
      let st3 ← analyzeStmts ⟨([] : Frame) :: st2.scope, st2.errors⟩ tb
      let st4 : AState := ⟨restoreScope st3.scope, st3.errors⟩
      match eb with
      | some es =>
          if es.isEmpty then .ok (.error, st4)
          else do
            let st5 ← analyzeStmts ⟨([] : Frame) :: st4.scope, st4.errors⟩ es
            .ok (.error, ⟨restoreScope st5.scope, st5.errors⟩)
      | none => .ok (.error, st4)
  | .whileS c body line => do
      let (condTy, st1) := analyzeExpr st c
      let st2 : AState :=
        if condTy ≠ .bool then ⟨st1.scope, st1.errors ++ [.condNotBool condTy line]⟩
        else st1
      let st3 ← analyzeStmts ⟨([] : Frame) :: st2.scope, st2.errors⟩ body
      .ok (.error, ⟨restoreScope st3.scope, st3.errors⟩)

/-- Analyze a statement list in order. -/
def analyzeStmts (st : AState) : List Stmt → Except SemErr AState
  | [] => .ok st
  | s :: rest => do
      let (_, st1) ← analyzeStmt st s
      analyzeStmts st1 rest

end

/-- `SemanticAnalyzer.check`: reset state (a fresh root scope, no errors),
analyze the program, return the collected error list. -/
def check (p : Program) : Except SemErr (List SemErr) := do
  let st ← analyzeStmts ⟨[([] : Frame)], []⟩ p.statements
  .ok st.errors

/-! ## Lexer (src/lexer.py)

The source is a Python string, embedded as `List Char`; `self.pos` is an
index into it.  `advance()` bumps `line`/`col`; all the small scanning loops
below advance `pos` and terminate on the remaining length. -/

/-- The token-type constants of src/lexer.py. -/
inductive TokTy where
  | IDENT | NUMBER | KEYWORD
  | PLUS | MINUS | MUL | DIV
  | LT | GT | LE | GE | EQEQ | NEQ
  | ASSIGN | LPAREN | RPAREN | COLON
  | NEWLINE | INDENT | DEDENT | EOF
deriving DecidableEq, Repr

/-- A token's `value` field: an int (numbers, indent levels), a string
(identifiers, keywords, operator lexemes), or Python `None` (EOF). -/
inductive TokVal where
  | int (i : Int)
  | str (s : String)
  | none
deriving DecidableEq, Repr

/-- `Token(type, value, line, col)`. -/
structure Token where
  ty : TokTy
  val : TokVal
  line : Nat
  col : Nat
deriving DecidableEq, Repr

/-- `LexerError` raise sites: inconsistent indentation, `!` not followed by
`=`, and an unrecognized character. -/
inductive LexErr where
  | inconsistentIndentation (expected got : Nat) (line col : Nat)
  | unexpectedCharAfterBang (c : Option Char) (line col : Nat)
  | unexpectedChar (c : Char) (line col : Nat)
deriving DecidableEq, Repr

/-- `i` is in range when indexing succeeds. -/
theorem lt_length_of_getElem? {α : Type} {l : List α} {i : Nat} {a : α}
    (h : l[i]? = some a) : i < l.length := by
  by_contra hlt
  rw [List.getElem?_eq_none (Nat.le_of_not_lt hlt)] at h
  exact Option.noConfusion h

/-- `skip_whitespace`: skip spaces, tabs and carriage returns (not
newlines). -/
def skipWs (src : List Char) (pos line col : Nat) : Nat × Nat × Nat :=
  match h : src[pos]? with
  | some c =>
      if c = ' ' ∨ c = '\t' ∨ c = '\r' then skipWs src (pos + 1) line (col + 1)
      else (pos, line, col)
  | none => (pos, line, col)
termination_by src.length - pos
decreasing_by
  have := lt_length_of_getElem? h
  omega

/-- `skip_comment`: skip characters until the next newline. -/
def skipComment (src : List Char) (pos line col : Nat) : Nat × Nat × Nat :=
  match h : src[pos]? with
  | some c =>
      if c = '\n' then (pos, line, col)
      else skipComment src (pos + 1) line (col + 1)
  | none => (pos, line, col)
termination_by src.length - pos
decreasing_by
  have := lt_length_of_getElem? h
  omega

/-- The digit-collecting loop of `read_number`; the collected decimal string
is accumulated directly as its integer value (`int(num_str)`). -/
def readNumberAux (src : List Char) (pos col : Nat) (acc : Int) : Int × Nat × Nat :=
  match h : src[pos]? with
  | some c =>
      if c.isDigit then
        readNumberAux src (pos + 1) (col + 1) (acc * 10 + ((c.toNat - 48 : Nat) : Int))
      else (acc, pos, col)
  | none => (acc, pos, col)
termination_by src.length - pos
decreasing_by
  have := lt_length_of_getElem? h
  omega

/-- The character-collecting loop of `read_identifier` (alphanumerics and
underscores). -/
def readIdentAux (src : List Char) (pos col : Nat) (acc : String) : String × Nat × Nat :=
  match h : src[pos]? with
  | some c =>
      if c.isAlphanum ∨ c = '_' then readIdentAux src (pos + 1) (col + 1) (acc.push c)
      else (acc, pos, col)
  | none => (acc, pos, col)
termination_by src.length - pos
decreasing_by
  have := lt_length_of_getElem? h
  omega

/-- The `KEYWORDS` table. -/
def isKeyword (s : String) : Bool :=
  s = "if" ∨ s = "else" ∨ s = "while" ∨ s = "print"

/-- The leading-whitespace counting loop at the start of a logical line:
a space counts 1, a tab counts 4.  Returns `(spaces, pos, col)`. -/
def countIndent (src : List Char) (pos col spaces : Nat) : Nat × Nat × Nat :=
  match h : src[pos]? with
  | some c =>
      if c = ' ' then countIndent src (pos + 1) (col + 1) (spaces + 1)
      else if c = '\t' then countIndent src (pos + 1) (col + 1) (spaces + 4)
      else (spaces, pos, col)
  | none => (spaces, pos, col)
termination_by src.length - pos
decreasing_by
  all_goals
    have := lt_length_of_getElem? h
    omega

/-- The dedent loop of `handle_indentation`: pop while more than one level is
open and the new indent is below the top; each pop queues one `DEDENT`
carrying the newly exposed level. -/
def dedentLoop (stack : List Nat) (pending : List (TokTy × Nat)) (lvl : Nat) :
    List Nat × List (TokTy × Nat) :=
  match stack with
  | top :: next :: rest =>
      if lvl < top then dedentLoop (next :: rest) (pending ++ [(.DEDENT, next)]) lvl
      else (top :: next :: rest, pending)
  | s => (s, pending)

/-- `Lexer.handle_indentation` (src/lexer.py lines 122-137): push and queue
one `INDENT`, or pop and queue `DEDENT`s, or raise on misalignment.  The
indent stack is kept innermost-level-first; it is `[0]` initially and never
becomes empty.  Returns the new stack and the queued `pending_indents`. -/
def handleIndentation (stack : List Nat) (lvl line col : Nat) :
    Except LexErr (List Nat × List (TokTy × Nat)) :=
  match stack with
  | [] => .ok ([], [])
  | top :: rest =>
      if lvl > top then .ok (lvl :: top :: rest, [(.INDENT, lvl)])
      else if lvl < top then
        match dedentLoop (top :: rest) [] lvl with
        | (stack1, pending1) =>
            match stack1 with
            | top1 :: rest1 =>
                if lvl ≠ top1 then .error (.inconsistentIndentation top1 lvl line col)
                else .ok (top1 :: rest1, pending1)
            | [] => .ok ([], pending1)
      else .ok (top :: rest, [])

/-- The end-of-input loop: emit one trailing `DEDENT` per still-open level. -/
def trailingDedents (stack : List Nat) (toks : List Token) (line col : Nat) :
    List Token :=
  match stack with
  | _ :: next :: rest =>
      trailingDedents (next :: rest) (toks ++ [⟨.DEDENT, .int (next : Int), line, col⟩]) line col
  | _ => toks

/-- Trailing dedents plus the final `EOF` token. -/
def lexFinish (stack : List Nat) (toks : List Token) (line col : Nat) : List Token :=
  trailingDedents stack toks line col ++ [⟨.EOF, .none, line, col⟩]

/-- Outcome of `Lexer.tokenize`. -/
inductive LexResult where
  | ok (toks : List Token)
  | error (e : LexErr)
  | timeout
deriving DecidableEq, Repr

set_option maxHeartbeats 1000000 in
mutual

/-- The `while self.pos < len(self.source)` loop of `Lexer.tokenize`
(fuel-indexed; one unit of fuel per iteration).  Handles the
indentation-tracking prefix of a logical line, then defers to `lexRest`
for the rest of the loop body. -/
def lexLoop (src : List Char) (fuel pos line col : Nat) (inNewline : Bool)
    (stack : List Nat) (toks : List Token) : LexResult :=
  match fuel with
  | 0 => .timeout
  | f + 1 =>
    if pos < src.length then
      if inNewline then
        match countIndent src pos col 0 with
        | (spaces, pos1, col1) =>
          match src[pos1]? with
          | some c =>
              if c ≠ '\n' then
                if c ≠ '#' then
                  match handleIndentation stack spaces line col1 with
                  | .error e => .error e
                  | .ok (stack1, pending) =>
                      let toks1 := toks ++ pending.map fun p => ⟨p.1, .int (p.2 : Int), line, 1⟩
                      lexRest src f pos1 line col1 stack1 toks1
                else lexRest src f pos1 line col1 stack toks
              else lexLoop src f (pos1 + 1) (line + 1) 1 true stack toks
          | none => lexLoop src f pos1 line col1 inNewline stack toks
      else lexRest src f pos line col stack toks
    else .ok (lexFinish stack toks line col)
termination_by 2 * fuel + 1
decreasing_by all_goals omega

/-- The remainder of one iteration of the tokenize loop: skip whitespace and
dispatch on the current character (operators, delimiters, numbers,
identifiers/keywords, newline, comment, or a lexer error). -/
def lexRest (src : List Char) (fuel pos line col : Nat) (stack : List Nat)
    (toks : List Token) : LexResult :=
  match skipWs src pos line col with
  | (pos1, line1, col1) =>
    match src[pos1]? with
    | none => .ok (lexFinish stack toks line1 col1)
    | some c =>
      if c = '\n' then
        lexLoop src fuel (pos1 + 1) (line1 + 1) 1 true stack
          (toks ++ [⟨.NEWLINE, .str "\n", line1, col1⟩])
      else if c = '#' then
        match skipComment src pos1 line1 col1 with
        | (pos2, line2, col2) => lexLoop src fuel pos2 line2 col2 false stack toks
      else if c = '=' then
        match src[pos1 + 1]? with
        | some c2 =>
            if c2 = '=' then
              lexLoop src fuel (pos1 + 2) line1 (col1 + 2) false stack
                (toks ++ [⟨.EQEQ, .str "==", line1, col1 + 1⟩])
            else
              lexLoop src fuel (pos1 + 1) line1 (col1 + 1) false stack
                (toks ++ [⟨.ASSIGN, .str "=", line1, col1⟩])
        | none =>
            lexLoop src fuel (pos1 + 1) line1 (col1 + 1) false stack
              (toks ++ [⟨.ASSIGN, .str "=", line1, col1⟩])
      else if c = '+' then
        lexLoop src fuel (pos1 + 1) line1 (col1 + 1) false stack
          (toks ++ [⟨.PLUS, .str "+", line1, col1⟩])
      else if c = '-' then
        lexLoop src fuel (pos1 + 1) line1 (col1 + 1) false stack
          (toks ++ [⟨.MINUS, .str "-", line1, col1⟩])
      else if c = '*' then
        lexLoop src fuel (pos1 + 1) line1 (col1 + 1) false stack
          (toks ++ [⟨.MUL, .str "*", line1, col1⟩])
      else if c = '/' then
        lexLoop src fuel (pos1 + 1) line1 (col1 + 1) false stack
          (toks ++ [⟨.DIV, .str "/", line1, col1⟩])
      else if c = '<' then
        match src[pos1 + 1]? with
        | some c2 =>
            if c2 = '=' then
              lexLoop src fuel (pos1 + 2) line1 (col1 + 2) false stack
                (toks ++ [⟨.LE, .str "<=", line1, col1 + 1⟩])
            else
              lexLoop src fuel (pos1 + 1) line1 (col1 + 1) false stack
                (toks ++ [⟨.LT, .str "<", line1, col1⟩])
        | none =>
            lexLoop src fuel (pos1 + 1) line1 (col1 + 1) false stack
              (toks ++ [⟨.LT, .str "<", line1, col1⟩])
      else if c = '>' then
        match src[pos1 + 1]? with
        | some c2 =>
            if c2 = '=' then
              lexLoop src fuel (pos1 + 2) line1 (col1 + 2) false stack
                (toks ++ [⟨.GE, .str ">=", line1, col1 + 1⟩])
            else
              lexLoop src fuel (pos1 + 1) line1 (col1 + 1) false stack
                (toks ++ [⟨.GT, .str ">", line1, col1⟩])
        | none =>
            lexLoop src fuel (pos1 + 1) line1 (col1 + 1) false stack
              (toks ++ [⟨.GT, .str ">", line1, col1⟩])
      else if c = '!' then
        match src[pos1 + 1]? with
        | some c2 =>
            if c2 = '=' then
              lexLoop src fuel (pos1 + 2) line1 (col1 + 2) false stack
                (toks ++ [⟨.NEQ, .str "!=", line1, col1 + 1⟩])
            else .error (.unexpectedCharAfterBang (some c2) line1 (col1 + 1))
        | none => .error (.unexpectedCharAfterBang .none line1 (col1 + 1))
      else if c = '(' then
        lexLoop src fuel (pos1 + 1) line1 (col1 + 1) false stack
          (toks ++ [⟨.LPAREN, .str "(", line1, col1⟩])
      else if c = ')' then
        lexLoop src fuel (pos1 + 1) line1 (col1 + 1) false stack
          (toks ++ [⟨.RPAREN, .str ")", line1, col1⟩])
      else if c = ':' then
        lexLoop src fuel (pos1 + 1) line1 (col1 + 1) false stack
          (toks ++ [⟨.COLON, .str ":", line1, col1⟩])
      else if c.isDigit then
        match readNumberAux src pos1 col1 0 with
        | (v, pos2, col2) =>
            lexLoop src fuel pos2 line1 col2 false stack
              (toks ++ [⟨.NUMBER, .int v, line1, col1⟩])
      else if c.isAlpha ∨ c = '_' then
        match readIdentAux src pos1 col1 "" with
        | (ident, pos2, col2) =>
            let tok : Token :=
              if isKeyword ident then ⟨.KEYWORD, .str ident, line1, col1⟩
              else ⟨.IDENT, .str ident, line1, col1⟩
            lexLoop src fuel pos2 line1 col2 false stack (toks ++ [tok])
      else .error (.unexpectedChar c line1 col1)
termination_by 2 * fuel + 2
decreasing_by all_goals omega

end

/-- `Lexer.tokenize`: run the loop from the initial lexer state
(`pos = 0`, `line = col = 1`, indent stack `[0]`, start of a logical
line). -/
def tokenize (fuel : Nat) (src : List Char) : LexResult :=
  lexLoop src fuel 0 1 1 true [0] []

/-! ## Concrete demonstration programs (used by theorems below) -/

/-- A program that assigns `x` only inside an `if` body:
`if 1 < 2:` newline `    x = 5`. -/
def scopeDemo : Program :=
  ⟨[.ifS (.binop (.number 1 1) "<" (.number 2 1) 1) [.assign "x" (.number 5 2) 2] none 1]⟩

/-- `scopeDemo` followed by `print(x)` at line 3. -/
def scopeDemoRef : Program :=
  ⟨[.ifS (.binop (.number 1 1) "<" (.number 2 1) 1) [.assign "x" (.number 5 2) 2] none 1,
    .print (.var "x" 3) 3]⟩

/-- `scopeDemo` followed by `print(x + 1)` at line 3: the post-block
reference is nested inside an arithmetic operation. -/
def scopeDemoNested : Program :=
  ⟨[.ifS (.binop (.number 1 1) "<" (.number 2 1) 1) [.assign "x" (.number 5 2) 2] none 1,
    .print (.binop (.var "x" 3) "+" (.number 1 3) 3) 3]⟩

/-- Spec scenario 5: `x = 0` / `while x < 3:` / `    x = x + 1` / `print(x)`. -/
def loopDemo : Program :=
  ⟨[.assign "x" (.number 0 1) 1,
    .whileS (.binop (.var "x" 2) "<" (.number 3 2) 2)
      [.assign "x" (.binop (.var "x" 3) "+" (.number 1 3) 3) 3] 2,
    .print (.var "x" 4) 4]⟩

/-! ## Token counting (for the lexer indentation-balance property) -/

/-- Number of tokens of type `ty` in a token stream. -/
def countTok (toks : List Token) (ty : TokTy) : Nat :=
  (toks.filter fun tk => tk.ty == ty).length

def countPend (pend : List (TokTy × Nat)) (ty : TokTy) : Nat :=
  (pend.filter fun p => p.1 == ty).length

/-- The running balance invariant of the tokenize loop: the nonempty indent
stack tracks the INDENT/DEDENT surplus emitted so far. -/
def LexInv (stack : List Nat) (toks : List Token) : Prop :=
  stack ≠ [] ∧ countTok toks .INDENT + 1 = countTok toks .DEDENT + stack.length

/-- The two-line indented source `if 1:` newline, two-space... actually one
space of indentation: `i f ' ' 1 : \n ' ' x \n`. -/
def indentDemoSrc : List Char := ['i','f',' ','1',':','\n',' ','x','\n']

def indentDemoToks : List Token :=
  [⟨.KEYWORD, .str "if", 1, 1⟩, ⟨.NUMBER, .int 1, 1, 4⟩, ⟨.COLON, .str ":", 1, 5⟩,
   ⟨.NEWLINE, .str "\n", 1, 6⟩, ⟨.INDENT, .int 1, 2, 1⟩, ⟨.IDENT, .str "x", 2, 2⟩,
   ⟨.NEWLINE, .str "\n", 2, 3⟩, ⟨.DEDENT, .int 0, 3, 1⟩, ⟨.EOF, .none, 3, 1⟩]

/-- One `cont` dispatch step of the VM, as a relation. -/
def VMSteps (code : List Instr) (consts : List Int) (names : List String)
    (a b : VMState) : Prop :=
  Relation.ReflTransGen (fun x y => vmStep code consts names x = .cont y) a b

/-! ## Jump-operand predicates and compiled fixture (for C8) -/

/-- A resolved JUMP / JUMP_IF_FALSE operand in `code` never exceeds `B`. -/
def jumpBounded (code : List Instr) (B : Nat) : Prop :=
  ∀ i ∈ code, (i.opcode = .JUMP ∨ i.opcode = .JUMP_IF_FALSE) →
    ∀ t, i.arg = some t → t ≤ B

/-- Position `p` of `code` holds a jump whose operand is still a placeholder. -/
def unresolvedAt (code : List Instr) (p : Nat) : Prop :=
  ∃ i, code[p]? = some i ∧ (i.opcode = .JUMP ∨ i.opcode = .JUMP_IF_FALSE) ∧
    i.arg = none

/-- The bytecode that `compile` produces for `loopDemo`. -/
def loopDemoCode : List Instr :=
  [⟨.LOAD_CONST, some 0⟩, ⟨.STORE_NAME, some 0⟩, ⟨.LOAD_NAME, some 0⟩,
   ⟨.LOAD_CONST, some 1⟩, ⟨.CMP_LT, none⟩, ⟨.JUMP_IF_FALSE, some 11⟩,
   ⟨.LOAD_NAME, some 0⟩, ⟨.LOAD_CONST, some 2⟩, ⟨.ADD, none⟩,
   ⟨.STORE_NAME, some 0⟩, ⟨.JUMP, some 2⟩, ⟨.LOAD_NAME, some 0⟩,
   ⟨.PRINT, none⟩, ⟨.HALT, none⟩]

/-- The per-frame key lists of a scope chain (used to state frame-shape
preservation of the analyzer). -/
def framesKeys (sc : ScopeChain) : List (List String) :=
  sc.map fun f => f.map Prod.fst

/-! ## Optimizer lemmas -/

theorem foldConstants_number {L R : Expr} {op : String} {line : Int} {e : Expr}
    (h : foldConstants L op R line = some e) : ∃ v, e = .number v line := by
  unfold foldConstants at h
  split at h
  · split at h
    · exact ⟨_, (Option.some.inj h).symm⟩
    · cases h
  · cases h

theorem optimizeBinopCore_idem (L R : Expr) (op : String) (line : Int)
    (hL : optimizeExpr L = L) (hR : optimizeExpr R = R) :
    optimizeExpr (optimizeBinopCore L op R line) = optimizeBinopCore L op R line := by
  unfold optimizeBinopCore
  cases hf : foldConstants L op R line with
  | some e =>
      obtain ⟨v, rfl⟩ := foldConstants_number hf
      rfl
  | none =>
      split_ifs with h1 h2 h3 h4 h5 h6 h7 h8 <;>
        first
          | exact hL
          | exact hR
          | rfl
          | (rw [optimizeExpr, hL, hR]
             unfold optimizeBinopCore
             rw [hf]
             simp_all)

theorem optimizeExpr_idem (e : Expr) : optimizeExpr (optimizeExpr e) = optimizeExpr e := by
  induction e with
  | number v line => rfl
  | var n line => rfl
  | binop l op r line ihl ihr =>
      rw [optimizeExpr]
      exact optimizeBinopCore_idem _ _ op line ihl ihr

theorem optimizeStmt_ifS_num_nonzero (c : Expr) (tb : List Stmt)
    (eb : Option (List Stmt)) (line v vline : Int)
    (hc : optimizeExpr c = .number v vline) (hv : v ≠ 0) :
    optimizeStmt (.ifS c tb eb line) =
      .ifS (.number v vline) (optimizeStmts tb) none line := by
  simp only [optimizeStmt.eq_def, hc]
  rw [if_pos hv]

theorem optimizeStmt_ifS_num_zero_none (c : Expr) (tb : List Stmt)
    (line vline : Int) (hc : optimizeExpr c = .number 0 vline) :
    optimizeStmt (.ifS c tb none line) = .ifS (.number 0 vline) [] none line := by
  simp only [optimizeStmt.eq_def, hc]
  rw [if_neg (fun h => h rfl)]

theorem optimizeStmt_ifS_num_zero_some_empty (c : Expr) (tb es : List Stmt)
    (line vline : Int) (hc : optimizeExpr c = .number 0 vline) (he : es.isEmpty) :
    optimizeStmt (.ifS c tb (some es) line) = .ifS (.number 0 vline) [] none line := by
  simp only [optimizeStmt.eq_def, hc]
  rw [if_neg (fun h => h rfl), if_pos he]

theorem optimizeStmt_ifS_num_zero_some_nonempty (c : Expr) (tb es : List Stmt)
    (line vline : Int) (hc : optimizeExpr c = .number 0 vline) (he : ¬es.isEmpty) :
    optimizeStmt (.ifS c tb (some es) line) =
      .ifS (.number 0 vline) [] (some (optimizeStmts es)) line := by
  simp only [optimizeStmt.eq_def, hc]
  rw [if_neg (fun h => h rfl), if_neg he]

theorem optimizeStmt_ifS_other_none (c : Expr) (tb : List Stmt) (line : Int)
    (hnot : ∀ v vl, optimizeExpr c ≠ .number v vl) :
    optimizeStmt (.ifS c tb none line) =
      .ifS (optimizeExpr c) (optimizeStmts tb) none line := by
  simp only [optimizeStmt.eq_def]

theorem optimizeStmt_ifS_other_some_empty (c : Expr) (tb es : List Stmt) (line : Int)
    (hnot : ∀ v vl, optimizeExpr c ≠ .number v vl) (he : es.isEmpty) :
    optimizeStmt (.ifS c tb (some es) line) =
      .ifS (optimizeExpr c) (optimizeStmts tb) none line := by
  simp only [optimizeStmt.eq_def]
  cases hcc : optimizeExpr c with
  | number v vl => exact absurd hcc (hnot v vl)
  | var n vl => rw [if_pos he]
  | binop x xop y yl => rw [if_pos he]

theorem optimizeStmt_ifS_other_some_nonempty (c : Expr) (tb es : List Stmt) (line : Int)
    (hnot : ∀ v vl, optimizeExpr c ≠ .number v vl) (he : ¬es.isEmpty) :
    optimizeStmt (.ifS c tb (some es) line) =
      .ifS (optimizeExpr c) (optimizeStmts tb) (some (optimizeStmts es)) line := by
  simp only [optimizeStmt.eq_def]
  cases hcc : optimizeExpr c with
  | number v vl => exact absurd hcc (hnot v vl)
  | var n vl => rw [if_neg he]
  | binop x xop y yl => rw [if_neg he]

theorem optimizeStmt_whileS_zero (c : Expr) (body : List Stmt) (line vline : Int)
    (hc : optimizeExpr c = .number 0 vline) :
    optimizeStmt (.whileS c body line) = .whileS (.number 0 vline) [] line := by
  simp only [optimizeStmt.eq_def, hc]

theorem optimizeStmt_whileS_other (c : Expr) (body : List Stmt) (line : Int)
    (hnot : ∀ vl, optimizeExpr c ≠ .number 0 vl) :
    optimizeStmt (.whileS c body line) =
      .whileS (optimizeExpr c) (optimizeStmts body) line := by
  simp only [optimizeStmt.eq_def]

theorem optimizeStmts_isEmpty (ss : List Stmt) : (optimizeStmts ss).isEmpty = ss.isEmpty := by
  cases ss <;> rfl

mutual

theorem optimizeStmt_idem : (s : Stmt) → optimizeStmt (optimizeStmt s) = optimizeStmt s
  | .assign n e line => by
      rw [optimizeStmt.eq_1, optimizeStmt.eq_1, optimizeExpr_idem]
  | .print e line => by
      rw [optimizeStmt.eq_2, optimizeStmt.eq_2, optimizeExpr_idem]
  | .ifS c tb eb line => by
      cases hc : optimizeExpr c with
      | number v vline =>
          by_cases hv : v = 0
          · subst hv
            cases eb with
            | none =>
                rw [optimizeStmt_ifS_num_zero_none c tb line vline hc,
                  optimizeStmt_ifS_num_zero_none (Expr.number 0 vline) [] line vline rfl]
            | some es =>
                by_cases he : es.isEmpty
                · rw [optimizeStmt_ifS_num_zero_some_empty c tb es line vline hc he,
                    optimizeStmt_ifS_num_zero_none (Expr.number 0 vline) [] line vline rfl]
                · rw [optimizeStmt_ifS_num_zero_some_nonempty c tb es line vline hc he]
                  have he2 : ¬(optimizeStmts es).isEmpty = true := by
                    rw [optimizeStmts_isEmpty]; exact he
                  rw [optimizeStmt_ifS_num_zero_some_nonempty (Expr.number 0 vline) []
                        (optimizeStmts es) line vline rfl he2,
                    optimizeStmts_idem es]
          · rw [optimizeStmt_ifS_num_nonzero c tb eb line v vline hc hv,
              optimizeStmt_ifS_num_nonzero (Expr.number v vline) (optimizeStmts tb) none line
                v vline rfl hv,
              optimizeStmts_idem tb]
      | var n vline =>
          have hnot : ∀ w wl, optimizeExpr c ≠ Expr.number w wl := by
            intro w wl h; rw [hc] at h; cases h
          have hnot2 : ∀ w wl, optimizeExpr (Expr.var n vline) ≠ Expr.number w wl := by
            intro w wl h; cases h
          cases eb with
          | none =>
              rw [optimizeStmt_ifS_other_none c tb line hnot, hc,
                optimizeStmt_ifS_other_none (Expr.var n vline) (optimizeStmts tb) line hnot2]
              show Stmt.ifS (Expr.var n vline) (optimizeStmts (optimizeStmts tb)) none line = _
              rw [optimizeStmts_idem tb]
          | some es =>
              by_cases he : es.isEmpty
              · rw [optimizeStmt_ifS_other_some_empty c tb es line hnot he, hc,
                  optimizeStmt_ifS_other_none (Expr.var n vline) (optimizeStmts tb) line hnot2]
                show Stmt.ifS (Expr.var n vline) (optimizeStmts (optimizeStmts tb)) none line = _
                rw [optimizeStmts_idem tb]
              · rw [optimizeStmt_ifS_other_some_nonempty c tb es line hnot he, hc]
                have he2 : ¬(optimizeStmts es).isEmpty = true := by
                  rw [optimizeStmts_isEmpty]; exact he
                rw [optimizeStmt_ifS_other_some_nonempty (Expr.var n vline) (optimizeStmts tb)
                      (optimizeStmts es) line hnot2 he2]
                show Stmt.ifS (Expr.var n vline) (optimizeStmts (optimizeStmts tb))
                    (some (optimizeStmts (optimizeStmts es))) line = _
                rw [optimizeStmts_idem tb, optimizeStmts_idem es]
      | binop x xop y yline =>
          have hce := optimizeExpr_idem c
          rw [hc] at hce
          have hnot : ∀ w wl, optimizeExpr c ≠ Expr.number w wl := by
            intro w wl h; rw [hc] at h; cases h
          have hnot2 : ∀ w wl, optimizeExpr (Expr.binop x xop y yline) ≠ Expr.number w wl := by
            intro w wl h; rw [hce] at h; cases h
          cases eb with
          | none =>
              rw [optimizeStmt_ifS_other_none c tb line hnot, hc,
                optimizeStmt_ifS_other_none (Expr.binop x xop y yline) (optimizeStmts tb)
                  line hnot2, hce, optimizeStmts_idem tb]
          | some es =>
              by_cases he : es.isEmpty
              · rw [optimizeStmt_ifS_other_some_empty c tb es line hnot he, hc,
                  optimizeStmt_ifS_other_none (Expr.binop x xop y yline) (optimizeStmts tb)
                    line hnot2, hce, optimizeStmts_idem tb]
              · rw [optimizeStmt_ifS_other_some_nonempty c tb es line hnot he, hc]
                have he2 : ¬(optimizeStmts es).isEmpty = true := by
                  rw [optimizeStmts_isEmpty]; exact he
                rw [optimizeStmt_ifS_other_some_nonempty (Expr.binop x xop y yline)
                      (optimizeStmts tb) (optimizeStmts es) line hnot2 he2,
                  hce, optimizeStmts_idem tb, optimizeStmts_idem es]
  | .whileS c body line => by
      cases hc : optimizeExpr c with
      | number v vline =>
          by_cases hv : v = 0
          · subst hv
            rw [optimizeStmt_whileS_zero c body line vline hc,
              optimizeStmt_whileS_zero (Expr.number 0 vline) [] line vline rfl]
          · have hnot : ∀ wl, optimizeExpr c ≠ Expr.number 0 wl := by
              intro wl h
              rw [hc] at h
              cases h
              exact hv rfl
            have hnot2 : ∀ wl, optimizeExpr (Expr.number v vline) ≠ Expr.number 0 wl := by
              intro wl h
              cases h
              exact hv rfl
            rw [optimizeStmt_whileS_other c body line hnot, hc,
              optimizeStmt_whileS_other (Expr.number v vline) (optimizeStmts body) line hnot2]
            show Stmt.whileS (Expr.number v vline) (optimizeStmts (optimizeStmts body)) line = _
            rw [optimizeStmts_idem body]
      | var n vline =>
          have hnot : ∀ wl, optimizeExpr c ≠ Expr.number 0 wl := by
            intro wl h; rw [hc] at h; cases h
          have hnot2 : ∀ wl, optimizeExpr (Expr.var n vline) ≠ Expr.number 0 wl := by
            intro wl h; cases h
          rw [optimizeStmt_whileS_other c body line hnot, hc,
            optimizeStmt_whileS_other (Expr.var n vline) (optimizeStmts body) line hnot2]
          show Stmt.whileS (Expr.var n vline) (optimizeStmts (optimizeStmts body)) line = _
          rw [optimizeStmts_idem body]
      | binop x xop y yline =>
          have hce := optimizeExpr_idem c
          rw [hc] at hce
          have hnot : ∀ wl, optimizeExpr c ≠ Expr.number 0 wl := by
            intro wl h; rw [hc] at h; cases h
          have hnot2 : ∀ wl, optimizeExpr (Expr.binop x xop y yline) ≠ Expr.number 0 wl := by
            intro wl h; rw [hce] at h; cases h
          rw [optimizeStmt_whileS_other c body line hnot, hc,
            optimizeStmt_whileS_other (Expr.binop x xop y yline) (optimizeStmts body)
              line hnot2, hce, optimizeStmts_idem body]

theorem optimizeStmts_idem : (ss : List Stmt) → optimizeStmts (optimizeStmts ss) = optimizeStmts ss
  | [] => rfl
  | s :: rest => by
      rw [optimizeStmts, optimizeStmts, optimizeStmt_idem s, optimizeStmts_idem rest]

end

/-! ## Claim C3: division by a (folded) literal zero is never folded -/

/-- C3: for every expression, `optimize` never reduces a `BinOp` with
operator `/` whose right operand folds to the literal `Number 0` into a
`Number`: the result is still a `BinOp` with operator `/` (with both children
optimized), so the VM division-by-zero fault still fires at run time. -/
theorem optimize_never_folds_division_by_zero (l r : Expr) (line zline : Int)
    (h : optimizeExpr r = .number 0 zline) :
    optimizeExpr (.binop l "/" r line) =
      .binop (optimizeExpr l) "/" (optimizeExpr r) line := by
  rw [optimizeExpr, h]
  cases hl : optimizeExpr l with
  | number lv lline => simp [optimizeBinopCore, foldConstants, evaluateConstants, isNumberEq]
  | var n vline => simp [optimizeBinopCore, foldConstants, isNumberEq]
  | binop a bop b bline => simp [optimizeBinopCore, foldConstants, isNumberEq]

/-- C3 witness: `5 / 0` stays a division `BinOp` (here at a concrete input,
via the theorem). -/
theorem optimize_never_folds_division_by_zero_witness :
    optimizeExpr (.binop (.number 5 1) "/" (.number 0 1) 1) =
      .binop (.number 5 1) "/" (.number 0 1) 1 :=
  optimize_never_folds_division_by_zero (.number 5 1) (.number 0 1) 1 1 rfl

/-! ## Claim C9: the optimizer is a fixed point on its own output -/

/-- C9: re-running the optimizer on its own output is a no-op — in fact for
every `Program` (not only already-folded ones), `optimize (optimize p)` is
structurally identical to `optimize p`. -/
theorem optimizer_fixed_point (p : Program) :
    optimizeProgram (optimizeProgram p) = optimizeProgram p := by
  rw [optimizeProgram, optimizeProgram]
  rw [show (Program.mk (optimizeStmts p.statements)).statements
        = optimizeStmts p.statements from rfl]
  rw [optimizeStmts_idem]

/-! ## Globals lemmas and runtime scoping -/

theorem lookupVar_storeVar_self (g : Globals) (n : String) (v : Int) :
    lookupVar (storeVar g n v) n = some v := by
  induction g with
  | nil => simp [storeVar, lookupVar]
  | cons kv rest ih =>
      obtain ⟨k, w⟩ := kv
      by_cases hk : k = n
      · subst hk
        simp [storeVar, lookupVar]
      · simp [storeVar, lookupVar, hk, ih]

theorem lookupVar_storeVar_other (g : Globals) (n : String) (v : Int) (m : String)
    (hm : m ≠ n) : lookupVar (storeVar g n v) m = lookupVar g m := by
  induction g with
  | nil => simp [storeVar, lookupVar, Ne.symm hm]
  | cons kv rest ih =>
      obtain ⟨k, w⟩ := kv
      by_cases hk : k = n
      · subst hk
        simp [storeVar, lookupVar, Ne.symm hm]
      · simp [storeVar, lookupVar, hk, ih]

theorem lookupVar_storeVar_isSome (g : Globals) (n : String) (v : Int) (m : String)
    (h : (lookupVar g m).isSome) : (lookupVar (storeVar g n v) m).isSome := by
  by_cases hm : m = n
  · subst hm
    rw [lookupVar_storeVar_self]
    rfl
  · rw [lookupVar_storeVar_other g n v m hm]
    exact h

theorem vmStep_globals (code : List Instr) (consts : List Int) (names : List String)
    (st st1 : VMState) (h : vmStep code consts names st = .cont st1) :
    st1.globals = st.globals ∨ ∃ n v, st1.globals = storeVar st.globals n v := by
  unfold vmStep at h
  repeat' split at h
  all_goals try simp_all
  all_goals (cases h; simp)

/-! Manual unfolding equations for the fuel-indexed interpreter. -/

theorem interpStmt_zero (st : InterpSt) (s : Stmt) : interpStmt 0 st s = .timeout := rfl

theorem interpStmt_assign (fuel : Nat) (st : InterpSt) (n : String) (e : Expr) (line : Int) :
    interpStmt (fuel + 1) st (.assign n e line) =
      match interpExpr st.globals e with
      | .ok v => .ok ⟨storeVar st.globals n v, st.output⟩
      | .error er => .err er := rfl

theorem interpStmt_print (fuel : Nat) (st : InterpSt) (e : Expr) (line : Int) :
    interpStmt (fuel + 1) st (.print e line) =
      match interpExpr st.globals e with
      | .ok v => .ok ⟨st.globals, st.output ++ [v]⟩
      | .error er => .err er := rfl

theorem interpStmt_ifS (fuel : Nat) (st : InterpSt) (c : Expr) (tb : List Stmt)
    (eb : Option (List Stmt)) (line : Int) :
    interpStmt (fuel + 1) st (.ifS c tb eb line) =
      match interpExpr st.globals c with
      | .ok v =>
          if v ≠ 0 then interpStmts fuel st tb
          else
            match eb with
            | some es => interpStmts fuel st es
            | none => .ok st
      | .error er => .err er := rfl

theorem interpStmt_whileS (fuel : Nat) (st : InterpSt) (c : Expr) (body : List Stmt)
    (line : Int) :
    interpStmt (fuel + 1) st (.whileS c body line) =
      match interpExpr st.globals c with
      | .ok v =>
          if v = 0 then .ok st
          else
            match interpStmts fuel st body with
            | .ok st1 => interpStmt fuel st1 (.whileS c body line)
            | r => r
      | .error er => .err er := rfl

theorem interpStmts_nil (fuel : Nat) (st : InterpSt) : interpStmts fuel st [] = .ok st := by
  cases fuel <;> rfl

theorem interpStmts_cons (fuel : Nat) (st : InterpSt) (s : Stmt) (rest : List Stmt) :
    interpStmts (fuel + 1) st (s :: rest) =
      match interpStmt fuel st s with
      | .ok st1 => interpStmts fuel st1 rest
      | r => r := rfl

theorem interp_preserves_binding (fuel : Nat) :
    (∀ st s st1, interpStmt fuel st s = .ok st1 →
      ∀ n, (lookupVar st.globals n).isSome → (lookupVar st1.globals n).isSome) ∧
    (∀ st ss st1, interpStmts fuel st ss = .ok st1 →
      ∀ n, (lookupVar st.globals n).isSome → (lookupVar st1.globals n).isSome) := by
  induction fuel with
  | zero =>
      constructor
      · intro st s st1 h
        cases h
      · intro st ss st1 h
        cases ss with
        | nil => cases h; exact fun n hn => hn
        | cons a b => cases h
  | succ fuel ih =>
      obtain ⟨ihS, ihL⟩ := ih
      constructor
      · intro st s st1 h n hn
        cases s with
        | assign m e line =>
            rw [interpStmt_assign] at h
            repeat' split at h
            all_goals first
              | (cases h; exact lookupVar_storeVar_isSome _ _ _ _ hn)
              | cases h
        | print e line =>
            rw [interpStmt_print] at h
            repeat' split at h
            all_goals first
              | (cases h; exact hn)
              | cases h
        | ifS c tb eb line =>
            rw [interpStmt_ifS] at h
            repeat' split at h
            all_goals first
              | (cases h; exact hn)
              | exact ihL st _ st1 h n hn
              | cases h
        | whileS c body line =>
            rw [interpStmt_whileS] at h
            repeat' split at h
            all_goals first
              | (cases h; exact hn)
              | (rename_i st2 heq
                 exact ihS st2 _ st1 h n (ihL st body st2 heq n hn))
              | exact ihL st _ st1 h n hn
              | cases h
              | simp_all
      · intro st ss st1 h n hn
        cases ss with
        | nil => cases h; exact hn
        | cons s rest =>
            rw [interpStmts_cons] at h
            repeat' split at h
            all_goals first
              | (rename_i st2 heq
                 exact ihL st2 rest st1 h n (ihS st s st2 heq n hn))
              | cases h
              | simp_all

/-! ## Claim C1: the comparison opcodes in the VM dispatch -/

/-- C1 (code bug): `CMP_LT`, `CMP_GT`, `CMP_EQ` pop `b` then `a`, push the
0/1 result and advance the pointer, exactly as the claim states — but
`CMP_LE`, `CMP_GE` and `CMP_NEQ`, although defined in the bytecode and
emitted by the compiler for `<=`, `>=`, `!=`, have no dispatch branch in
`VM.run` and fault with `VMError("Unknown opcode: …")`; the final conjunct
executes compiled-style bytecode for `3 <= 5` and faults at the `CMP_LE`. -/
theorem vm_comparison_opcodes_behavior :
    vmStep [⟨.CMP_LT, none⟩] [] [] ⟨[5, 3], [], [], 0⟩ = .cont ⟨[1], [], [], 1⟩ ∧
    vmStep [⟨.CMP_GT, none⟩] [] [] ⟨[5, 3], [], [], 0⟩ = .cont ⟨[0], [], [], 1⟩ ∧
    vmStep [⟨.CMP_EQ, none⟩] [] [] ⟨[5, 3], [], [], 0⟩ = .cont ⟨[0], [], [], 1⟩ ∧
    vmStep [⟨.CMP_LE, none⟩] [] [] ⟨[5, 3], [], [], 0⟩ = .fault (.unknownOpcode .CMP_LE) 0 ∧
    vmStep [⟨.CMP_GE, none⟩] [] [] ⟨[5, 3], [], [], 0⟩ = .fault (.unknownOpcode .CMP_GE) 0 ∧
    vmStep [⟨.CMP_NEQ, none⟩] [] [] ⟨[5, 3], [], [], 0⟩ = .fault (.unknownOpcode .CMP_NEQ) 0 ∧
    vmRun 4 [⟨.LOAD_CONST, some 0⟩, ⟨.LOAD_CONST, some 1⟩, ⟨.CMP_LE, none⟩, ⟨.HALT, none⟩]
      [3, 5] [] ⟨[], [], [], 0⟩ = .fault (.unknownOpcode .CMP_LE) 2 := by
  decide

/-! ## Claim C5: DIV pops b then a, faults on b = 0, else floor division -/

/-- C5: executing `DIV` with at least two stacked values pops `b` then `a`,
faults `"Division by zero"` exactly when `b = 0`, and otherwise pushes
`a // b` (Python floor division, `Int.fdiv`) and advances the pointer. -/
theorem vm_div_floor_and_zero_fault (code : List Instr) (consts : List Int)
    (names : List String) (arg : Option Nat) (b a : Int) (rest : List Int)
    (g : Globals) (out : List Int) (ip : Nat)
    (h : code[ip]? = some ⟨.DIV, arg⟩) :
    vmStep code consts names ⟨b :: a :: rest, g, out, ip⟩ =
      (if b = 0 then .fault .divisionByZero ip
       else .cont ⟨Int.fdiv a b :: rest, g, out, ip + 1⟩) := by
  simp only [vmStep, h]

/-- C5 witness: `-7 DIV 2` pushes `-4` (floor, not truncation), and
`7 DIV 0` faults. -/
theorem vm_div_floor_and_zero_fault_witness :
    vmStep [⟨.DIV, none⟩] [] [] ⟨[2, -7], [], [], 0⟩ = .cont ⟨[-4], [], [], 1⟩ ∧
    vmStep [⟨.DIV, none⟩] [] [] ⟨[0, 7], [], [], 0⟩ = .fault .divisionByZero 0 := by
  constructor
  · have h := vm_div_floor_and_zero_fault [⟨.DIV, none⟩] [] [] none 2 (-7) [] [] [] 0 rfl
    rw [if_neg (by decide)] at h
    rw [h]
    decide
  · have h := vm_div_floor_and_zero_fault [⟨.DIV, none⟩] [] [] none 0 7 [] [] [] 0 rfl
    rw [if_pos rfl] at h
    exact h

/-! ## Claim C10: no block scoping at run time -/

/-- C10: the runtime global mapping is flat.  A store binds the name to its
last stored value (`storeVar`/`lookupVar`), neither a VM step nor a
successful interpreter step ever removes a binding, and concretely:
running `if 1 < 2: x = 5` leaves `x = 5` in the returned mapping both in the
tree-walk interpreter and in the VM on the compiled bytecode, even though
the semantic analyzer reports the post-block reference `print(x)` as an
undefined variable. -/
theorem runtime_no_block_scoping :
    (∀ g n v, lookupVar (storeVar g n v) n = some v) ∧
    (∀ g n v m, m ≠ n → lookupVar (storeVar g n v) m = lookupVar g m) ∧
    (∀ code consts names st st1, vmStep code consts names st = .cont st1 →
      ∀ n, (lookupVar st.globals n).isSome → (lookupVar st1.globals n).isSome) ∧
    (∀ fuel st s st1, interpStmt fuel st s = .ok st1 →
      ∀ n, (lookupVar st.globals n).isSome → (lookupVar st1.globals n).isSome) ∧
    interpProgram 9 scopeDemo = .ok ⟨[("x", 5)], []⟩ ∧
    (∃ code consts names, compileProgram scopeDemo = .ok (code, consts, names) ∧
      ∃ N, vmRun N code consts names ⟨[], [], [], 0⟩ = .ok [("x", 5)] []) ∧
    check scopeDemoRef = .ok [.undefinedVariable "x" 3] := by
  refine ⟨lookupVar_storeVar_self, lookupVar_storeVar_other, ?step, ?interp, ?v1, ?v2, ?v3⟩
  case step =>
    intro code consts names st st1 h n hn
    rcases vmStep_globals code consts names st st1 h with he | ⟨m, v, he⟩
    · rw [he]; exact hn
    · rw [he]; exact lookupVar_storeVar_isSome _ _ _ _ hn
  case interp =>
    intro fuel st s st1 h n hn
    exact (interp_preserves_binding fuel).1 st s st1 h n hn
  case v1 => decide
  case v2 =>
    refine ⟨[⟨.LOAD_CONST, some 0⟩, ⟨.LOAD_CONST, some 1⟩, ⟨.CMP_LT, none⟩,
      ⟨.JUMP_IF_FALSE, some 7⟩, ⟨.LOAD_CONST, some 2⟩, ⟨.STORE_NAME, some 0⟩,
      ⟨.JUMP, some 7⟩, ⟨.HALT, none⟩], [1, 2, 5], ["x"], rfl, 10, by decide⟩
  case v3 => rfl

/-- C10 witness: instances of the hypothesis-bearing conjuncts at concrete
inputs (a store is observable afterwards; an interpreter step preserves an
existing binding). -/
theorem runtime_no_block_scoping_witness :
    lookupVar (storeVar [] "x" 5) "x" = some 5 ∧
    (lookupVar [("y", 2), ("x", 5)] "y").isSome = true :=
  ⟨runtime_no_block_scoping.1 [] "x" 5,
   runtime_no_block_scoping.2.2.2.1 3 ⟨[("y", 2)], []⟩ (.assign "x" (.number 5 1) 1)
     ⟨[("y", 2), ("x", 5)], []⟩ (by decide) "y" (by decide)⟩

end MiniPy


namespace MiniPy

theorem scopeDeclare_ok (sc : ScopeChain) (n : String) (t : Ty) (line : Int)
    (h : scopeLookup sc n = none) : ∃ sc2, scopeDeclare sc n t line = .ok sc2 := by
  cases sc with
  | nil => exact ⟨[], rfl⟩
  | cons f rest =>
      rw [scopeLookup] at h
      cases hf : frameFind f n with
      | some vi => rw [hf] at h; cases h
      | none => rw [scopeDeclare]; simp [hf]

theorem scopeUpdate_ok (sc : ScopeChain) (n : String) (t : Ty) (line : Int)
    (h : (scopeLookup sc n).isSome) : ∃ sc2, scopeUpdate sc n t line = .ok sc2 := by
  induction sc with
  | nil => rw [scopeLookup] at h; simp at h
  | cons f rest ih =>
      rw [scopeUpdate]
      cases hl : scopeLookup (f :: rest) n with
      | none => rw [hl] at h; simp at h
      | some vi =>
          cases hf : frameFind f n with
          | some vj => simp [hf]
          | none =>
              have hr : (scopeLookup rest n).isSome := by
                rw [scopeLookup] at hl
                simp only [hf] at hl
                rw [hl]
                rfl
              obtain ⟨sc2, h2⟩ := ih hr
              simp [hf, h2]

theorem except_bind_ok {e a b : Type} (x : a) (f : a → Except e b) :
    (Except.ok x >>= f : Except e b) = f x := rfl

mutual

theorem analyzeStmt_ok : (s : Stmt) → ∀ st, ∃ t st1, analyzeStmt st s = .ok (t, st1)
  | .assign n e line => fun st => by
      rw [analyzeStmt]
      cases hp : analyzeExpr st e with
      | mk ety st1 =>
          cases hl : scopeLookup st1.scope n with
          | none =>
              by_cases he : ety = Ty.error
              · exact ⟨.error, st1, by simp [hl, he]⟩
              · obtain ⟨sc2, hd⟩ := scopeDeclare_ok st1.scope n ety line hl
                exact ⟨ety, ⟨sc2, st1.errors⟩, by simp [hl, he, hd]; rfl⟩
          | some vi =>
              by_cases ht : ety = vi.type
              · obtain ⟨sc2, hu⟩ := scopeUpdate_ok st1.scope n ety line (by rw [hl]; rfl)
                refine ⟨ety, ⟨sc2, st1.errors⟩, ?_⟩
                simp only [hl]
                rw [if_neg (fun hne => hne ht), hu]
                rfl
              · exact ⟨.error, ⟨st1.scope, st1.errors ++ [.typeMismatch ety vi.type n line]⟩,
                  by simp [hl, ht]⟩
  | .print e line => fun st => by
      rw [analyzeStmt]
      exact ⟨.error, (analyzeExpr st e).2, rfl⟩
  | .ifS c tb eb line => fun st => by
      rw [analyzeStmt]
      cases hp : analyzeExpr st c with
      | mk cty st1 =>
          obtain ⟨st3, h3⟩ := analyzeStmts_ok tb
            ⟨([] : Frame) :: (if cty ≠ Ty.bool then
              AState.mk st1.scope (st1.errors ++ [.condNotBool cty line]) else st1).scope,
              (if cty ≠ Ty.bool then
              AState.mk st1.scope (st1.errors ++ [.condNotBool cty line]) else st1).errors⟩
          cases eb with
          | none =>
              exact ⟨.error, ⟨restoreScope st3.scope, st3.errors⟩,
                by simp only [h3, except_bind_ok]⟩
          | some es =>
              by_cases hes : es.isEmpty
              · refine ⟨.error, ⟨restoreScope st3.scope, st3.errors⟩, ?_⟩
                simp only [h3, except_bind_ok]
                rw [if_pos hes]
              · obtain ⟨st5, h5⟩ := analyzeStmts_ok es
                  ⟨([] : Frame) :: restoreScope st3.scope, st3.errors⟩
                refine ⟨.error, ⟨restoreScope st5.scope, st5.errors⟩, ?_⟩
                simp only [h3, except_bind_ok]
                rw [if_neg hes]
                simp only [h5, except_bind_ok]
  | .whileS c body line => fun st => by
      rw [analyzeStmt]
      cases hp : analyzeExpr st c with
      | mk cty st1 =>
          obtain ⟨st3, h3⟩ := analyzeStmts_ok body
            ⟨([] : Frame) :: (if cty ≠ Ty.bool then
              AState.mk st1.scope (st1.errors ++ [.condNotBool cty line]) else st1).scope,
              (if cty ≠ Ty.bool then
              AState.mk st1.scope (st1.errors ++ [.condNotBool cty line]) else st1).errors⟩
          exact ⟨.error, ⟨restoreScope st3.scope, st3.errors⟩,
            by simp only [h3, except_bind_ok]⟩

theorem analyzeStmts_ok : (ss : List Stmt) → ∀ st, ∃ st1, analyzeStmts st ss = .ok st1
  | [] => fun st => ⟨st, rfl⟩
  | s :: rest => fun st => by
      rw [analyzeStmts]
      obtain ⟨t, st1, h1⟩ := analyzeStmt_ok s st
      obtain ⟨st2, h2⟩ := analyzeStmts_ok rest st1
      rw [h1]
      exact ⟨st2, h2⟩

end

end MiniPy

namespace MiniPy

theorem restoreScope_framesKeys (sc : ScopeChain) :
    framesKeys (restoreScope sc) = (framesKeys sc).tail := by
  cases sc <;> rfl

theorem frameSet_keys (f : Frame) (n : String) (vi : VariableInfo) :
    (frameSet f n vi).map Prod.fst = f.map Prod.fst := by
  simp only [frameSet, List.map_map]
  congr 1
  funext kv
  by_cases h : kv.1 = n <;> simp [h]

theorem frameFind_none_congr (f g : Frame) (hk : f.map Prod.fst = g.map Prod.fst)
    (x : String) (h : frameFind f x = none) : frameFind g x = none := by
  induction f generalizing g with
  | nil =>
      cases g with
      | nil => rfl
      | cons kv rest => cases hk
  | cons kv rest ih =>
      cases g with
      | nil => cases hk
      | cons kv2 rest2 =>
          simp only [List.map_cons, List.cons.injEq] at hk
          rw [frameFind] at h
          rw [frameFind]
          by_cases he : kv.1 = x
          · rw [if_pos he] at h
            cases h
          · rw [if_neg he] at h
            rw [if_neg (hk.1 ▸ he)]
            exact ih rest2 hk.2 h

theorem scopeLookup_none_congr (sc sc2 : ScopeChain)
    (hk : framesKeys sc = framesKeys sc2) (x : String)
    (h : scopeLookup sc x = none) : scopeLookup sc2 x = none := by
  induction sc generalizing sc2 with
  | nil =>
      cases sc2 with
      | nil => rfl
      | cons f rest => cases hk
  | cons f rest ih =>
      cases sc2 with
      | nil => cases hk
      | cons f2 rest2 =>
          simp only [framesKeys, List.map_cons, List.cons.injEq] at hk
          rw [scopeLookup] at h
          rw [scopeLookup]
          cases hf : frameFind f x with
          | some vi => rw [hf] at h; cases h
          | none =>
              rw [hf] at h
              rw [frameFind_none_congr f f2 hk.1 x hf]
              exact ih rest2 hk.2 h

theorem scopeUpdate_keys (sc : ScopeChain) (n : String) (t : Ty) (line : Int)
    (sc2 : ScopeChain) (h : scopeUpdate sc n t line = .ok sc2) :
    framesKeys sc2 = framesKeys sc := by
  induction sc generalizing sc2 with
  | nil => cases h
  | cons f rest ih =>
      rw [scopeUpdate] at h
      cases hl : scopeLookup (f :: rest) n with
      | none => rw [hl] at h; cases h
      | some vi =>
          rw [hl] at h
          by_cases hf : (frameFind f n).isSome
          · rw [if_pos hf] at h
            cases h
            simp [framesKeys, frameSet_keys]
          · rw [if_neg hf] at h
            cases hu : scopeUpdate rest n t line with
            | ok rest2 =>
                rw [hu] at h
                cases h
                simp [framesKeys]
                exact ih rest2 hu
            | error e => rw [hu] at h; cases h

theorem scopeDeclare_keys_tail (sc : ScopeChain) (n : String) (t : Ty) (line : Int)
    (sc2 : ScopeChain) (h : scopeDeclare sc n t line = .ok sc2) :
    (framesKeys sc2).tail = (framesKeys sc).tail := by
  cases sc with
  | nil => cases h; rfl
  | cons f rest =>
      rw [scopeDeclare] at h
      by_cases hf : (frameFind f n).isSome
      · rw [if_pos hf] at h; cases h
      · rw [if_neg hf] at h
        cases h
        rfl

theorem analyzeExpr_scope : ∀ (e : Expr) (st : AState), (analyzeExpr st e).2.scope = st.scope := by
  intro e
  induction e with
  | number v l => intro st; rfl
  | var n l =>
      intro st
      rw [analyzeExpr]
      cases scopeLookup st.scope n <;> rfl
  | binop a op b l iha ihb =>
      intro st
      rw [analyzeExpr]
      cases hp1 : analyzeExpr st a with
      | mk lt st1 =>
          cases hp2 : analyzeExpr st1 b with
          | mk rt st2 =>
              have h1 : st1.scope = st.scope := by
                have := iha st
                rw [hp1] at this
                exact this
              have h2 : st2.scope = st1.scope := by
                have := ihb st1
                rw [hp2] at this
                exact this
              simp only [hp2]
              split_ifs <;> simp [h1, h2]

end MiniPy

namespace MiniPy

theorem except_bind_error {e a b : Type} (er : e) (f : a → Except e b) :
    (Except.error er >>= f : Except e b) = .error er := rfl

mutual

theorem analyzeStmt_keysTail : (s : Stmt) → ∀ st t st1,
    analyzeStmt st s = .ok (t, st1) →
    (framesKeys st1.scope).tail = (framesKeys st.scope).tail
  | .assign n e line => fun st t st1 h => by
      rw [analyzeStmt] at h
      cases hp : analyzeExpr st e with
      | mk ety stE =>
          have hsc : stE.scope = st.scope := by
            have := analyzeExpr_scope e st
            rw [hp] at this
            exact this
          simp only [hp] at h
          cases hl : scopeLookup stE.scope n with
          | none =>
              simp only [hl] at h
              by_cases he : ety = Ty.error
              · rw [if_pos he] at h
                injection h with h2
                cases h2
                rw [hsc]
              · rw [if_neg he] at h
                cases hd : scopeDeclare stE.scope n ety line with
                | ok sc2 =>
                    rw [hd, except_bind_ok] at h
                    injection h with h2
                    cases h2
                    have := scopeDeclare_keys_tail stE.scope n t line sc2 hd
                    rw [hsc] at this
                    exact this
                | error er => rw [hd, except_bind_error] at h; cases h
          | some vi =>
              simp only [hl] at h
              by_cases ht : ety ≠ vi.type
              · rw [if_pos ht] at h
                injection h with h2
                cases h2
                rw [hsc]
              · rw [if_neg ht] at h
                cases hu : scopeUpdate stE.scope n ety line with
                | ok sc2 =>
                    rw [hu, except_bind_ok] at h
                    injection h with h2
                    cases h2
                    have := scopeUpdate_keys stE.scope n t line sc2 hu
                    rw [hsc] at this
                    rw [this]
                | error er => rw [hu, except_bind_error] at h; cases h
  | .print e line => fun st t st1 h => by
      rw [analyzeStmt] at h
      injection h with h2
      cases h2
      rw [analyzeExpr_scope e st]
  | .ifS c tb eb line => fun st t st1 h => by
      rw [analyzeStmt] at h
      cases hp : analyzeExpr st c with
      | mk cty stE =>
          have hsc : stE.scope = st.scope := by
            have := analyzeExpr_scope c st
            rw [hp] at this
            exact this
          simp only [hp] at h
          set stC : AState :=
            if cty ≠ Ty.bool then ⟨stE.scope, stE.errors ++ [.condNotBool cty line]⟩
            else stE with hC
          have hCscope : stC.scope = stE.scope := by
            rw [hC]
            split <;> rfl
          cases h3 : analyzeStmts ⟨([] : Frame) :: stC.scope, stC.errors⟩ tb with
          | error er => rw [h3, except_bind_error] at h; cases h
          | ok st3 =>
              rw [h3, except_bind_ok] at h
              have hrest : framesKeys (restoreScope st3.scope) = framesKeys st.scope := by
                rw [restoreScope_framesKeys,
                  analyzeStmts_keysTail tb ⟨([] : Frame) :: stC.scope, stC.errors⟩ st3 h3]
                show framesKeys stC.scope = _
                rw [hCscope, hsc]
              split at h
              · rename_i es
                by_cases hes : es.isEmpty
                · rw [if_pos hes] at h
                  injection h with h2
                  cases h2
                  rw [hrest]
                · rw [if_neg hes] at h
                  cases h5 : analyzeStmts
                      ⟨([] : Frame) :: restoreScope st3.scope, st3.errors⟩ es with
                  | error er => rw [h5, except_bind_error] at h; cases h
                  | ok st5 =>
                      rw [h5, except_bind_ok] at h
                      injection h with h2
                      cases h2
                      have hfull5 : framesKeys (restoreScope st5.scope)
                          = framesKeys (restoreScope st3.scope) := by
                        rw [restoreScope_framesKeys,
                          analyzeStmts_keysTail es
                            ⟨([] : Frame) :: restoreScope st3.scope, st3.errors⟩ st5 h5]
                        rfl
                      rw [hfull5, hrest]
              · injection h with h2
                cases h2
                rw [hrest]
  | .whileS c body line => fun st t st1 h => by
      rw [analyzeStmt] at h
      cases hp : analyzeExpr st c with
      | mk cty stE =>
          have hsc : stE.scope = st.scope := by
            have := analyzeExpr_scope c st
            rw [hp] at this
            exact this
          simp only [hp] at h
          set stC : AState :=
            if cty ≠ Ty.bool then ⟨stE.scope, stE.errors ++ [.condNotBool cty line]⟩
            else stE with hC
          have hCscope : stC.scope = stE.scope := by
            rw [hC]
            split <;> rfl
          cases h3 : analyzeStmts ⟨([] : Frame) :: stC.scope, stC.errors⟩ body with
          | error er => rw [h3, except_bind_error] at h; cases h
          | ok st3 =>
              rw [h3, except_bind_ok] at h
              injection h with h2
              cases h2
              have hfull3 : framesKeys (restoreScope st3.scope) = framesKeys stC.scope := by
                rw [restoreScope_framesKeys,
                  analyzeStmts_keysTail body ⟨([] : Frame) :: stC.scope, stC.errors⟩ st3 h3]
                rfl
              rw [hfull3, hCscope, hsc]

theorem analyzeStmts_keysTail : (ss : List Stmt) → ∀ st st1,
    analyzeStmts st ss = .ok st1 →
    (framesKeys st1.scope).tail = (framesKeys st.scope).tail
  | [] => fun st st1 h => by
      cases h
      rfl
  | s :: rest => fun st st1 h => by
      rw [analyzeStmts] at h
      cases h1 : analyzeStmt st s with
      | ok p =>
          obtain ⟨t, st2⟩ := p
          rw [h1, except_bind_ok] at h
          rw [analyzeStmts_keysTail rest st2 st1 h]
          exact analyzeStmt_keysTail s st t st2 h1
      | error er => rw [h1, except_bind_error] at h; cases h

end

end MiniPy

namespace MiniPy

theorem analyzeStmt_ifS_keys (st : AState) (t : Ty) (st1 : AState)
    (c : Expr) (tb : List Stmt) (eb : Option (List Stmt)) (line : Int)
    (h : analyzeStmt st (.ifS c tb eb line) = .ok (t, st1)) :
    framesKeys st1.scope = framesKeys st.scope := by
  rw [analyzeStmt] at h
  cases hp : analyzeExpr st c with
  | mk cty stE =>
      have hsc : stE.scope = st.scope := by
        have := analyzeExpr_scope c st
        rw [hp] at this
        exact this
      simp only [hp] at h
      set stC : AState :=
        if cty ≠ Ty.bool then ⟨stE.scope, stE.errors ++ [.condNotBool cty line]⟩
        else stE with hC
      have hCscope : stC.scope = stE.scope := by
        rw [hC]
        split <;> rfl
      cases h3 : analyzeStmts ⟨([] : Frame) :: stC.scope, stC.errors⟩ tb with
      | error er => rw [h3, except_bind_error] at h; cases h
      | ok st3 =>
          rw [h3, except_bind_ok] at h
          have hrest : framesKeys (restoreScope st3.scope) = framesKeys st.scope := by
            rw [restoreScope_framesKeys,
              analyzeStmts_keysTail tb ⟨([] : Frame) :: stC.scope, stC.errors⟩ st3 h3]
            show framesKeys stC.scope = _
            rw [hCscope, hsc]
          split at h
          · rename_i es
            by_cases hes : es.isEmpty
            · rw [if_pos hes] at h
              injection h with h2
              cases h2
              exact hrest
            · rw [if_neg hes] at h
              cases h5 : analyzeStmts
                  ⟨([] : Frame) :: restoreScope st3.scope, st3.errors⟩ es with
              | error er => rw [h5, except_bind_error] at h; cases h
              | ok st5 =>
                  rw [h5, except_bind_ok] at h
                  injection h with h2
                  cases h2
                  have hfull5 : framesKeys (restoreScope st5.scope)
                      = framesKeys (restoreScope st3.scope) := by
                    rw [restoreScope_framesKeys,
                      analyzeStmts_keysTail es
                        ⟨([] : Frame) :: restoreScope st3.scope, st3.errors⟩ st5 h5]
                    rfl
                  exact hfull5.trans hrest
          · injection h with h2
            cases h2
            exact hrest

theorem analyzeStmt_whileS_keys (st : AState) (t : Ty) (st1 : AState)
    (c : Expr) (body : List Stmt) (line : Int)
    (h : analyzeStmt st (.whileS c body line) = .ok (t, st1)) :
    framesKeys st1.scope = framesKeys st.scope := by
  rw [analyzeStmt] at h
  cases hp : analyzeExpr st c with
  | mk cty stE =>
      have hsc : stE.scope = st.scope := by
        have := analyzeExpr_scope c st
        rw [hp] at this
        exact this
      simp only [hp] at h
      set stC : AState :=
        if cty ≠ Ty.bool then ⟨stE.scope, stE.errors ++ [.condNotBool cty line]⟩
        else stE with hC
      have hCscope : stC.scope = stE.scope := by
        rw [hC]
        split <;> rfl
      cases h3 : analyzeStmts ⟨([] : Frame) :: stC.scope, stC.errors⟩ body with
      | error er => rw [h3, except_bind_error] at h; cases h
      | ok st3 =>
          rw [h3, except_bind_ok] at h
          injection h with h2
          cases h2
          have hfull3 : framesKeys (restoreScope st3.scope) = framesKeys stC.scope := by
            rw [restoreScope_framesKeys,
              analyzeStmts_keysTail body ⟨([] : Frame) :: stC.scope, stC.errors⟩ st3 h3]
            rfl
          rw [hfull3, hCscope, hsc]

end MiniPy


namespace MiniPy

/-- C6: for every `Program` AST, `SemanticAnalyzer.check` returns its
collected error list and never raises an exception: `Scope.declare` is only
reached after a failed lookup and `Scope.update` only after a successful
one, so their raising branches are unreachable from `check`. -/
theorem check_never_raises (p : Program) : ∃ errs, check p = .ok errs := by
  obtain ⟨st1, h⟩ := analyzeStmts_ok p.statements ⟨[([] : Frame)], []⟩
  refine ⟨st1.errors, ?_⟩
  show (do
      let st2 ← analyzeStmts ⟨[([] : Frame)], []⟩ p.statements
      Except.ok st2.errors : Except SemErr (List SemErr)) = _
  rw [h, except_bind_ok]

/-- C7 counterexample: for `if 1 < 2: x = 5` followed by `print(x + 1)` the
analyzer reports TWO diagnostics (`Undefined variable x` and the cascading
`Arithmetic '+' needs int operands`), refuting the claim's "exactly one
error" for a post-block reference nested inside an operator expression. -/
theorem scope_leak_nested_cascades :
    check scopeDemoNested =
      .ok [.undefinedVariable "x" 3, .arithOperands "+" .error .int 3] ∧
    ¬∃ er, check scopeDemoNested = .ok [er] := by
  constructor
  · rfl
  · rintro ⟨er, h⟩
    rw [show check scopeDemoNested =
        .ok [.undefinedVariable "x" 3, .arithOperands "+" Ty.error Ty.int 3] from rfl] at h
    simp at h

/-- C7 (amended): a name assigned only inside an if/while block and then
referenced once, as the whole expression of a following `print`, always
yields exactly the one `Undefined variable` diagnostic. -/
theorem scope_leak_single_error (blk : Stmt) (x : String) (L : Int)
    (t : Ty) (sc : ScopeChain)
    (hshape : (∃ c tb eb l, blk = .ifS c tb eb l) ∨ ∃ c b l, blk = .whileS c b l)
    (hana : analyzeStmt ⟨[([] : Frame)], []⟩ blk = .ok (t, ⟨sc, []⟩)) :
    check ⟨[blk, .print (.var x L) L]⟩ = .ok [.undefinedVariable x L] := by
  have hkeys : framesKeys sc = framesKeys [([] : Frame)] := by
    rcases hshape with ⟨c, tb, eb, l, rfl⟩ | ⟨c, b, l, rfl⟩
    · exact analyzeStmt_ifS_keys ⟨[([] : Frame)], []⟩ t ⟨sc, []⟩ c tb eb l hana
    · exact analyzeStmt_whileS_keys ⟨[([] : Frame)], []⟩ t ⟨sc, []⟩ c b l hana
  have hlook : scopeLookup sc x = none :=
    scopeLookup_none_congr [([] : Frame)] sc hkeys.symm x rfl
  have hvar : analyzeExpr ⟨sc, ([] : List SemErr)⟩ (.var x L)
      = (.error, ⟨sc, [.undefinedVariable x L]⟩) := by
    rw [analyzeExpr]
    simp [hlook]
  have hprint : analyzeStmt ⟨sc, ([] : List SemErr)⟩ (.print (.var x L) L)
      = .ok (.error, ⟨sc, [.undefinedVariable x L]⟩) := by
    rw [analyzeStmt]
    simp only [hvar]
  have h1 : analyzeStmts ⟨[([] : Frame)], []⟩ [blk, .print (.var x L) L]
      = .ok ⟨sc, [.undefinedVariable x L]⟩ := by
    rw [analyzeStmts, hana, except_bind_ok]
    show analyzeStmts ⟨sc, ([] : List SemErr)⟩ [.print (.var x L) L] = _
    rw [analyzeStmts, hprint, except_bind_ok]
    rfl
  show (do
      let st2 ← analyzeStmts ⟨[([] : Frame)], []⟩ [blk, .print (.var x L) L]
      Except.ok st2.errors : Except SemErr (List SemErr)) = _
  rw [h1, except_bind_ok]

theorem scope_leak_single_error_witness :
    check scopeDemoRef = .ok [.undefinedVariable "x" 3] :=
  scope_leak_single_error
    (.ifS (.binop (.number 1 1) "<" (.number 2 1) 1) [.assign "x" (.number 5 2) 2] none 1)
    "x" 3 .error [([] : Frame)]
    (Or.inl ⟨_, _, _, _, rfl⟩) (by rfl)

/-! ## Lexer indentation balance (C4) -/

theorem countTok_append (a b : List Token) (ty : TokTy) :
    countTok (a ++ b) ty = countTok a ty + countTok b ty := by
  simp [countTok, List.filter_append]

theorem countPend_append (a b : List (TokTy × Nat)) (ty : TokTy) :
    countPend (a ++ b) ty = countPend a ty + countPend b ty := by
  simp [countPend, List.filter_append]

theorem countTok_single_ne (tok : Token) (ty : TokTy) (h : tok.ty ≠ ty) :
    countTok [tok] ty = 0 := by
  have hb : (tok.ty == ty) = false := by
    rw [beq_eq_false_iff_ne]
    exact h
  simp [countTok, List.filter, hb]

theorem countTok_single_eq (tok : Token) (ty : TokTy) (h : tok.ty = ty) :
    countTok [tok] ty = 1 := by
  have hb : (tok.ty == ty) = true := by
    rw [beq_iff_eq]
    exact h
  simp [countTok, List.filter, hb]

theorem lexInv_append_plain (stack : List Nat) (toks : List Token) (tok : Token)
    (h : LexInv stack toks) (hi : tok.ty ≠ .INDENT) (hd : tok.ty ≠ .DEDENT) :
    LexInv stack (toks ++ [tok]) := by
  obtain ⟨h1, h2⟩ := h
  refine ⟨h1, ?_⟩
  rw [countTok_append, countTok_append, countTok_single_ne tok .INDENT hi,
    countTok_single_ne tok .DEDENT hd]
  omega

theorem dedentLoop_spec : ∀ (stack : List Nat) (pend : List (TokTy × Nat)) (lvl : Nat),
    stack ≠ [] →
    (dedentLoop stack pend lvl).1 ≠ [] ∧
      countPend (dedentLoop stack pend lvl).2 .INDENT = countPend pend .INDENT ∧
      countPend (dedentLoop stack pend lvl).2 .DEDENT + (dedentLoop stack pend lvl).1.length
        = countPend pend .DEDENT + stack.length
  | [], _, _, hne => absurd rfl hne
  | [top], pend, lvl, _ => by
      rw [show dedentLoop [top] pend lvl = ([top], pend) from rfl]
      exact ⟨by simp, rfl, rfl⟩
  | top :: next :: rest, pend, lvl, _ => by
      rw [dedentLoop]
      by_cases hlt : lvl < top
      · rw [if_pos hlt]
        have ih := dedentLoop_spec (next :: rest) (pend ++ [(.DEDENT, next)]) lvl (by simp)
        refine ⟨ih.1, ?_, ?_⟩
        · rw [ih.2.1, countPend_append]
          rfl
        · rw [ih.2.2, countPend_append]
          simp [countPend]
          omega

      · rw [if_neg hlt]
        exact ⟨by simp, rfl, rfl⟩

theorem handleIndentation_spec (stack : List Nat) (lvl line col : Nat)
    (stack1 : List Nat) (pend : List (TokTy × Nat))
    (hne : stack ≠ [])
    (h : handleIndentation stack lvl line col = .ok (stack1, pend)) :
    stack1 ≠ [] ∧
      countPend pend .INDENT + stack.length = countPend pend .DEDENT + stack1.length := by
  cases stack with
  | nil => exact absurd rfl hne
  | cons top rest =>
      rw [handleIndentation] at h
      by_cases h1 : lvl > top
      · rw [if_pos h1] at h
        injection h with h2
        injection h2 with h3 h4
        subst h3
        subst h4
        constructor
        · simp
        · simp [countPend]
          omega
      · rw [if_neg h1] at h
        by_cases h2 : lvl < top
        · rw [if_pos h2] at h
          have hd := dedentLoop_spec (top :: rest) [] lvl (by simp)
          cases hdl : dedentLoop (top :: rest) [] lvl with
          | mk s1 p1 =>
              rw [hdl] at hd
              simp only at hd
              cases s1 with
              | nil => exact absurd rfl hd.1
              | cons t1 r1 =>
                  simp only [hdl] at h
                  by_cases h3 : lvl ≠ t1
                  · rw [if_pos h3] at h
                    cases h
                  · rw [if_neg h3] at h
                    injection h with h4
                    injection h4 with h5 h6
                    subst h5
                    subst h6
                    refine ⟨by simp, ?_⟩
                    have hA := hd.2.1
                    have hB := hd.2.2
                    have z1 : countPend ([] : List (TokTy × Nat)) .INDENT = 0 := rfl
                    have z2 : countPend ([] : List (TokTy × Nat)) .DEDENT = 0 := rfl
                    omega
        · rw [if_neg h2] at h
          injection h with h3
          injection h3 with h4 h5
          subst h4
          subst h5
          exact ⟨hne, by simp [countPend]⟩

theorem trailingDedents_spec : ∀ (stack : List Nat) (toks : List Token) (line col : Nat),
    stack ≠ [] →
    countTok (trailingDedents stack toks line col) .INDENT = countTok toks .INDENT ∧
      countTok (trailingDedents stack toks line col) .DEDENT + 1
        = countTok toks .DEDENT + stack.length
  | [], _, _, _, hne => absurd rfl hne
  | [top], toks, line, col, _ => by
      rw [show trailingDedents [top] toks line col = toks from rfl]
      exact ⟨rfl, rfl⟩
  | top :: next :: rest, toks, line, col, _ => by
      rw [trailingDedents]
      have ih := trailingDedents_spec (next :: rest)
        (toks ++ [⟨.DEDENT, .int (next : Int), line, col⟩]) line col (by simp)
      refine ⟨?_, ?_⟩
      · rw [ih.1, countTok_append,
          countTok_single_ne ⟨.DEDENT, .int (next : Int), line, col⟩ .INDENT
            (by intro hx; cases hx)]
        omega
      · rw [ih.2, countTok_append,
          countTok_single_eq ⟨.DEDENT, .int (next : Int), line, col⟩ .DEDENT rfl]
        simp
        omega

theorem lexFinish_balanced (stack : List Nat) (toks : List Token) (line col : Nat)
    (h : LexInv stack toks) :
    countTok (lexFinish stack toks line col) .INDENT
      = countTok (lexFinish stack toks line col) .DEDENT := by
  obtain ⟨h1, h2⟩ := h
  have ht := trailingDedents_spec stack toks line col h1
  obtain ⟨ht1, ht2⟩ := ht
  rw [lexFinish, countTok_append, countTok_append,
    countTok_single_ne ⟨.EOF, .none, line, col⟩ .INDENT (by intro hx; cases hx),
    countTok_single_ne ⟨.EOF, .none, line, col⟩ .DEDENT (by intro hx; cases hx)]
  omega

theorem countTok_map_pend : ∀ (pend : List (TokTy × Nat)) (line : Nat) (ty : TokTy),
    countTok (pend.map fun p => (⟨p.1, .int (p.2 : Int), line, 1⟩ : Token)) ty
      = countPend pend ty
  | [], _, _ => rfl
  | p :: r, line, ty => by
      have ih := countTok_map_pend r line ty
      simp only [countTok, countPend, List.map_cons, List.filter_cons] at *
      cases hb : (p.1 == ty) <;> simp [hb, ih]

theorem lexInv_append_tok (stack : List Nat) (toks : List Token) (ty : TokTy)
    (v : TokVal) (l c : Nat) (h : LexInv stack toks)
    (hi : ty ≠ .INDENT) (hd : ty ≠ .DEDENT) :
    LexInv stack (toks ++ [⟨ty, v, l, c⟩]) :=
  lexInv_append_plain stack toks ⟨ty, v, l, c⟩ h hi hd

theorem lexRest_balanced (src : List Char) (fuel : Nat)
    (IH : ∀ pos line col inN stack toks toks2, LexInv stack toks →
      lexLoop src fuel pos line col inN stack toks = .ok toks2 →
      countTok toks2 .INDENT = countTok toks2 .DEDENT) :
    ∀ pos line col stack toks toks2, LexInv stack toks →
      lexRest src fuel pos line col stack toks = .ok toks2 →
      countTok toks2 .INDENT = countTok toks2 .DEDENT := by
  intro pos line col stack toks toks2 hinv h
  rw [lexRest] at h
  rcases hsw : skipWs src pos line col with ⟨pos1, line1, col1⟩
  simp only [hsw] at h
  cases hc : src[pos1]? with
  | none =>
      simp only [hc] at h
      injection h with h2
      subst h2
      exact lexFinish_balanced _ _ _ _ hinv
  | some c =>
      simp only [hc] at h
      by_cases k1 : c = '\n'
      · rw [if_pos k1] at h
        exact IH _ _ _ _ _ _ _
          (lexInv_append_tok _ _ _ _ _ _ hinv (by decide) (by decide)) h
      rw [if_neg k1] at h
      by_cases k2 : c = '#'
      · rw [if_pos k2] at h
        rcases hsc : skipComment src pos1 line1 col1 with ⟨pos2, line2, col2⟩
        simp only [hsc] at h
        exact IH _ _ _ _ _ _ _ hinv h
      rw [if_neg k2] at h
      by_cases k3 : c = '='
      · rw [if_pos k3] at h
        cases hc2 : src[pos1 + 1]? with
        | none =>
            simp only [hc2] at h
            exact IH _ _ _ _ _ _ _
              (lexInv_append_tok _ _ _ _ _ _ hinv (by decide) (by decide)) h
        | some c2 =>
            simp only [hc2] at h
            by_cases kq : c2 = '='
            · rw [if_pos kq] at h
              exact IH _ _ _ _ _ _ _
                (lexInv_append_tok _ _ _ _ _ _ hinv (by decide) (by decide)) h
            · rw [if_neg kq] at h
              exact IH _ _ _ _ _ _ _
                (lexInv_append_tok _ _ _ _ _ _ hinv (by decide) (by decide)) h
      rw [if_neg k3] at h
      by_cases k4 : c = '+'
      · rw [if_pos k4] at h
        exact IH _ _ _ _ _ _ _
          (lexInv_append_tok _ _ _ _ _ _ hinv (by decide) (by decide)) h
      rw [if_neg k4] at h
      by_cases k5 : c = '-'
      · rw [if_pos k5] at h
        exact IH _ _ _ _ _ _ _
          (lexInv_append_tok _ _ _ _ _ _ hinv (by decide) (by decide)) h
      rw [if_neg k5] at h
      by_cases k6 : c = '*'
      · rw [if_pos k6] at h
        exact IH _ _ _ _ _ _ _
          (lexInv_append_tok _ _ _ _ _ _ hinv (by decide) (by decide)) h
      rw [if_neg k6] at h
      by_cases k7 : c = '/'
      · rw [if_pos k7] at h
        exact IH _ _ _ _ _ _ _
          (lexInv_append_tok _ _ _ _ _ _ hinv (by decide) (by decide)) h
      rw [if_neg k7] at h
      by_cases k8 : c = '<'
      · rw [if_pos k8] at h
        cases hc2 : src[pos1 + 1]? with
        | none =>
            simp only [hc2] at h
            exact IH _ _ _ _ _ _ _
              (lexInv_append_tok _ _ _ _ _ _ hinv (by decide) (by decide)) h
        | some c2 =>
            simp only [hc2] at h
            by_cases kq : c2 = '='
            · rw [if_pos kq] at h
              exact IH _ _ _ _ _ _ _
                (lexInv_append_tok _ _ _ _ _ _ hinv (by decide) (by decide)) h
            · rw [if_neg kq] at h
              exact IH _ _ _ _ _ _ _
                (lexInv_append_tok _ _ _ _ _ _ hinv (by decide) (by decide)) h
      rw [if_neg k8] at h
      by_cases k9 : c = '>'
      · rw [if_pos k9] at h
        cases hc2 : src[pos1 + 1]? with
        | none =>
            simp only [hc2] at h
            exact IH _ _ _ _ _ _ _
              (lexInv_append_tok _ _ _ _ _ _ hinv (by decide) (by decide)) h
        | some c2 =>
            simp only [hc2] at h
            by_cases kq : c2 = '='
            · rw [if_pos kq] at h
              exact IH _ _ _ _ _ _ _
                (lexInv_append_tok _ _ _ _ _ _ hinv (by decide) (by decide)) h
            · rw [if_neg kq] at h
              exact IH _ _ _ _ _ _ _
                (lexInv_append_tok _ _ _ _ _ _ hinv (by decide) (by decide)) h
      rw [if_neg k9] at h
      by_cases k10 : c = '!'
      · rw [if_pos k10] at h
        cases hc2 : src[pos1 + 1]? with
        | none =>
            simp only [hc2] at h
            exact LexResult.noConfusion h
        | some c2 =>
            simp only [hc2] at h
            by_cases kq : c2 = '='
            · rw [if_pos kq] at h
              exact IH _ _ _ _ _ _ _
                (lexInv_append_tok _ _ _ _ _ _ hinv (by decide) (by decide)) h
            · rw [if_neg kq] at h
              exact LexResult.noConfusion h
      rw [if_neg k10] at h
      by_cases k11 : c = '('
      · rw [if_pos k11] at h
        exact IH _ _ _ _ _ _ _
          (lexInv_append_tok _ _ _ _ _ _ hinv (by decide) (by decide)) h
      rw [if_neg k11] at h
      by_cases k12 : c = ')'
      · rw [if_pos k12] at h
        exact IH _ _ _ _ _ _ _
          (lexInv_append_tok _ _ _ _ _ _ hinv (by decide) (by decide)) h
      rw [if_neg k12] at h
      by_cases k13 : c = ':'
      · rw [if_pos k13] at h
        exact IH _ _ _ _ _ _ _
          (lexInv_append_tok _ _ _ _ _ _ hinv (by decide) (by decide)) h
      rw [if_neg k13] at h
      by_cases k14 : c.isDigit = true
      · rw [if_pos k14] at h
        rcases hrn : readNumberAux src pos1 col1 0 with ⟨v, pos2, col2⟩
        simp only [hrn] at h
        exact IH _ _ _ _ _ _ _
          (lexInv_append_tok _ _ _ _ _ _ hinv (by decide) (by decide)) h
      rw [if_neg k14] at h
      by_cases k15 : c.isAlpha = true ∨ c = '_'
      · rw [if_pos k15] at h
        rcases hri : readIdentAux src pos1 col1 "" with ⟨ident, pos2, col2⟩
        simp only [hri] at h
        by_cases kk : isKeyword ident = true
        · rw [if_pos kk] at h
          exact IH _ _ _ _ _ _ _
            (lexInv_append_tok _ _ _ _ _ _ hinv (by decide) (by decide)) h
        · rw [if_neg kk] at h
          exact IH _ _ _ _ _ _ _
            (lexInv_append_tok _ _ _ _ _ _ hinv (by decide) (by decide)) h
      rw [if_neg k15] at h
      exact LexResult.noConfusion h

theorem lexLoop_zero (src : List Char) (pos line col : Nat) (inN : Bool)
    (stack : List Nat) (toks : List Token) :
    lexLoop src 0 pos line col inN stack toks = .timeout := by
  rw [lexLoop]

theorem lexLoop_succ (src : List Char) (f pos line col : Nat) (inN : Bool)
    (stack : List Nat) (toks : List Token) :
    lexLoop src (f + 1) pos line col inN stack toks =
      if pos < src.length then
        if inN then
          match countIndent src pos col 0 with
          | (spaces, pos1, col1) =>
            match src[pos1]? with
            | some c =>
                if c ≠ '\n' then
                  if c ≠ '#' then
                    match handleIndentation stack spaces line col1 with
                    | .error e => .error e
                    | .ok (stack1, pending) =>
                        let toks1 := toks ++ pending.map fun p => ⟨p.1, .int (p.2 : Int), line, 1⟩
                        lexRest src f pos1 line col1 stack1 toks1
                  else lexRest src f pos1 line col1 stack toks
                else lexLoop src f (pos1 + 1) (line + 1) 1 true stack toks
            | none => lexLoop src f pos1 line col1 inN stack toks
        else lexRest src f pos line col stack toks
      else .ok (lexFinish stack toks line col) := by
  rw [lexLoop]

theorem lexLoop_balanced : ∀ (fuel : Nat) (src : List Char)
    (pos line col : Nat) (inN : Bool) (stack : List Nat) (toks toks2 : List Token),
    LexInv stack toks →
    lexLoop src fuel pos line col inN stack toks = .ok toks2 →
    countTok toks2 .INDENT = countTok toks2 .DEDENT := by
  intro fuel
  induction fuel with
  | zero =>
      intro src pos line col inN stack toks toks2 hinv h
      rw [lexLoop_zero] at h
      exact LexResult.noConfusion h
  | succ f IH =>
      intro src pos line col inN stack toks toks2 hinv h
      have IHrest := lexRest_balanced src f (IH src)
      rw [lexLoop_succ] at h
      by_cases hp : pos < src.length
      case neg =>
        rw [if_neg hp] at h
        injection h with h2
        subst h2
        exact lexFinish_balanced _ _ _ _ hinv
      rw [if_pos hp] at h
      by_cases hb : inN = true
      case neg =>
        rw [if_neg hb] at h
        exact IHrest _ _ _ _ _ _ hinv h
      rw [if_pos hb] at h
      rcases hci : countIndent src pos col 0 with ⟨spaces, pos1, col1⟩
      simp only [hci] at h
      cases hgc : src[pos1]? with
      | none =>
          simp only [hgc] at h
          exact IH src _ _ _ _ _ _ _ hinv h
      | some c =>
          simp only [hgc] at h
          by_cases hn : c ≠ '\n'
          case neg =>
            rw [if_neg hn] at h
            exact IH src _ _ _ _ _ _ _ hinv h
          rw [if_pos hn] at h
          by_cases hh : c ≠ '#'
          case neg =>
            rw [if_neg hh] at h
            exact IHrest _ _ _ _ _ _ hinv h
          rw [if_pos hh] at h
          cases hhi : handleIndentation stack spaces line col1 with
          | error e =>
              simp only [hhi] at h
              exact LexResult.noConfusion h
          | ok sp =>
              rcases sp with ⟨stack1, pending⟩
              simp only [hhi] at h
              refine IHrest _ _ _ _ _ _
                ⟨(handleIndentation_spec _ _ _ _ _ _ hinv.1 hhi).1, ?_⟩ h
              rw [countTok_append, countTok_append, countTok_map_pend,
                countTok_map_pend]
              have h1 := (handleIndentation_spec _ _ _ _ _ _ hinv.1 hhi).2
              have h2 := hinv.2
              omega

/-- C4: for every source text on which `tokenize` succeeds (returns a token
stream rather than raising a `LexerError`), the number of `INDENT` tokens in
the returned stream equals the number of `DEDENT` tokens. -/
theorem lexer_indent_dedent_balance (fuel : Nat) (src : List Char)
    (toks : List Token) (h : tokenize fuel src = .ok toks) :
    countTok toks .INDENT = countTok toks .DEDENT := by
  rw [tokenize] at h
  exact lexLoop_balanced fuel src 0 1 1 true [0] [] toks ⟨by simp, rfl⟩ h

theorem readIdentAux_step (src : List Char) (pos col : Nat) (acc : String) (c : Char)
    (h : src[pos]? = some c) (ha : c.isAlphanum = true ∨ c = '_') :
    readIdentAux src pos col acc = readIdentAux src (pos + 1) (col + 1) (acc.push c) := by
  rw [readIdentAux]
  split
  · rename_i c2 h2
    rw [h] at h2
    injection h2 with e
    subst e
    rw [if_pos ha]
  · rename_i h2
    rw [h] at h2
    cases h2

theorem readIdentAux_stop (src : List Char) (pos col : Nat) (acc : String) (c : Char)
    (h : src[pos]? = some c) (ha : ¬(c.isAlphanum = true ∨ c = '_')) :
    readIdentAux src pos col acc = (acc, pos, col) := by
  rw [readIdentAux]
  split
  · rename_i c2 h2
    rw [h] at h2
    injection h2 with e
    subst e
    rw [if_neg ha]
  · rename_i h2
    rw [h] at h2

theorem readNumberAux_step (src : List Char) (pos col : Nat) (acc : Int) (c : Char)
    (h : src[pos]? = some c) (hd : c.isDigit = true) :
    readNumberAux src pos col acc
      = readNumberAux src (pos + 1) (col + 1) (acc * 10 + ((c.toNat - 48 : Nat) : Int)) := by
  rw [readNumberAux]
  split
  · rename_i c2 h2
    rw [h] at h2
    injection h2 with e
    subst e
    rw [if_pos hd]
  · rename_i h2
    rw [h] at h2
    cases h2

theorem readNumberAux_stop (src : List Char) (pos col : Nat) (acc : Int) (c : Char)
    (h : src[pos]? = some c) (hd : ¬c.isDigit = true) :
    readNumberAux src pos col acc = (acc, pos, col) := by
  rw [readNumberAux]
  split
  · rename_i c2 h2
    rw [h] at h2
    injection h2 with e
    subst e
    rw [if_neg hd]
  · rename_i h2
    rw [h] at h2

set_option maxHeartbeats 1600000 in
/-- Witness for C4: the two-line indented program (`if 1:` newline,
one-space-indented `x`) tokenizes to a stream containing exactly one `INDENT`
and one `DEDENT`, and the balance theorem applies to it. -/
theorem lexer_indent_dedent_balance_witness :
    tokenize (0+1+1+1+1+1+1+1) indentDemoSrc = .ok indentDemoToks ∧
      countTok indentDemoToks .INDENT = countTok indentDemoToks .DEDENT := by
  have h : tokenize (0+1+1+1+1+1+1+1) indentDemoSrc = .ok indentDemoToks := by
    have hg0 : indentDemoSrc[0]? = some 'i' := rfl
    have hg3 : indentDemoSrc[3]? = some '1' := rfl
    have hg4 : indentDemoSrc[4]? = some ':' := rfl
    have hg5 : indentDemoSrc[5]? = some '\n' := rfl
    have hg7 : indentDemoSrc[7]? = some 'x' := rfl
    have hg8 : indentDemoSrc[8]? = some '\n' := rfl
    have hci1 : countIndent indentDemoSrc 0 1 0 = (0, 0, 1) := by
      rw [countIndent] <;> try rfl
    have hci5 : countIndent indentDemoSrc 6 1 0 = (1, 7, 2) := by
      rw [countIndent, countIndent] <;> try rfl
    have hw1 : skipWs indentDemoSrc 0 1 1 = (0, 1, 1) := by
      rw [skipWs] <;> try rfl
    have hw2 : skipWs indentDemoSrc 2 1 3 = (3, 1, 4) := by
      rw [skipWs, skipWs] <;> try rfl
    have hw3 : skipWs indentDemoSrc 4 1 5 = (4, 1, 5) := by
      rw [skipWs] <;> try rfl
    have hw4 : skipWs indentDemoSrc 5 1 6 = (5, 1, 6) := by
      rw [skipWs] <;> try rfl
    have hw5 : skipWs indentDemoSrc 7 2 2 = (7, 2, 2) := by
      rw [skipWs] <;> try rfl
    have hw6 : skipWs indentDemoSrc 8 2 3 = (8, 2, 3) := by
      rw [skipWs] <;> try rfl
    have hri1 : readIdentAux indentDemoSrc 0 1 "" = ("if", 2, 3) := by
      rw [readIdentAux_step _ _ _ _ _ rfl (by decide),
        readIdentAux_step _ _ _ _ _ rfl (by decide),
        readIdentAux_stop _ _ _ _ _ rfl (by decide)]
      rfl
    have hri5 : readIdentAux indentDemoSrc 7 2 "" = ("x", 8, 3) := by
      rw [readIdentAux_step _ _ _ _ _ rfl (by decide),
        readIdentAux_stop _ _ _ _ _ rfl (by decide)]
      rfl
    have hrn2 : readNumberAux indentDemoSrc 3 4 0 = (1, 4, 5) := by
      rw [readNumberAux_step _ _ _ _ _ rfl (by decide),
        readNumberAux_stop _ _ _ _ _ rfl (by decide)]
      rfl
    have hh1 : handleIndentation [0] 0 1 1 = .ok ([0], []) := rfl
    have hh5 : handleIndentation [0] 1 2 2 = .ok ([1, 0], [(.INDENT, 1)]) := rfl
    rw [tokenize]
    rw [lexLoop_succ]
    simp +decide only [ite_true, ite_false, hci1, hg0, hh1, List.map_nil, List.append_nil]
    rw [lexRest]
    simp +decide only [ite_true, ite_false, hw1, hg0, hri1, isKeyword]
    rw [lexLoop_succ]
    simp +decide only [ite_true, ite_false]
    rw [lexRest]
    simp +decide only [ite_true, ite_false, hw2, hg3, hrn2]
    rw [lexLoop_succ]
    simp +decide only [ite_true, ite_false]
    rw [lexRest]
    simp +decide only [ite_true, ite_false, hw3, hg4]
    rw [lexLoop_succ]
    simp +decide only [ite_true, ite_false]
    rw [lexRest]
    simp +decide only [ite_true, ite_false, hw4, hg5]
    rw [lexLoop_succ]
    simp +decide only [ite_true, ite_false, hci5, hg7, hh5, List.map_cons, List.map_nil]
    rw [lexRest]
    simp +decide only [ite_true, ite_false, hw5, hg7, hri5, isKeyword]
    rw [lexLoop_succ]
    simp +decide only [ite_true, ite_false]
    rw [lexRest]
    simp +decide only [ite_true, ite_false, hw6, hg8]
    rw [lexLoop_succ]
    simp +decide only [ite_true, ite_false]
  exact ⟨h, lexer_indent_dedent_balance (0+1+1+1+1+1+1+1) indentDemoSrc indentDemoToks h⟩

end MiniPy

namespace MiniPy

theorem getElem?_append_single {α : Type} {l : List α} {x a : α} {p : Nat}
    (h : (l ++ [x])[p]? = some a) : l[p]? = some a ∨ (p = l.length ∧ a = x) := by
  by_cases hp : p < l.length
  · rw [List.getElem?_append_left hp] at h
    exact Or.inl h
  · have hlen := lt_length_of_getElem? h
    rw [List.length_append] at hlen
    have hp2 : p = l.length := by simp at hlen; omega
    subst hp2
    rw [List.getElem?_concat_length] at h
    injection h with h2
    exact Or.inr ⟨rfl, h2.symm⟩

theorem jumpBounded_nil (B : Nat) : jumpBounded [] B := by
  intro i hi
  cases hi

theorem jumpBounded_append {code : List Instr} {B : Nat} (i : Instr)
    (h : jumpBounded code B)
    (hi : (i.opcode = .JUMP ∨ i.opcode = .JUMP_IF_FALSE) →
      ∀ t, i.arg = some t → t ≤ B) :
    jumpBounded (code ++ [i]) B := by
  intro j hj hop t ht
  rcases List.mem_append.1 hj with hm | hm
  · exact h j hm hop t ht
  · have he : j = i := by simpa using hm
    subst he
    exact hi hop t ht

theorem unresolvedAt_lt {code : List Instr} {p : Nat}
    (h : unresolvedAt code p) : p < code.length := by
  obtain ⟨i, hget, _, _⟩ := h
  exact lt_length_of_getElem? hget

theorem unresolvedAt_append {code : List Instr} {i : Instr} {p : Nat}
    (h : unresolvedAt (code ++ [i]) p) :
    unresolvedAt code p ∨ p = code.length := by
  obtain ⟨j, hget, hop, harg⟩ := h
  rcases getElem?_append_single hget with hg | ⟨hp, _⟩
  · exact Or.inl ⟨j, hg, hop, harg⟩
  · exact Or.inr hp

theorem unresolvedAt_append_resolved {code : List Instr} {i : Instr} {p : Nat}
    (hres : ¬((i.opcode = .JUMP ∨ i.opcode = .JUMP_IF_FALSE) ∧ i.arg = none))
    (h : unresolvedAt (code ++ [i]) p) : unresolvedAt code p := by
  obtain ⟨j, hget, hop, harg⟩ := h
  rcases getElem?_append_single hget with hg | ⟨_, he⟩
  · exact ⟨j, hg, hop, harg⟩
  · subst he
    exact absurd ⟨hop, harg⟩ hres

theorem patchJump_length (s : CompSt) (pos target : Nat) :
    (patchJump s pos target).code.length = s.code.length := by
  rw [patchJump]
  split
  · simp
  · rfl

theorem patchJump_jumpBounded {s : CompSt} {B : Nat} (pos target : Nat)
    (ht : target ≤ B) (h : jumpBounded s.code B) :
    jumpBounded (patchJump s pos target).code B := by
  rw [patchJump]
  split
  · intro j hj hop t harg
    rcases List.mem_or_eq_of_mem_set hj with hm | he
    · exact h j hm hop t harg
    · subst he
      injection harg with e
      subst e
      exact ht
  · exact h

theorem patchJump_unresolved_ne {s : CompSt} {pos target p : Nat}
    (hlt : pos < s.code.length)
    (h : unresolvedAt (patchJump s pos target).code p) :
    p ≠ pos ∧ unresolvedAt s.code p := by
  rw [patchJump, dif_pos hlt] at h
  obtain ⟨j, hget, hop, harg⟩ := h
  by_cases hp : p = pos
  · subst hp
    rw [List.getElem?_set_eq hlt] at hget
    injection hget with he
    subst he
    cases harg
  · rw [List.getElem?_set_ne (fun he => hp he.symm)] at hget
    exact ⟨hp, j, hget, hop, harg⟩

theorem constIndex_code (s : CompSt) (v : Int) : (constIndex s v).2.code = s.code := by
  rw [constIndex]
  split <;> rfl

theorem nameIndex_code (s : CompSt) (n : String) : (nameIndex s n).2.code = s.code := by
  rw [nameIndex]
  split <;> rfl

theorem nonjump_append_props (code : List Instr) (i : Instr)
    (hnj : ¬(i.opcode = .JUMP ∨ i.opcode = .JUMP_IF_FALSE)) :
    (∀ B, jumpBounded code B → jumpBounded (code ++ [i]) B) ∧
    (∀ p, unresolvedAt (code ++ [i]) p → unresolvedAt code p) :=
  ⟨fun _ h => jumpBounded_append i h (fun hop => absurd hop hnj),
   fun _ hp => unresolvedAt_append_resolved (fun hc => hnj hc.1) hp⟩

set_option maxHeartbeats 1000000 in
theorem compileExpr_jumps : ∀ (e : Expr) (s s' : CompSt),
    compileExpr s e = .ok s' →
    s.code.length ≤ s'.code.length ∧
    (∀ B, jumpBounded s.code B → jumpBounded s'.code B) ∧
    (∀ p, unresolvedAt s'.code p → unresolvedAt s.code p)
  | .number v line, s, s', h => by
      rw [compileExpr] at h
      split at h
      rename_i x i s1 heq
      injection h with h1
      have hcode : s1.code = s.code := by
        have hcc := constIndex_code s v
        rw [heq] at hcc
        exact hcc
      rw [← h1]
      have hp := nonjump_append_props s.code (⟨.LOAD_CONST, some i⟩ : Instr)
        (by rintro (hx | hx) <;> cases hx)
      refine ⟨?_, ?_, ?_⟩
      · show s.code.length ≤ (s1.code ++ [(⟨.LOAD_CONST, some i⟩ : Instr)]).length
        rw [hcode]
        simp
      · intro B hb
        show jumpBounded (s1.code ++ [(⟨.LOAD_CONST, some i⟩ : Instr)]) B
        rw [hcode]
        exact hp.1 B hb
      · intro p hpp
        have hpp2 : unresolvedAt (s1.code ++ [(⟨.LOAD_CONST, some i⟩ : Instr)]) p := hpp
        rw [hcode] at hpp2
        exact hp.2 p hpp2
  | .var n line, s, s', h => by
      rw [compileExpr] at h
      split at h
      rename_i x i s1 heq
      injection h with h1
      have hcode : s1.code = s.code := by
        have hcc := nameIndex_code s n
        rw [heq] at hcc
        exact hcc
      rw [← h1]
      have hp := nonjump_append_props s.code (⟨.LOAD_NAME, some i⟩ : Instr)
        (by rintro (hx | hx) <;> cases hx)
      refine ⟨?_, ?_, ?_⟩
      · show s.code.length ≤ (s1.code ++ [(⟨.LOAD_NAME, some i⟩ : Instr)]).length
        rw [hcode]
        simp
      · intro B hb
        show jumpBounded (s1.code ++ [(⟨.LOAD_NAME, some i⟩ : Instr)]) B
        rw [hcode]
        exact hp.1 B hb
      · intro p hpp
        have hpp2 : unresolvedAt (s1.code ++ [(⟨.LOAD_NAME, some i⟩ : Instr)]) p := hpp
        rw [hcode] at hpp2
        exact hp.2 p hpp2
  | .binop l op r line, s, s', h => by
      rw [compileExpr] at h
      cases h1 : compileExpr s l with
      | error e1 => rw [h1, except_bind_error] at h; cases h
      | ok s1 =>
          rw [h1, except_bind_ok] at h
          cases h2 : compileExpr s1 r with
          | error e2 => rw [h2, except_bind_error] at h; cases h
          | ok s2 =>
              rw [h2, except_bind_ok] at h
              have ih1 := compileExpr_jumps l s s1 h1
              have ih2 := compileExpr_jumps r s1 s2 h2
              cases hoc : opcodeOf op with
              | none => simp only [hoc] at h; cases h
              | some oc =>
                  simp only [hoc] at h
                  injection h with h1'
                  have hc : s'.code = s2.code ++ [⟨oc, none⟩] := by
                    rw [← h1']
                    rfl
                  have hnj : ¬(Instr.opcode ⟨oc, none⟩ = .JUMP
                      ∨ Instr.opcode ⟨oc, none⟩ = .JUMP_IF_FALSE) := by
                    rw [opcodeOf] at hoc
                    repeat' split at hoc
                    all_goals first
                      | (injection hoc with he
                         subst he
                         rintro (hx | hx) <;> cases hx)
                      | cases hoc
                  have hp := nonjump_append_props s2.code ⟨oc, none⟩ hnj
                  rw [hc]
                  refine ⟨?_, ?_, ?_⟩
                  · have := ih1.1.trans ih2.1
                    simp
                    omega
                  · intro B hb
                    exact hp.1 B (ih2.2.1 B (ih1.2.1 B hb))
                  · intro p hp2
                    exact ih1.2.2 p (ih2.2.2 p (hp.2 p hp2))

end MiniPy

namespace MiniPy

set_option maxHeartbeats 1000000 in
mutual

theorem compileStmt_jumps : (st : Stmt) → ∀ s s',
    compileStmt s st = .ok s' →
    s.code.length ≤ s'.code.length ∧
    (∀ B, s'.code.length ≤ B → jumpBounded s.code B → jumpBounded s'.code B) ∧
    (∀ p, unresolvedAt s'.code p → unresolvedAt s.code p)
  | .assign n e line, s, s', h => by
      rw [compileStmt] at h
      cases h1 : compileExpr s e with
      | error e1 => rw [h1, except_bind_error] at h; cases h
      | ok s1 =>
          rw [h1, except_bind_ok] at h
          split at h
          rename_i x i s2 heq
          injection h with h2
          have ihe := compileExpr_jumps e s s1 h1
          have hcode : s2.code = s1.code := by
            have hcc := nameIndex_code s1 n
            rw [heq] at hcc
            exact hcc
          rw [← h2]
          have hp := nonjump_append_props s1.code (⟨.STORE_NAME, some i⟩ : Instr)
            (by rintro (hx | hx) <;> cases hx)
          refine ⟨?_, ?_, ?_⟩
          · show s.code.length ≤ (s2.code ++ [(⟨.STORE_NAME, some i⟩ : Instr)]).length
            rw [hcode]
            have := ihe.1
            simp
            omega
          · intro B hB hb
            show jumpBounded (s2.code ++ [(⟨.STORE_NAME, some i⟩ : Instr)]) B
            rw [hcode]
            exact hp.1 B (ihe.2.1 B hb)
          · intro p hpp
            have hpp2 : unresolvedAt (s2.code ++ [(⟨.STORE_NAME, some i⟩ : Instr)]) p := hpp
            rw [hcode] at hpp2
            exact ihe.2.2 p (hp.2 p hpp2)
  | .print e line, s, s', h => by
      rw [compileStmt] at h
      cases h1 : compileExpr s e with
      | error e1 => rw [h1, except_bind_error] at h; cases h
      | ok s1 =>
          rw [h1, except_bind_ok] at h
          injection h with h2
          have ihe := compileExpr_jumps e s s1 h1
          rw [← h2]
          have hp := nonjump_append_props s1.code (⟨.PRINT, none⟩ : Instr)
            (by rintro (hx | hx) <;> cases hx)
          refine ⟨?_, ?_, ?_⟩
          · show s.code.length ≤ (s1.code ++ [(⟨.PRINT, none⟩ : Instr)]).length
            have := ihe.1
            simp
            omega
          · intro B hB hb
            exact hp.1 B (ihe.2.1 B hb)
          · intro p hpp
            exact ihe.2.2 p (hp.2 p hpp)
  | .ifS c tb eb line, s, s', h => by
      rw [compileStmt] at h
      cases h1 : compileExpr s c with
      | error e1 => rw [h1, except_bind_error] at h; cases h
      | ok s1 =>
          rw [h1, except_bind_ok] at h
          have ihc := compileExpr_jumps c s s1 h1
          split at h
          rename_i x elsePos s2 heq
          have hee : (s1.code.length,
              (⟨s1.code ++ [(⟨.JUMP_IF_FALSE, none⟩ : Instr)], s1.consts, s1.names⟩ : CompSt))
              = (elsePos, s2) := heq
          injection hee with he1 he2
          have hE : elsePos = s1.code.length := he1.symm
          have h2code : s2.code = s1.code ++ [(⟨.JUMP_IF_FALSE, none⟩ : Instr)] := by
            rw [← he2]
          have hl2 : s2.code.length = s1.code.length + 1 := by
            rw [h2code]
            simp
          cases h3 : compileStmts s2 tb with
          | error e3 => rw [h3, except_bind_error] at h; cases h
          | ok s3 =>
              rw [h3, except_bind_ok] at h
              have iht := compileStmts_jumps tb s2 s3 h3
              split at h
              rename_i y endPos s4 heq4
              have hee4 : (s3.code.length,
                  (⟨s3.code ++ [(⟨.JUMP, none⟩ : Instr)], s3.consts, s3.names⟩ : CompSt))
                  = (endPos, s4) := heq4
              injection hee4 with he3 he4
              have hEnd : endPos = s3.code.length := he3.symm
              have h4code : s4.code = s3.code ++ [(⟨.JUMP, none⟩ : Instr)] := by
                rw [← he4]
              have hl4 : s4.code.length = s3.code.length + 1 := by
                rw [h4code]
                simp
              have hl5 : (patchJump s4 elsePos s4.code.length).code.length
                  = s4.code.length := patchJump_length s4 elsePos s4.code.length
              split at h
              · rename_i es
                split at h
                · rw [except_bind_ok] at h
                  injection h with h6
                  subst h6
                  refine ⟨?_, ?_, ?_⟩
                  · rw [patchJump_length, hl5]
                    have := ihc.1
                    have := iht.1
                    omega
                  · intro B hB hb
                    rw [patchJump_length, hl5] at hB
                    have jb1 := ihc.2.1 B hb
                    have jb2 : jumpBounded s2.code B := by
                      rw [h2code]
                      exact jumpBounded_append _ jb1 (fun _ _ ht => nomatch ht)
                    have jb3 := iht.2.1 B (by omega) jb2
                    have jb4 : jumpBounded s4.code B := by
                      rw [h4code]
                      exact jumpBounded_append _ jb3 (fun _ _ ht => nomatch ht)
                    have jb5 := patchJump_jumpBounded elsePos s4.code.length
                      (by omega) jb4
                    exact patchJump_jumpBounded _ _ (by rw [hl5]; omega) jb5
                  · intro p hp
                    have hpe := patchJump_unresolved_ne
                      (show endPos < (patchJump s4 elsePos s4.code.length).code.length by
                        rw [hl5]
                        omega) hp
                    have hpe2 := patchJump_unresolved_ne
                      (show elsePos < s4.code.length by omega) hpe.2
                    have hp4 := hpe2.2
                    rw [h4code] at hp4
                    rcases unresolvedAt_append hp4 with hp3 | hpe3
                    · have hp2 := iht.2.2 p hp3
                      rw [h2code] at hp2
                      rcases unresolvedAt_append hp2 with hp1 | hpe1
                      · exact ihc.2.2 p hp1
                      · exact absurd (show p = elsePos by omega) hpe2.1
                    · exact absurd (show p = endPos by omega) hpe.1
                · cases h5 : compileStmts (patchJump s4 elsePos s4.code.length) es with
                  | error e5 =>
                      simp only [h5, except_bind_error] at h
                      cases h
                  | ok s6 =>
                      simp only [h5, except_bind_ok] at h
                      injection h with h6
                      subst h6
                      have ihe := compileStmts_jumps es
                        (patchJump s4 elsePos s4.code.length) s6 h5
                      have hl6 : s4.code.length ≤ s6.code.length := by
                        have hx := ihe.1
                        rw [hl5] at hx
                        exact hx
                      refine ⟨?_, ?_, ?_⟩
                      · rw [patchJump_length]
                        have := ihc.1
                        have := iht.1
                        omega
                      · intro B hB hb
                        rw [patchJump_length] at hB
                        have jb1 := ihc.2.1 B hb
                        have jb2 : jumpBounded s2.code B := by
                          rw [h2code]
                          exact jumpBounded_append _ jb1 (fun _ _ ht => nomatch ht)
                        have jb3 := iht.2.1 B (by omega) jb2
                        have jb4 : jumpBounded s4.code B := by
                          rw [h4code]
                          exact jumpBounded_append _ jb3 (fun _ _ ht => nomatch ht)
                        have jb5 := patchJump_jumpBounded elsePos s4.code.length
                          (by omega) jb4
                        have jb6 := ihe.2.1 B (by omega) jb5
                        exact patchJump_jumpBounded _ _ (by omega) jb6
                      · intro p hp
                        have hpe := patchJump_unresolved_ne
                          (show endPos < s6.code.length by omega) hp
                        have hp6 := ihe.2.2 p hpe.2
                        have hpe2 := patchJump_unresolved_ne
                          (show elsePos < s4.code.length by omega) hp6
                        have hp4 := hpe2.2
                        rw [h4code] at hp4
                        rcases unresolvedAt_append hp4 with hp3 | hpe3
                        · have hp2 := iht.2.2 p hp3
                          rw [h2code] at hp2
                          rcases unresolvedAt_append hp2 with hp1 | hpe1
                          · exact ihc.2.2 p hp1
                          · exact absurd (show p = elsePos by omega) hpe2.1
                        · exact absurd (show p = endPos by omega) hpe.1
              · rw [except_bind_ok] at h
                injection h with h6
                subst h6
                refine ⟨?_, ?_, ?_⟩
                · rw [patchJump_length, hl5]
                  have := ihc.1
                  have := iht.1
                  omega
                · intro B hB hb
                  rw [patchJump_length, hl5] at hB
                  have jb1 := ihc.2.1 B hb
                  have jb2 : jumpBounded s2.code B := by
                    rw [h2code]
                    exact jumpBounded_append _ jb1 (fun _ _ ht => nomatch ht)
                  have jb3 := iht.2.1 B (by omega) jb2
                  have jb4 : jumpBounded s4.code B := by
                    rw [h4code]
                    exact jumpBounded_append _ jb3 (fun _ _ ht => nomatch ht)
                  have jb5 := patchJump_jumpBounded elsePos s4.code.length
                    (by omega) jb4
                  exact patchJump_jumpBounded _ _ (by rw [hl5]; omega) jb5
                · intro p hp
                  have hpe := patchJump_unresolved_ne
                    (show endPos < (patchJump s4 elsePos s4.code.length).code.length by
                      rw [hl5]
                      omega) hp
                  have hpe2 := patchJump_unresolved_ne
                    (show elsePos < s4.code.length by omega) hpe.2
                  have hp4 := hpe2.2
                  rw [h4code] at hp4
                  rcases unresolvedAt_append hp4 with hp3 | hpe3
                  · have hp2 := iht.2.2 p hp3
                    rw [h2code] at hp2
                    rcases unresolvedAt_append hp2 with hp1 | hpe1
                    · exact ihc.2.2 p hp1
                    · exact absurd (show p = elsePos by omega) hpe2.1
                  · exact absurd (show p = endPos by omega) hpe.1
  | .whileS c body line, s, s', h => by
      rw [compileStmt] at h
      cases h1 : compileExpr s c with
      | error e1 => rw [h1, except_bind_error] at h; cases h
      | ok s1 =>
          rw [h1, except_bind_ok] at h
          have ihc := compileExpr_jumps c s s1 h1
          split at h
          rename_i x endPos s2 heq
          have hee : (s1.code.length,
              (⟨s1.code ++ [(⟨.JUMP_IF_FALSE, none⟩ : Instr)], s1.consts, s1.names⟩ : CompSt))
              = (endPos, s2) := heq
          injection hee with he1 he2
          have hE : endPos = s1.code.length := he1.symm
          have h2code : s2.code = s1.code ++ [(⟨.JUMP_IF_FALSE, none⟩ : Instr)] := by
            rw [← he2]
          have hl2 : s2.code.length = s1.code.length + 1 := by
            rw [h2code]
            simp
          cases h3 : compileStmts s2 body with
          | error e3 => rw [h3, except_bind_error] at h; cases h
          | ok s3 =>
              rw [h3, except_bind_ok] at h
              have iht := compileStmts_jumps body s2 s3 h3
              injection h with h6
              subst h6
              have h4code : (emit s3 .JUMP (some s.code.length)).2.code
                  = s3.code ++ [(⟨.JUMP, some s.code.length⟩ : Instr)] := rfl
              have hl4 : (emit s3 .JUMP (some s.code.length)).2.code.length
                  = s3.code.length + 1 := by
                rw [h4code]
                simp
              refine ⟨?_, ?_, ?_⟩
              · rw [patchJump_length, hl4]
                have := ihc.1
                have := iht.1
                omega
              · intro B hB hb
                rw [patchJump_length, hl4] at hB
                have jb1 := ihc.2.1 B hb
                have jb2 : jumpBounded s2.code B := by
                  rw [h2code]
                  exact jumpBounded_append _ jb1 (fun _ _ ht => nomatch ht)
                have jb3 := iht.2.1 B (by omega) jb2
                have jb4 : jumpBounded (emit s3 .JUMP (some s.code.length)).2.code B := by
                  rw [h4code]
                  refine jumpBounded_append _ jb3 ?_
                  intro hop t ht
                  injection ht with hte
                  have := ihc.1
                  have := iht.1
                  omega
                exact patchJump_jumpBounded _ _ (by rw [hl4]; omega) jb4
              · intro p hp
                have hpe := patchJump_unresolved_ne
                  (show endPos < (emit s3 .JUMP (some s.code.length)).2.code.length by
                    rw [hl4]
                    have := iht.1
                    omega) hp
                have hp4 := hpe.2
                rw [h4code] at hp4
                have hp3 := unresolvedAt_append_resolved
                  (fun hcc => Option.noConfusion hcc.2) hp4
                have hp2 := iht.2.2 p hp3
                rw [h2code] at hp2
                rcases unresolvedAt_append hp2 with hp1 | hpe1
                · exact ihc.2.2 p hp1
                · exact absurd (show p = endPos by omega) hpe.1

theorem compileStmts_jumps : (ss : List Stmt) → ∀ s s',
    compileStmts s ss = .ok s' →
    s.code.length ≤ s'.code.length ∧
    (∀ B, s'.code.length ≤ B → jumpBounded s.code B → jumpBounded s'.code B) ∧
    (∀ p, unresolvedAt s'.code p → unresolvedAt s.code p)
  | [], s, s', h => by
      rw [compileStmts] at h
      injection h with h1
      subst h1
      exact ⟨le_refl _, fun B hB hb => hb, fun p hp => hp⟩
  | st :: rest, s, s', h => by
      rw [compileStmts] at h
      cases h1 : compileStmt s st with
      | error e1 => rw [h1, except_bind_error] at h; cases h
      | ok s1 =>
          rw [h1, except_bind_ok] at h
          have ih1 := compileStmt_jumps st s s1 h1
          have ih2 := compileStmts_jumps rest s1 s' h
          refine ⟨le_trans ih1.1 ih2.1, ?_, ?_⟩
          · intro B hB hb
            exact ih2.2.1 B hB (ih1.2.1 B (le_trans ih2.1 hB) hb)
          · intro p hp
            exact ih1.2.2 p (ih2.2.2 p hp)

end

end MiniPy

namespace MiniPy

/-- C8: after `compile(Program)` returns, every JUMP and JUMP_IF_FALSE
instruction in the emitted code array carries a resolved integer operand that
is a valid instruction index (strictly below the code length, i.e. at most
the final HALT position); no backpatching placeholder remains unresolved. -/
theorem compiler_jumps_patched_and_valid (p : Program)
    (code : List Instr) (consts : List Int) (names : List String)
    (h : compileProgram p = .ok (code, consts, names)) :
    ∀ i ∈ code, (i.opcode = .JUMP ∨ i.opcode = .JUMP_IF_FALSE) →
      ∃ t, i.arg = some t ∧ t < code.length := by
  rw [compileProgram] at h
  cases hs : compileStmts ⟨[], [], []⟩ p.statements with
  | error e => rw [hs, except_bind_error] at h; cases h
  | ok s =>
      simp only [hs, except_bind_ok] at h
      injection h with h2
      injection h2 with hcode hrest
      injection hrest with hconsts hnames
      have hcode2 : code = s.code ++ [(⟨.HALT, none⟩ : Instr)] := by
        rw [← hcode]
        rfl
      have hj := compileStmts_jumps p.statements ⟨[], [], []⟩ s hs
      intro i hi hop
      rw [hcode2] at hi
      rcases List.mem_append.1 hi with hm | hm
      · cases harg : i.arg with
        | none =>
            obtain ⟨n, hn, he⟩ := List.mem_iff_getElem.mp hm
            have hg : s.code[n]? = some i := by
              rw [← he]
              exact (List.getElem?_eq_some_getElem_iff s.code n hn).mpr trivial
            have hu : unresolvedAt s.code n := ⟨i, hg, hop, harg⟩
            obtain ⟨j, hj2, _, _⟩ := hj.2.2 n hu
            rw [show (⟨[], [], []⟩ : CompSt).code = ([] : List Instr) from rfl,
              List.getElem?_nil] at hj2
            cases hj2
        | some t =>
            refine ⟨t, rfl, ?_⟩
            have hb := hj.2.1 s.code.length (le_refl _) (jumpBounded_nil _)
            have hle := hb i hm hop t harg
            rw [hcode2]
            simp
            omega
      · have he : i = ⟨.HALT, none⟩ := by simpa using hm
        subst he
        rcases hop with hx | hx <;> cases hx

/-- Witness for C8: `loopDemo` (`x = 0` / `while x < 3: x = x + 1` /
`print(x)`) compiles to a 14-instruction array whose JUMP_IF_FALSE targets
index 11 and whose JUMP targets index 2 — both resolved and in range. -/
theorem compiler_jumps_patched_and_valid_witness :
    compileProgram loopDemo = .ok (loopDemoCode, [0, 3, 1], ["x"]) ∧
      ∀ i ∈ loopDemoCode, (i.opcode = .JUMP ∨ i.opcode = .JUMP_IF_FALSE) →
        ∃ t, i.arg = some t ∧ t < loopDemoCode.length :=
  ⟨rfl, compiler_jumps_patched_and_valid loopDemo loopDemoCode [0, 3, 1] ["x"] rfl⟩

end MiniPy

namespace MiniPy

theorem prefix_getElem? {α : Type} {l L : List α} (h : l <+: L) {i : Nat}
    (hi : i < l.length) : L[i]? = l[i]? := by
  obtain ⟨t, rfl⟩ := h
  rw [List.getElem?_append_left hi]

theorem prefix_set {α : Type} {l L : List α} (h : l <+: L) {pos : Nat}
    (hpos : l.length ≤ pos) (x : α) : l <+: L.set pos x := by
  obtain ⟨t, rfl⟩ := h
  rw [List.set_append]
  split
  · omega
  · exact ⟨t.set (pos - l.length) x, rfl⟩

theorem poolIdx_getElem {α : Type} [DecidableEq α] :
    ∀ (l : List α) (v : α) (i : Nat), poolIdx l v = some i → l[i]? = some v
  | [], v, i, h => by rw [poolIdx] at h; cases h
  | x :: rest, v, i, h => by
      rw [poolIdx] at h
      by_cases hx : x = v
      · rw [if_pos hx] at h
        injection h with h1
        subst h1
        subst hx
        exact List.getElem?_cons_zero
      · rw [if_neg hx] at h
        cases hp : poolIdx rest v with
        | none => rw [hp] at h; cases h
        | some j =>
            rw [hp] at h
            injection h with h1
            subst h1
            have := poolIdx_getElem rest v j hp
            simpa using this

theorem constIndex_spec (s : CompSt) (v : Int) :
    (constIndex s v).2.consts[(constIndex s v).1]? = some v ∧
    s.consts <+: (constIndex s v).2.consts ∧
    (constIndex s v).2.code = s.code ∧
    (constIndex s v).2.names = s.names := by
  rw [constIndex]
  cases hp : poolIdx s.consts v with
  | some i =>
      refine ⟨poolIdx_getElem s.consts v i hp, List.prefix_refl _, rfl, rfl⟩
  | none =>
      refine ⟨?_, ⟨[v], rfl⟩, rfl, rfl⟩
      rw [List.getElem?_concat_length]

theorem nameIndex_spec (s : CompSt) (n : String) :
    (nameIndex s n).2.names[(nameIndex s n).1]? = some n ∧
    s.names <+: (nameIndex s n).2.names ∧
    (nameIndex s n).2.code = s.code ∧
    (nameIndex s n).2.consts = s.consts := by
  rw [nameIndex]
  cases hp : poolIdx s.names n with
  | some i =>
      refine ⟨poolIdx_getElem s.names n i hp, List.prefix_refl _, rfl, rfl⟩
  | none =>
      refine ⟨?_, ⟨[n], rfl⟩, rfl, rfl⟩
      rw [List.getElem?_concat_length]

end MiniPy

namespace MiniPy

theorem patchJump_prefix {s : CompSt} {l : List Instr} (h : l <+: s.code)
    {pos : Nat} (hpos : l.length ≤ pos) (target : Nat) :
    l <+: (patchJump s pos target).code := by
  rw [patchJump]
  split
  · exact prefix_set h hpos _
  · exact h

theorem patchJump_consts (s : CompSt) (pos target : Nat) :
    (patchJump s pos target).consts = s.consts := by
  rw [patchJump]
  split <;> rfl

theorem patchJump_names (s : CompSt) (pos target : Nat) :
    (patchJump s pos target).names = s.names := by
  rw [patchJump]
  split <;> rfl

theorem compileExpr_mono : ∀ (e : Expr) (s s' : CompSt),
    compileExpr s e = .ok s' →
    s.code <+: s'.code ∧ s.consts <+: s'.consts ∧ s.names <+: s'.names
  | .number v line, s, s', h => by
      rw [compileExpr] at h
      split at h
      rename_i x i s1 heq
      injection h with h1
      have hspec := constIndex_spec s v
      rw [heq] at hspec
      rw [← h1]
      refine ⟨?_, ?_, ?_⟩
      · show s.code <+: s1.code ++ [(⟨.LOAD_CONST, some i⟩ : Instr)]
        rw [hspec.2.2.1]
        exact ⟨_, rfl⟩
      · exact hspec.2.1
      · rw [show (emit s1 .LOAD_CONST (some i)).2.names = s1.names from rfl, hspec.2.2.2]
  | .var n line, s, s', h => by
      rw [compileExpr] at h
      split at h
      rename_i x i s1 heq
      injection h with h1
      have hspec := nameIndex_spec s n
      rw [heq] at hspec
      rw [← h1]
      refine ⟨?_, ?_, ?_⟩
      · show s.code <+: s1.code ++ [(⟨.LOAD_NAME, some i⟩ : Instr)]
        rw [hspec.2.2.1]
        exact ⟨_, rfl⟩
      · rw [show (emit s1 .LOAD_NAME (some i)).2.consts = s1.consts from rfl, hspec.2.2.2]
      · exact hspec.2.1
  | .binop l op r line, s, s', h => by
      rw [compileExpr] at h
      cases h1 : compileExpr s l with
      | error e1 => rw [h1, except_bind_error] at h; cases h
      | ok s1 =>
          rw [h1, except_bind_ok] at h
          cases h2 : compileExpr s1 r with
          | error e2 => rw [h2, except_bind_error] at h; cases h
          | ok s2 =>
              rw [h2, except_bind_ok] at h
              have ih1 := compileExpr_mono l s s1 h1
              have ih2 := compileExpr_mono r s1 s2 h2
              cases hoc : opcodeOf op with
              | none => simp only [hoc] at h; cases h
              | some oc =>
                  simp only [hoc] at h
                  injection h with h1'
                  rw [← h1']
                  refine ⟨?_, ?_, ?_⟩
                  · show s.code <+: s2.code ++ [(⟨oc, none⟩ : Instr)]
                    exact (ih1.1.trans ih2.1).trans ⟨_, rfl⟩
                  · exact ih1.2.1.trans ih2.2.1
                  · exact ih1.2.2.trans ih2.2.2

end MiniPy

namespace MiniPy

set_option maxHeartbeats 1000000 in
mutual

theorem compileStmt_mono : (st : Stmt) → ∀ s s',
    compileStmt s st = .ok s' →
    s.code <+: s'.code ∧ s.consts <+: s'.consts ∧ s.names <+: s'.names
  | .assign n e line, s, s', h => by
      rw [compileStmt] at h
      cases h1 : compileExpr s e with
      | error e1 => rw [h1, except_bind_error] at h; cases h
      | ok s1 =>
          rw [h1, except_bind_ok] at h
          split at h
          rename_i x i s2 heq
          injection h with h2
          have ihe := compileExpr_mono e s s1 h1
          have hspec := nameIndex_spec s1 n
          rw [heq] at hspec
          rw [← h2]
          refine ⟨?_, ?_, ?_⟩
          · show s.code <+: s2.code ++ [(⟨.STORE_NAME, some i⟩ : Instr)]
            rw [hspec.2.2.1]
            exact ihe.1.trans ⟨_, rfl⟩
          · show s.consts <+: s2.consts
            rw [hspec.2.2.2]
            exact ihe.2.1
          · exact ihe.2.2.trans hspec.2.1
  | .print e line, s, s', h => by
      rw [compileStmt] at h
      cases h1 : compileExpr s e with
      | error e1 => rw [h1, except_bind_error] at h; cases h
      | ok s1 =>
          rw [h1, except_bind_ok] at h
          injection h with h2
          have ihe := compileExpr_mono e s s1 h1
          rw [← h2]
          exact ⟨ihe.1.trans ⟨_, rfl⟩, ihe.2.1, ihe.2.2⟩
  | .ifS c tb eb line, s, s', h => by
      rw [compileStmt] at h
      cases h1 : compileExpr s c with
      | error e1 => rw [h1, except_bind_error] at h; cases h
      | ok s1 =>
          rw [h1, except_bind_ok] at h
          have ihc := compileExpr_mono c s s1 h1
          split at h
          rename_i x elsePos s2 heq
          have hee : (s1.code.length,
              (⟨s1.code ++ [(⟨.JUMP_IF_FALSE, none⟩ : Instr)], s1.consts, s1.names⟩ : CompSt))
              = (elsePos, s2) := heq
          injection hee with he1 he2
          have hE : elsePos = s1.code.length := he1.symm
          have h2code : s2.code = s1.code ++ [(⟨.JUMP_IF_FALSE, none⟩ : Instr)] := by
            rw [← he2]
          have h2consts : s2.consts = s1.consts := by rw [← he2]
          have h2names : s2.names = s1.names := by rw [← he2]
          cases h3 : compileStmts s2 tb with
          | error e3 => rw [h3, except_bind_error] at h; cases h
          | ok s3 =>
              rw [h3, except_bind_ok] at h
              have iht := compileStmts_mono tb s2 s3 h3
              split at h
              rename_i y endPos s4 heq4
              have hee4 : (s3.code.length,
                  (⟨s3.code ++ [(⟨.JUMP, none⟩ : Instr)], s3.consts, s3.names⟩ : CompSt))
                  = (endPos, s4) := heq4
              injection hee4 with he3 he4
              have hEnd : endPos = s3.code.length := he3.symm
              have h4code : s4.code = s3.code ++ [(⟨.JUMP, none⟩ : Instr)] := by
                rw [← he4]
              have h4consts : s4.consts = s3.consts := by rw [← he4]
              have h4names : s4.names = s3.names := by rw [← he4]
              have hpre1 : s.code <+: s1.code := ihc.1
              have hpre2 : s1.code <+: s2.code := by rw [h2code]; exact ⟨_, rfl⟩
              have hpre3 : s2.code <+: s3.code := iht.1
              have hpre4 : s3.code <+: s4.code := by rw [h4code]; exact ⟨_, rfl⟩
              have hle1 : s.code.length ≤ s1.code.length := hpre1.length_le
              have hle2 : s1.code.length ≤ s2.code.length := hpre2.length_le
              have hle3 : s2.code.length ≤ s3.code.length := hpre3.length_le
              have hpre5 : s.code <+: (patchJump s4 elsePos s4.code.length).code :=
                patchJump_prefix (((hpre1.trans hpre2).trans hpre3).trans hpre4)
                  (by omega) _
              have h5consts : (patchJump s4 elsePos s4.code.length).consts = s3.consts := by
                rw [patchJump_consts, h4consts]
              have h5names : (patchJump s4 elsePos s4.code.length).names = s3.names := by
                rw [patchJump_names, h4names]
              have h5len : (patchJump s4 elsePos s4.code.length).code.length
                  = s4.code.length := patchJump_length s4 elsePos s4.code.length
              split at h
              · rename_i es
                split at h
                · rw [except_bind_ok] at h
                  injection h with h6
                  rw [← h6]
                  refine ⟨?_, ?_, ?_⟩
                  · exact patchJump_prefix hpre5 (by have := hpre5.length_le; omega) _
                  · rw [patchJump_consts, h5consts]
                    rw [h2consts] at iht
                    exact ihc.2.1.trans iht.2.1
                  · rw [patchJump_names, h5names]
                    rw [h2names] at iht
                    exact ihc.2.2.trans iht.2.2
                · cases h5 : compileStmts (patchJump s4 elsePos s4.code.length) es with
                  | error e5 =>
                      simp only [h5, except_bind_error] at h
                      cases h
                  | ok s6 =>
                      simp only [h5, except_bind_ok] at h
                      injection h with h6
                      rw [← h6]
                      have ihe := compileStmts_mono es
                        (patchJump s4 elsePos s4.code.length) s6 h5
                      refine ⟨?_, ?_, ?_⟩
                      · refine patchJump_prefix (hpre5.trans ihe.1) ?_ _
                        have := (hpre5.trans ihe.1).length_le
                        omega
                      · rw [patchJump_consts]
                        rw [h2consts] at iht
                        refine (ihc.2.1.trans iht.2.1).trans ?_
                        rw [← h5consts]
                        exact ihe.2.1
                      · rw [patchJump_names]
                        rw [h2names] at iht
                        refine (ihc.2.2.trans iht.2.2).trans ?_
                        rw [← h5names]
                        exact ihe.2.2
              · rw [except_bind_ok] at h
                injection h with h6
                rw [← h6]
                refine ⟨?_, ?_, ?_⟩
                · exact patchJump_prefix hpre5 (by have := hpre5.length_le; omega) _
                · rw [patchJump_consts, h5consts]
                  rw [h2consts] at iht
                  exact ihc.2.1.trans iht.2.1
                · rw [patchJump_names, h5names]
                  rw [h2names] at iht
                  exact ihc.2.2.trans iht.2.2
  | .whileS c body line, s, s', h => by
      rw [compileStmt] at h
      cases h1 : compileExpr s c with
      | error e1 => rw [h1, except_bind_error] at h; cases h
      | ok s1 =>
          rw [h1, except_bind_ok] at h
          have ihc := compileExpr_mono c s s1 h1
          split at h
          rename_i x endPos s2 heq
          have hee : (s1.code.length,
              (⟨s1.code ++ [(⟨.JUMP_IF_FALSE, none⟩ : Instr)], s1.consts, s1.names⟩ : CompSt))
              = (endPos, s2) := heq
          injection hee with he1 he2
          have hE : endPos = s1.code.length := he1.symm
          have h2code : s2.code = s1.code ++ [(⟨.JUMP_IF_FALSE, none⟩ : Instr)] := by
            rw [← he2]
          have h2consts : s2.consts = s1.consts := by rw [← he2]
          have h2names : s2.names = s1.names := by rw [← he2]
          cases h3 : compileStmts s2 body with
          | error e3 => rw [h3, except_bind_error] at h; cases h
          | ok s3 =>
              rw [h3, except_bind_ok] at h
              have iht := compileStmts_mono body s2 s3 h3
              injection h with h6
              rw [← h6]
              have hpre1 : s.code <+: s1.code := ihc.1
              have hpre2 : s1.code <+: s2.code := by rw [h2code]; exact ⟨_, rfl⟩
              have hpre3 : s2.code <+: s3.code := iht.1
              have hpre4 : s3.code <+: (emit s3 .JUMP (some s.code.length)).2.code :=
                ⟨_, rfl⟩
              refine ⟨?_, ?_, ?_⟩
              · refine patchJump_prefix
                  (((hpre1.trans hpre2).trans hpre3).trans hpre4) ?_ _
                have := hpre1.length_le
                have := hpre2.length_le
                omega
              · rw [patchJump_consts,
                  show (emit s3 .JUMP (some s.code.length)).2.consts = s3.consts from rfl]
                rw [h2consts] at iht
                exact ihc.2.1.trans iht.2.1
              · rw [patchJump_names,
                  show (emit s3 .JUMP (some s.code.length)).2.names = s3.names from rfl]
                rw [h2names] at iht
                exact ihc.2.2.trans iht.2.2

theorem compileStmts_mono : (ss : List Stmt) → ∀ s s',
    compileStmts s ss = .ok s' →
    s.code <+: s'.code ∧ s.consts <+: s'.consts ∧ s.names <+: s'.names
  | [], s, s', h => by
      rw [compileStmts] at h
      injection h with h1
      subst h1
      exact ⟨List.prefix_refl _, List.prefix_refl _, List.prefix_refl _⟩
  | st :: rest, s, s', h => by
      rw [compileStmts] at h
      cases h1 : compileStmt s st with
      | error e1 => rw [h1, except_bind_error] at h; cases h
      | ok s1 =>
          rw [h1, except_bind_ok] at h
          have ih1 := compileStmt_mono st s s1 h1
          have ih2 := compileStmts_mono rest s1 s' h
          exact ⟨ih1.1.trans ih2.1, ih1.2.1.trans ih2.2.1, ih1.2.2.trans ih2.2.2⟩

end

end MiniPy

namespace MiniPy

theorem vmRun_cont {code : List Instr} {consts : List Int} {names : List String}
    {a b : VMState} (h : vmStep code consts names a = .cont b) (n : Nat) :
    vmRun (n + 1) code consts names a = vmRun n code consts names b := by
  rw [vmRun, h]

theorem steps_vmRun {code : List Instr} {consts : List Int} {names : List String}
    {a b : VMState} (h : VMSteps code consts names a b) (n : Nat)
    (g : Globals) (o : List Int)
    (hr : vmRun n code consts names b = .ok g o) :
    ∃ N, vmRun N code consts names a = .ok g o := by
  induction h using Relation.ReflTransGen.head_induction_on with
  | refl => exact ⟨n, hr⟩
  | head hstep _ ih =>
      obtain ⟨N, hN⟩ := ih
      exact ⟨N + 1, by rw [vmRun_cont hstep, hN]⟩

theorem binop_agree {op : String} {oc : Opcode} (hoc : opcodeOf op = some oc)
    {a b v : Int} (happ : applyBinOp op a b = .ok v)
    (code : List Instr) (consts : List Int) (names : List String)
    {ip : Nat} (hcode : code[ip]? = some ⟨oc, none⟩)
    (stk : List Int) (g : Globals) (out : List Int) :
    vmStep code consts names ⟨b :: a :: stk, g, out, ip⟩
      = .cont ⟨v :: stk, g, out, ip + 1⟩ := by
  by_cases h1 : op = "+"
  · subst h1
    have hoc2 : some Opcode.ADD = some oc :=
      (show opcodeOf "+" = some Opcode.ADD from rfl).symm.trans hoc
    injection hoc2 with he
    subst he
    have happ2 : Except.ok (a + b) = Except.ok v :=
      (show applyBinOp "+" a b = Except.ok (a + b) from rfl).symm.trans happ
    injection happ2 with hv
    subst hv
    simp only [vmStep, hcode]
  by_cases h2 : op = "-"
  · subst h2
    have hoc2 : some Opcode.SUB = some oc :=
      (show opcodeOf "-" = some Opcode.SUB from rfl).symm.trans hoc
    injection hoc2 with he
    subst he
    have happ2 : Except.ok (a - b) = Except.ok v :=
      (show applyBinOp "-" a b = Except.ok (a - b) from rfl).symm.trans happ
    injection happ2 with hv
    subst hv
    simp only [vmStep, hcode]
  by_cases h3 : op = "*"
  · subst h3
    have hoc2 : some Opcode.MUL = some oc :=
      (show opcodeOf "*" = some Opcode.MUL from rfl).symm.trans hoc
    injection hoc2 with he
    subst he
    have happ2 : Except.ok (a * b) = Except.ok v :=
      (show applyBinOp "*" a b = Except.ok (a * b) from rfl).symm.trans happ
    injection happ2 with hv
    subst hv
    simp only [vmStep, hcode]
  by_cases h4 : op = "/"
  · subst h4
    have hoc2 : some Opcode.DIV = some oc :=
      (show opcodeOf "/" = some Opcode.DIV from rfl).symm.trans hoc
    injection hoc2 with he
    subst he
    have happ2 : (if b = 0 then (Except.error RunErr.divisionByZero : Except RunErr Int)
        else .ok (Int.fdiv a b)) = Except.ok v :=
      (show applyBinOp "/" a b
          = if b = 0 then .error .divisionByZero else .ok (Int.fdiv a b) from rfl).symm.trans happ
    by_cases hb : b = 0
    · rw [if_pos hb] at happ2
      cases happ2
    · rw [if_neg hb] at happ2
      injection happ2 with hv
      subst hv
      simp only [vmStep, hcode]
      rw [if_neg hb]
  by_cases h5 : op = "<"
  · subst h5
    have hoc2 : some Opcode.CMP_LT = some oc :=
      (show opcodeOf "<" = some Opcode.CMP_LT from rfl).symm.trans hoc
    injection hoc2 with he
    subst he
    have happ2 : Except.ok (if a < b then (1 : Int) else 0) = Except.ok v :=
      (show applyBinOp "<" a b = Except.ok (if a < b then (1 : Int) else 0) from rfl).symm.trans happ
    injection happ2 with hv
    subst hv
    simp only [vmStep, hcode]
  by_cases h6 : op = ">"
  · subst h6
    have hoc2 : some Opcode.CMP_GT = some oc :=
      (show opcodeOf ">" = some Opcode.CMP_GT from rfl).symm.trans hoc
    injection hoc2 with he
    subst he
    have happ2 : Except.ok (if a > b then (1 : Int) else 0) = Except.ok v :=
      (show applyBinOp ">" a b = Except.ok (if a > b then (1 : Int) else 0) from rfl).symm.trans happ
    injection happ2 with hv
    subst hv
    simp only [vmStep, hcode]
  by_cases h7 : op = "=="
  · subst h7
    have hoc2 : some Opcode.CMP_EQ = some oc :=
      (show opcodeOf "==" = some Opcode.CMP_EQ from rfl).symm.trans hoc
    injection hoc2 with he
    subst he
    have happ2 : Except.ok (if a = b then (1 : Int) else 0) = Except.ok v :=
      (show applyBinOp "==" a b = Except.ok (if a = b then (1 : Int) else 0) from rfl).symm.trans happ
    injection happ2 with hv
    subst hv
    simp only [vmStep, hcode]
  -- remaining operators: applyBinOp raises "Unknown operator", contradicting happ
  rw [applyBinOp, if_neg h1, if_neg h2, if_neg h3, if_neg h4, if_neg h5,
    if_neg h6, if_neg h7] at happ
  cases happ

end MiniPy

namespace MiniPy

set_option maxHeartbeats 1000000 in
theorem compileExpr_sim : ∀ (e : Expr) (s s' : CompSt),
    compileExpr s e = .ok s' →
    ∀ (codeF : List Instr) (constsF : List Int) (namesF : List String),
    (∀ p, s.code.length ≤ p → p < s'.code.length → codeF[p]? = s'.code[p]?) →
    s'.consts <+: constsF → s'.names <+: namesF →
    ∀ (g : Globals) (v : Int), interpExpr g e = .ok v →
    ∀ (stk out : List Int),
    VMSteps codeF constsF namesF ⟨stk, g, out, s.code.length⟩
      ⟨v :: stk, g, out, s'.code.length⟩
  | .number w line, s, s', h, codeF, constsF, namesF, hag, hpk, hpn, g, v, hv, stk, out => by
      rw [compileExpr] at h
      split at h
      rename_i x i s1 heq
      injection h with h1
      have hspec := constIndex_spec s w
      rw [heq] at hspec
      rw [interpExpr] at hv
      injection hv with hv1
      subst hv1
      have hcode' : s'.code = s1.code ++ [(⟨.LOAD_CONST, some i⟩ : Instr)] := by
        rw [← h1]
        rfl
      have h1eq : s1.code = s.code := hspec.2.2.1
      have hlen : s'.code.length = s.code.length + 1 := by
        rw [hcode', h1eq]
        simp
      have hinstr : codeF[s.code.length]? = some ⟨.LOAD_CONST, some i⟩ := by
        rw [hag s.code.length (le_refl _) (by omega), hcode', ← h1eq,
          List.getElem?_concat_length]
      have hspec1 : s1.consts[i]? = some w := hspec.1
      have hconst : constsF[i]? = some w := by
        have hlt := lt_length_of_getElem? hspec1
        have hsc : s'.consts = s1.consts := by rw [← h1]; rfl
        rw [prefix_getElem? hpk (by rw [hsc]; omega), hsc]
        exact hspec1
      rw [hlen]
      refine Relation.ReflTransGen.single ?_
      simp only [vmStep, hinstr, hconst]
  | .var n line, s, s', h, codeF, constsF, namesF, hag, hpk, hpn, g, v, hv, stk, out => by
      rw [compileExpr] at h
      split at h
      rename_i x i s1 heq
      injection h with h1
      have hspec := nameIndex_spec s n
      rw [heq] at hspec
      rw [interpExpr] at hv
      cases hl : lookupVar g n with
      | none => rw [hl] at hv; cases hv
      | some w =>
          rw [hl] at hv
          injection hv with hv1
          subst hv1
          have hcode' : s'.code = s1.code ++ [(⟨.LOAD_NAME, some i⟩ : Instr)] := by
            rw [← h1]
            rfl
          have h1eq : s1.code = s.code := hspec.2.2.1
          have hlen : s'.code.length = s.code.length + 1 := by
            rw [hcode', h1eq]
            simp
          have hinstr : codeF[s.code.length]? = some ⟨.LOAD_NAME, some i⟩ := by
            rw [hag s.code.length (le_refl _) (by omega), hcode', ← h1eq,
              List.getElem?_concat_length]
          have hspec1 : s1.names[i]? = some n := hspec.1
          have hname : namesF[i]? = some n := by
            have hlt := lt_length_of_getElem? hspec1
            have hsn : s'.names = s1.names := by rw [← h1]; rfl
            rw [prefix_getElem? hpn (by rw [hsn]; omega), hsn]
            exact hspec1
          rw [hlen]
          refine Relation.ReflTransGen.single ?_
          simp only [vmStep, hinstr, hname, hl]
  | .binop l op r line, s, s', h, codeF, constsF, namesF, hag, hpk, hpn, g, v, hv, stk, out => by
      rw [compileExpr] at h
      cases h1 : compileExpr s l with
      | error e1 => rw [h1, except_bind_error] at h; cases h
      | ok s1 =>
          rw [h1, except_bind_ok] at h
          cases h2 : compileExpr s1 r with
          | error e2 => rw [h2, except_bind_error] at h; cases h
          | ok s2 =>
              rw [h2, except_bind_ok] at h
              cases hoc : opcodeOf op with
              | none => simp only [hoc] at h; cases h
              | some oc =>
                  simp only [hoc] at h
                  injection h with h1'
                  rw [interpExpr] at hv
                  cases ha : interpExpr g l with
                  | error ea => rw [ha, except_bind_error] at hv; cases hv
                  | ok a =>
                      rw [ha, except_bind_ok] at hv
                      cases hb : interpExpr g r with
                      | error eb => rw [hb, except_bind_error] at hv; cases hv
                      | ok b =>
                          rw [hb, except_bind_ok] at hv
                          have hmono1 := compileExpr_mono l s s1 h1
                          have hmono2 := compileExpr_mono r s1 s2 h2
                          have hcode' : s'.code = s2.code ++ [(⟨oc, none⟩ : Instr)] := by
                            rw [← h1']
                            rfl
                          have hsc : s'.consts = s2.consts := by rw [← h1']; rfl
                          have hsn : s'.names = s2.names := by rw [← h1']; rfl
                          have hle1 : s.code.length ≤ s1.code.length := hmono1.1.length_le
                          have hle2 : s1.code.length ≤ s2.code.length := hmono2.1.length_le
                          have hlen : s'.code.length = s2.code.length + 1 := by
                            rw [hcode']
                            simp
                          have hpk2 : s2.consts <+: constsF := by rw [← hsc]; exact hpk
                          have hpn2 : s2.names <+: namesF := by rw [← hsn]; exact hpn
                          have hag1 : ∀ p, s.code.length ≤ p → p < s1.code.length →
                              codeF[p]? = s1.code[p]? := by
                            intro p hp1 hp2
                            rw [hag p hp1 (by omega), hcode',
                              List.getElem?_append_left (by omega),
                              prefix_getElem? hmono2.1 hp2]
                          have hag2 : ∀ p, s1.code.length ≤ p → p < s2.code.length →
                              codeF[p]? = s2.code[p]? := by
                            intro p hp1 hp2
                            rw [hag p (by omega) (by omega), hcode',
                              List.getElem?_append_left (by omega)]
                          have ih1 := compileExpr_sim l s s1 h1 codeF constsF namesF
                            hag1 (hmono2.2.1.trans hpk2) (hmono2.2.2.trans hpn2)
                            g a ha stk out
                          have ih2 := compileExpr_sim r s1 s2 h2 codeF constsF namesF
                            hag2 hpk2 hpn2 g b hb (a :: stk) out
                          have hinstr : codeF[s2.code.length]? = some ⟨oc, none⟩ := by
                            rw [hag s2.code.length (by omega) (by omega), hcode',
                              List.getElem?_concat_length]
                          rw [hlen]
                          refine (ih1.trans ih2).trans (Relation.ReflTransGen.single ?_)
                          exact binop_agree hoc hv codeF constsF namesF hinstr stk g out
  termination_by e => sizeOf e

end MiniPy

namespace MiniPy

theorem patchJump_getElem_self {s : CompSt} {pos : Nat} (hlt : pos < s.code.length)
    {op0 : Opcode} {arg0 : Option Nat} (hop : s.code[pos]? = some ⟨op0, arg0⟩)
    (target : Nat) :
    (patchJump s pos target).code[pos]? = some ⟨op0, some target⟩ := by
  rw [patchJump, dif_pos hlt]
  show (s.code.set pos ⟨(s.code.get ⟨pos, hlt⟩).opcode, some target⟩)[pos]?
      = some ⟨op0, some target⟩
  rw [List.getElem?_set_eq hlt]
  have hsome : s.code[pos]? = some (s.code.get ⟨pos, hlt⟩) :=
    (List.getElem?_eq_some_getElem_iff s.code pos hlt).mpr trivial
  rw [hop] at hsome
  injection hsome with he
  rw [← he]

theorem patchJump_getElem_other (s : CompSt) {pos p : Nat} (hne : p ≠ pos)
    (target : Nat) :
    (patchJump s pos target).code[p]? = s.code[p]? := by
  rw [patchJump]
  split
  · exact List.getElem?_set_ne (fun he => hne he.symm)
  · rfl

end MiniPy

namespace MiniPy

set_option maxHeartbeats 4000000 in
theorem stmt_sim : ∀ (fuel : Nat),
    (∀ (stm : Stmt) (s s' : CompSt), compileStmt s stm = .ok s' →
      ∀ (codeF : List Instr) (constsF : List Int) (namesF : List String),
      (∀ p, s.code.length ≤ p → p < s'.code.length → codeF[p]? = s'.code[p]?) →
      s'.consts <+: constsF → s'.names <+: namesF →
      ∀ (a a' : InterpSt), interpStmt fuel a stm = .ok a' →
      ∀ (stk : List Int),
      VMSteps codeF constsF namesF ⟨stk, a.globals, a.output, s.code.length⟩
        ⟨stk, a'.globals, a'.output, s'.code.length⟩) ∧
    (∀ (ss : List Stmt) (s s' : CompSt), compileStmts s ss = .ok s' →
      ∀ (codeF : List Instr) (constsF : List Int) (namesF : List String),
      (∀ p, s.code.length ≤ p → p < s'.code.length → codeF[p]? = s'.code[p]?) →
      s'.consts <+: constsF → s'.names <+: namesF →
      ∀ (a a' : InterpSt), interpStmts fuel a ss = .ok a' →
      ∀ (stk : List Int),
      VMSteps codeF constsF namesF ⟨stk, a.globals, a.output, s.code.length⟩
        ⟨stk, a'.globals, a'.output, s'.code.length⟩) := by
  intro fuel
  induction fuel with
  | zero =>
      constructor
      · intro stm s s' h codeF constsF namesF hag hpk hpn a a' hi stk
        rw [interpStmt_zero] at hi
        cases hi
      · intro ss s s' h codeF constsF namesF hag hpk hpn a a' hi stk
        cases ss with
        | nil =>
            rw [compileStmts] at h
            injection h with h1
            subst h1
            rw [interpStmts_nil] at hi
            injection hi with hi1
            subst hi1
            exact Relation.ReflTransGen.refl
        | cons st rest =>
            rw [show interpStmts 0 a (st :: rest) = .timeout from rfl] at hi
            cases hi
  | succ f IH =>
      constructor
      · intro stm s s' h codeF constsF namesF hag hpk hpn a a' hi stk
        cases stm with
        | assign n e line =>
            rw [compileStmt] at h
            cases h1 : compileExpr s e with
            | error e1 => rw [h1, except_bind_error] at h; cases h
            | ok s1 =>
                rw [h1, except_bind_ok] at h
                split at h
                rename_i x i s2 heq
                injection h with h2
                have hspec := nameIndex_spec s1 n
                rw [heq] at hspec
                have hmono1 := compileExpr_mono e s s1 h1
                have h2codeEq : s2.code = s1.code := hspec.2.2.1
                have hcode' : s'.code = s2.code ++ [(⟨.STORE_NAME, some i⟩ : Instr)] := by
                  rw [← h2]
                  rfl
                have hsc : s'.consts = s2.consts := by rw [← h2]; rfl
                have hsn : s'.names = s2.names := by rw [← h2]; rfl
                have hle1 : s.code.length ≤ s1.code.length := hmono1.1.length_le
                have hlen : s'.code.length = s1.code.length + 1 := by
                  rw [hcode', h2codeEq]
                  simp
                rw [interpStmt_assign] at hi
                cases hv : interpExpr a.globals e with
                | error er => rw [hv] at hi; cases hi
                | ok v =>
                    rw [hv] at hi
                    injection hi with hi1
                    have hag1 : ∀ p, s.code.length ≤ p → p < s1.code.length →
                        codeF[p]? = s1.code[p]? := by
                      intro p hp1 hp2
                      rw [hag p hp1 (by omega), hcode', h2codeEq,
                        List.getElem?_append_left hp2]
                    have hpk1 : s1.consts <+: constsF := by
                      have : s2.consts = s1.consts := hspec.2.2.2
                      rw [hsc, this] at hpk
                      exact hpk
                    have hpn1 : s1.names <+: namesF := by
                      rw [hsn] at hpn
                      exact hspec.2.1.trans hpn
                    have ihe := compileExpr_sim e s s1 h1 codeF constsF namesF
                      hag1 hpk1 hpn1 a.globals v hv stk a.output
                    have hinstr : codeF[s1.code.length]? = some ⟨.STORE_NAME, some i⟩ := by
                      rw [hag s1.code.length (by omega) (by omega), hcode', ← h2codeEq,
                        List.getElem?_concat_length]
                    have hspec1 : s2.names[i]? = some n := hspec.1
                    have hname : namesF[i]? = some n := by
                      have hlt := lt_length_of_getElem? hspec1
                      rw [prefix_getElem? hpn (by rw [hsn]; omega), hsn]
                      exact hspec1
                    rw [hlen, ← hi1]
                    refine ihe.trans (Relation.ReflTransGen.single ?_)
                    simp only [vmStep, hinstr, hname]
        | print e line =>
            rw [compileStmt] at h
            cases h1 : compileExpr s e with
            | error e1 => rw [h1, except_bind_error] at h; cases h
            | ok s1 =>
                rw [h1, except_bind_ok] at h
                injection h with h2
                have hmono1 := compileExpr_mono e s s1 h1
                have hcode' : s'.code = s1.code ++ [(⟨.PRINT, none⟩ : Instr)] := by
                  rw [← h2]
                  rfl
                have hsc : s'.consts = s1.consts := by rw [← h2]; rfl
                have hsn : s'.names = s1.names := by rw [← h2]; rfl
                have hle1 : s.code.length ≤ s1.code.length := hmono1.1.length_le
                have hlen : s'.code.length = s1.code.length + 1 := by
                  rw [hcode']
                  simp
                rw [interpStmt_print] at hi
                cases hv : interpExpr a.globals e with
                | error er => rw [hv] at hi; cases hi
                | ok v =>
                    rw [hv] at hi
                    injection hi with hi1
                    have hag1 : ∀ p, s.code.length ≤ p → p < s1.code.length →
                        codeF[p]? = s1.code[p]? := by
                      intro p hp1 hp2
                      rw [hag p hp1 (by omega), hcode',
                        List.getElem?_append_left hp2]
                    have hpk1 : s1.consts <+: constsF := by rw [hsc] at hpk; exact hpk
                    have hpn1 : s1.names <+: namesF := by rw [hsn] at hpn; exact hpn
                    have ihe := compileExpr_sim e s s1 h1 codeF constsF namesF
                      hag1 hpk1 hpn1 a.globals v hv stk a.output
                    have hinstr : codeF[s1.code.length]? = some ⟨.PRINT, none⟩ := by
                      rw [hag s1.code.length (by omega) (by omega), hcode',
                        List.getElem?_concat_length]
                    rw [hlen, ← hi1]
                    refine ihe.trans (Relation.ReflTransGen.single ?_)
                    simp only [vmStep, hinstr]
        | ifS c tb eb line =>
            rw [compileStmt] at h
            cases h1 : compileExpr s c with
            | error e1 => rw [h1, except_bind_error] at h; cases h
            | ok s1 =>
                rw [h1, except_bind_ok] at h
                have ihc := compileExpr_mono c s s1 h1
                split at h
                rename_i x elsePos s2 heq
                have hee : (s1.code.length,
                    (⟨s1.code ++ [(⟨.JUMP_IF_FALSE, none⟩ : Instr)], s1.consts,
                      s1.names⟩ : CompSt)) = (elsePos, s2) := heq
                injection hee with he1 he2
                have hE : elsePos = s1.code.length := he1.symm
                subst hE
                have h2code : s2.code = s1.code ++ [(⟨.JUMP_IF_FALSE, none⟩ : Instr)] := by
                  rw [← he2]
                have h2consts : s2.consts = s1.consts := by rw [← he2]
                have h2names : s2.names = s1.names := by rw [← he2]
                have hl2 : s2.code.length = s1.code.length + 1 := by rw [h2code]; simp
                cases h3 : compileStmts s2 tb with
                | error e3 => rw [h3, except_bind_error] at h; cases h
                | ok s3 =>
                    rw [h3, except_bind_ok] at h
                    have iht := compileStmts_mono tb s2 s3 h3
                    split at h
                    rename_i y endPos s4 heq4
                    have hee4 : (s3.code.length,
                        (⟨s3.code ++ [(⟨.JUMP, none⟩ : Instr)], s3.consts,
                          s3.names⟩ : CompSt)) = (endPos, s4) := heq4
                    injection hee4 with he3 he4
                    have hEnd : endPos = s3.code.length := he3.symm
                    subst hEnd
                    have h4code : s4.code = s3.code ++ [(⟨.JUMP, none⟩ : Instr)] := by
                      rw [← he4]
                    have h4consts : s4.consts = s3.consts := by rw [← he4]
                    have h4names : s4.names = s3.names := by rw [← he4]
                    have hl4 : s4.code.length = s3.code.length + 1 := by rw [h4code]; simp
                    have hle1 : s.code.length ≤ s1.code.length := ihc.1.length_le
                    have hle3 : s2.code.length ≤ s3.code.length := iht.1.length_le
                    have hl5 : (patchJump s4 s1.code.length s4.code.length).code.length
                        = s4.code.length := patchJump_length s4 s1.code.length s4.code.length
                    have hjifS4 : s4.code[s1.code.length]?
                        = some ⟨.JUMP_IF_FALSE, none⟩ := by
                      rw [h4code, List.getElem?_append_left (by omega),
                        prefix_getElem? iht.1 (by omega), h2code,
                        List.getElem?_concat_length]
                    have hs5consts : (patchJump s4 s1.code.length s4.code.length).consts
                        = s3.consts := by rw [patchJump_consts, h4consts]
                    have hs5names : (patchJump s4 s1.code.length s4.code.length).names
                        = s3.names := by rw [patchJump_names, h4names]
                    rw [interpStmt_ifS] at hi
                    cases hv : interpExpr a.globals c with
                    | error er => rw [hv] at hi; cases hi
                    | ok v =>
                        simp only [hv] at hi
                        split at h
                        · rename_i es
                          split at h
                          · -- eb = some es with es empty
                            rename_i hes
                            rw [except_bind_ok] at h
                            injection h with h6
                            have hes' : es = [] := List.isEmpty_iff.mp hes
                            subst hes'
                            have hs'code : s'.code
                                = (patchJump (patchJump s4 s1.code.length s4.code.length)
                                    s3.code.length
                                    (patchJump s4 s1.code.length s4.code.length).code.length).code := by
                              rw [← h6]
                            have hs'len : s'.code.length = s4.code.length := by
                              rw [hs'code, patchJump_length, hl5]
                            have hsc : s'.consts = s3.consts := by
                              rw [← h6, patchJump_consts, hs5consts]
                            have hsn : s'.names = s3.names := by
                              rw [← h6, patchJump_names, hs5names]
                            have hagc : ∀ p, s.code.length ≤ p → p < s1.code.length →
                                codeF[p]? = s1.code[p]? := by
                              intro p hp1 hp2
                              rw [hag p hp1 (by omega), hs'code,
                                patchJump_getElem_other _ (by omega) _,
                                patchJump_getElem_other _ (by omega) _,
                                h4code, List.getElem?_append_left (by omega),
                                prefix_getElem? iht.1 (by omega), h2code,
                                List.getElem?_append_left (by omega)]
                            have hJIF : codeF[s1.code.length]?
                                = some ⟨.JUMP_IF_FALSE, some s4.code.length⟩ := by
                              rw [hag s1.code.length (by omega) (by omega), hs'code,
                                patchJump_getElem_other _ (by omega) _,
                                patchJump_getElem_self (by omega) hjifS4]
                            have hpkc : s1.consts <+: constsF := by
                              rw [hsc] at hpk
                              rw [← h2consts]
                              exact iht.2.1.trans hpk
                            have hpnc : s1.names <+: namesF := by
                              rw [hsn] at hpn
                              rw [← h2names]
                              exact iht.2.2.trans hpn
                            have condSteps := compileExpr_sim c s s1 h1 codeF constsF
                              namesF hagc hpkc hpnc a.globals v hv stk a.output
                            by_cases hvz : v ≠ 0
                            · rw [if_pos hvz] at hi
                              have hagt : ∀ p, s2.code.length ≤ p → p < s3.code.length →
                                  codeF[p]? = s3.code[p]? := by
                                intro p hp1 hp2
                                rw [hag p (by omega) (by omega), hs'code,
                                  patchJump_getElem_other _ (by omega) _,
                                  patchJump_getElem_other _ (by omega) _,
                                  h4code, List.getElem?_append_left (by omega)]
                              have hpkt : s3.consts <+: constsF := by
                                rw [hsc] at hpk
                                exact hpk
                              have hpnt : s3.names <+: namesF := by
                                rw [hsn] at hpn
                                exact hpn
                              have thenSteps := IH.2 tb s2 s3 h3 codeF constsF namesF
                                hagt hpkt hpnt a a' hi stk
                              rw [hl2] at thenSteps
                              have hJMP : codeF[s3.code.length]?
                                  = some ⟨.JUMP, some s'.code.length⟩ := by
                                have hop2 : (patchJump s4 s1.code.length
                                    s4.code.length).code[s3.code.length]? = some ⟨.JUMP, none⟩ := by
                                  rw [patchJump_getElem_other _ (by omega) _, h4code,
                                    List.getElem?_concat_length]
                                have hL : codeF[s3.code.length]? = some ⟨.JUMP,
                                    some (patchJump s4 s1.code.length s4.code.length).code.length⟩ := by
                                  rw [hag s3.code.length (by omega) (by omega), hs'code,
                                    patchJump_getElem_self (by omega) hop2]
                                rw [hL, hl5, hs'len]
                              refine ((condSteps.trans
                                (Relation.ReflTransGen.single ?_)).trans thenSteps).trans
                                (Relation.ReflTransGen.single ?_)
                              · simp only [vmStep, hJIF]
                                rw [if_neg (by omega : ¬v = 0)]
                              · simp only [vmStep, hJMP]
                            · rw [if_neg hvz] at hi
                              have hi2 : interpStmts f a [] = Res.ok a' := hi
                              rw [interpStmts_nil] at hi2
                              injection hi2 with ha'2
                              subst ha'2
                              rw [hs'len]
                              refine condSteps.trans (Relation.ReflTransGen.single ?_)
                              simp only [vmStep, hJIF]
                              rw [if_pos (by omega : v = 0)]
                          · -- eb = some es, es nonempty
                            cases h5 : compileStmts
                                (patchJump s4 s1.code.length s4.code.length) es with
                            | error e5 => simp only [h5, except_bind_error] at h; cases h
                            | ok s6 =>
                                simp only [h5, except_bind_ok] at h
                                injection h with h6
                                have ihe := compileStmts_mono es
                                  (patchJump s4 s1.code.length s4.code.length) s6 h5
                                have hle6 : s4.code.length ≤ s6.code.length := by
                                  have := ihe.1.length_le
                                  rw [hl5] at this
                                  exact this
                                have hs'code : s'.code
                                    = (patchJump s6 s3.code.length s6.code.length).code := by
                                  rw [← h6]
                                have hs'len : s'.code.length = s6.code.length := by
                                  rw [hs'code, patchJump_length]
                                have hsc : s'.consts = s6.consts := by
                                  rw [← h6, patchJump_consts]
                                have hsn : s'.names = s6.names := by
                                  rw [← h6, patchJump_names]
                                have hagc : ∀ p, s.code.length ≤ p → p < s1.code.length →
                                    codeF[p]? = s1.code[p]? := by
                                  intro p hp1 hp2
                                  rw [hag p hp1 (by omega), hs'code,
                                    patchJump_getElem_other _ (by omega) _,
                                    prefix_getElem? ihe.1 (by rw [hl5]; omega),
                                    patchJump_getElem_other _ (by omega) _,
                                    h4code, List.getElem?_append_left (by omega),
                                    prefix_getElem? iht.1 (by omega), h2code,
                                    List.getElem?_append_left (by omega)]
                                have hJIF : codeF[s1.code.length]?
                                    = some ⟨.JUMP_IF_FALSE, some s4.code.length⟩ := by
                                  rw [hag s1.code.length (by omega) (by omega), hs'code,
                                    patchJump_getElem_other _ (by omega) _,
                                    prefix_getElem? ihe.1 (by rw [hl5]; omega),
                                    patchJump_getElem_self (by omega) hjifS4]
                                have hpkc : s1.consts <+: constsF := by
                                  rw [hsc] at hpk
                                  rw [← h2consts]
                                  refine (iht.2.1.trans ?_).trans hpk
                                  rw [← hs5consts]
                                  exact ihe.2.1
                                have hpnc : s1.names <+: namesF := by
                                  rw [hsn] at hpn
                                  rw [← h2names]
                                  refine (iht.2.2.trans ?_).trans hpn
                                  rw [← hs5names]
                                  exact ihe.2.2
                                have condSteps := compileExpr_sim c s s1 h1 codeF constsF
                                  namesF hagc hpkc hpnc a.globals v hv stk a.output
                                by_cases hvz : v ≠ 0
                                · rw [if_pos hvz] at hi
                                  have hagt : ∀ p, s2.code.length ≤ p →
                                      p < s3.code.length → codeF[p]? = s3.code[p]? := by
                                    intro p hp1 hp2
                                    rw [hag p (by omega) (by omega), hs'code,
                                      patchJump_getElem_other _ (by omega) _,
                                      prefix_getElem? ihe.1 (by rw [hl5]; omega),
                                      patchJump_getElem_other _ (by omega) _,
                                      h4code, List.getElem?_append_left (by omega)]
                                  have hpkt : s3.consts <+: constsF := by
                                    rw [hsc] at hpk
                                    refine List.IsPrefix.trans ?_ (ihe.2.1.trans hpk)
                                    rw [hs5consts]
                                  have hpnt : s3.names <+: namesF := by
                                    rw [hsn] at hpn
                                    refine List.IsPrefix.trans ?_ (ihe.2.2.trans hpn)
                                    rw [hs5names]
                                  have thenSteps := IH.2 tb s2 s3 h3 codeF constsF namesF
                                    hagt hpkt hpnt a a' hi stk
                                  rw [hl2] at thenSteps
                                  have hJMP : codeF[s3.code.length]?
                                      = some ⟨.JUMP, some s'.code.length⟩ := by
                                    have hop2 : s6.code[s3.code.length]? = some ⟨.JUMP, none⟩ := by
                                      rw [prefix_getElem? ihe.1 (by rw [hl5]; omega),
                                        patchJump_getElem_other _ (by omega) _,
                                        h4code, List.getElem?_concat_length]
                                    have hL : codeF[s3.code.length]? = some ⟨.JUMP, some s6.code.length⟩ := by
                                      rw [hag s3.code.length (by omega) (by omega), hs'code,
                                        patchJump_getElem_self (by omega) hop2]
                                    rw [hL, hs'len]
                                  refine ((condSteps.trans
                                    (Relation.ReflTransGen.single ?_)).trans
                                    thenSteps).trans (Relation.ReflTransGen.single ?_)
                                  · simp only [vmStep, hJIF]
                                    rw [if_neg (by omega : ¬v = 0)]
                                  · simp only [vmStep, hJMP]
                                · rw [if_neg hvz] at hi
                                  have hi2 : interpStmts f a es = Res.ok a' := hi
                                  have hagE : ∀ p,
                                      (patchJump s4 s1.code.length
                                        s4.code.length).code.length ≤ p →
                                      p < s6.code.length → codeF[p]? = s6.code[p]? := by
                                    intro p hp1 hp2
                                    rw [hl5] at hp1
                                    rw [hag p (by omega) (by omega), hs'code,
                                      patchJump_getElem_other _ (by omega) _]
                                  have hpkE : s6.consts <+: constsF := by
                                    rw [hsc] at hpk
                                    exact hpk
                                  have hpnE : s6.names <+: namesF := by
                                    rw [hsn] at hpn
                                    exact hpn
                                  have elseSteps := IH.2 es
                                    (patchJump s4 s1.code.length s4.code.length) s6 h5
                                    codeF constsF namesF hagE hpkE hpnE a a' hi2 stk
                                  rw [hl5] at elseSteps
                                  rw [hs'len]
                                  refine (condSteps.trans
                                    (Relation.ReflTransGen.single ?_)).trans elseSteps
                                  simp only [vmStep, hJIF]
                                  rw [if_pos (by omega : v = 0)]
                        · -- eb = none
                          rw [except_bind_ok] at h
                          injection h with h6
                          have hs'code : s'.code
                              = (patchJump (patchJump s4 s1.code.length s4.code.length)
                                  s3.code.length
                                  (patchJump s4 s1.code.length s4.code.length).code.length).code := by
                            rw [← h6]
                          have hs'len : s'.code.length = s4.code.length := by
                            rw [hs'code, patchJump_length, hl5]
                          have hsc : s'.consts = s3.consts := by
                            rw [← h6, patchJump_consts, hs5consts]
                          have hsn : s'.names = s3.names := by
                            rw [← h6, patchJump_names, hs5names]
                          have hagc : ∀ p, s.code.length ≤ p → p < s1.code.length →
                              codeF[p]? = s1.code[p]? := by
                            intro p hp1 hp2
                            rw [hag p hp1 (by omega), hs'code,
                              patchJump_getElem_other _ (by omega) _,
                              patchJump_getElem_other _ (by omega) _,
                              h4code, List.getElem?_append_left (by omega),
                              prefix_getElem? iht.1 (by omega), h2code,
                              List.getElem?_append_left (by omega)]
                          have hJIF : codeF[s1.code.length]?
                              = some ⟨.JUMP_IF_FALSE, some s4.code.length⟩ := by
                            rw [hag s1.code.length (by omega) (by omega), hs'code,
                              patchJump_getElem_other _ (by omega) _,
                              patchJump_getElem_self (by omega) hjifS4]
                          have hpkc : s1.consts <+: constsF := by
                            rw [hsc] at hpk
                            rw [← h2consts]
                            exact iht.2.1.trans hpk
                          have hpnc : s1.names <+: namesF := by
                            rw [hsn] at hpn
                            rw [← h2names]
                            exact iht.2.2.trans hpn
                          have condSteps := compileExpr_sim c s s1 h1 codeF constsF
                            namesF hagc hpkc hpnc a.globals v hv stk a.output
                          by_cases hvz : v ≠ 0
                          · rw [if_pos hvz] at hi
                            have hagt : ∀ p, s2.code.length ≤ p → p < s3.code.length →
                                codeF[p]? = s3.code[p]? := by
                              intro p hp1 hp2
                              rw [hag p (by omega) (by omega), hs'code,
                                patchJump_getElem_other _ (by omega) _,
                                patchJump_getElem_other _ (by omega) _,
                                h4code, List.getElem?_append_left (by omega)]
                            have hpkt : s3.consts <+: constsF := by
                              rw [hsc] at hpk
                              exact hpk
                            have hpnt : s3.names <+: namesF := by
                              rw [hsn] at hpn
                              exact hpn
                            have thenSteps := IH.2 tb s2 s3 h3 codeF constsF namesF
                              hagt hpkt hpnt a a' hi stk
                            rw [hl2] at thenSteps
                            have hJMP : codeF[s3.code.length]?
                                = some ⟨.JUMP, some s'.code.length⟩ := by
                              have hop2 : (patchJump s4 s1.code.length
                                  s4.code.length).code[s3.code.length]? = some ⟨.JUMP, none⟩ := by
                                rw [patchJump_getElem_other _ (by omega) _, h4code,
                                  List.getElem?_concat_length]
                              have hL : codeF[s3.code.length]? = some ⟨.JUMP,
                                  some (patchJump s4 s1.code.length s4.code.length).code.length⟩ := by
                                rw [hag s3.code.length (by omega) (by omega), hs'code,
                                  patchJump_getElem_self (by omega) hop2]
                              rw [hL, hl5, hs'len]
                            refine ((condSteps.trans
                              (Relation.ReflTransGen.single ?_)).trans thenSteps).trans
                              (Relation.ReflTransGen.single ?_)
                            · simp only [vmStep, hJIF]
                              rw [if_neg (by omega : ¬v = 0)]
                            · simp only [vmStep, hJMP]
                          · rw [if_neg hvz] at hi
                            have ha' : Res.ok a = Res.ok a' := hi
                            injection ha' with ha'2
                            subst ha'2
                            rw [hs'len]
                            refine condSteps.trans (Relation.ReflTransGen.single ?_)
                            simp only [vmStep, hJIF]
                            rw [if_pos (by omega : v = 0)]
        | whileS c body line =>
            have h0 := h
            rw [compileStmt] at h
            cases h1 : compileExpr s c with
            | error e1 => rw [h1, except_bind_error] at h; cases h
            | ok s1 =>
                rw [h1, except_bind_ok] at h
                have ihc := compileExpr_mono c s s1 h1
                split at h
                rename_i x endPos s2 heq
                have hee : (s1.code.length,
                    (⟨s1.code ++ [(⟨.JUMP_IF_FALSE, none⟩ : Instr)], s1.consts,
                      s1.names⟩ : CompSt)) = (endPos, s2) := heq
                injection hee with he1 he2
                have hE : endPos = s1.code.length := he1.symm
                subst hE
                have h2code : s2.code = s1.code ++ [(⟨.JUMP_IF_FALSE, none⟩ : Instr)] := by
                  rw [← he2]
                have h2consts : s2.consts = s1.consts := by rw [← he2]
                have h2names : s2.names = s1.names := by rw [← he2]
                have hl2 : s2.code.length = s1.code.length + 1 := by rw [h2code]; simp
                cases h3 : compileStmts s2 body with
                | error e3 => rw [h3, except_bind_error] at h; cases h
                | ok s3 =>
                    rw [h3, except_bind_ok] at h
                    have iht := compileStmts_mono body s2 s3 h3
                    injection h with h6
                    have h4code : (emit s3 .JUMP (some s.code.length)).2.code
                        = s3.code ++ [(⟨.JUMP, some s.code.length⟩ : Instr)] := rfl
                    have hl4 : (emit s3 .JUMP (some s.code.length)).2.code.length
                        = s3.code.length + 1 := by rw [h4code]; simp
                    have hle1 : s.code.length ≤ s1.code.length := ihc.1.length_le
                    have hle3 : s2.code.length ≤ s3.code.length := iht.1.length_le
                    have hs'code : s'.code
                        = (patchJump (emit s3 .JUMP (some s.code.length)).2
                            s1.code.length
                            (emit s3 .JUMP (some s.code.length)).2.code.length).code := by
                      rw [← h6]
                    have hs'len : s'.code.length = s3.code.length + 1 := by
                      rw [hs'code, patchJump_length, hl4]
                    have hsc : s'.consts = s3.consts := by
                      rw [← h6]
                      exact patchJump_consts _ _ _
                    have hsn : s'.names = s3.names := by
                      rw [← h6]
                      exact patchJump_names _ _ _
                    have hjifE4 : (emit s3 .JUMP
                        (some s.code.length)).2.code[s1.code.length]?
                        = some ⟨.JUMP_IF_FALSE, none⟩ := by
                      rw [h4code, List.getElem?_append_left (by omega),
                        prefix_getElem? iht.1 (by omega), h2code,
                        List.getElem?_concat_length]
                    have hJIF : codeF[s1.code.length]?
                        = some ⟨.JUMP_IF_FALSE, some s'.code.length⟩ := by
                      have hL : codeF[s1.code.length]? = some ⟨.JUMP_IF_FALSE,
                          some (emit s3 .JUMP (some s.code.length)).2.code.length⟩ := by
                        rw [hag s1.code.length (by omega) (by omega), hs'code,
                          patchJump_getElem_self (by omega) hjifE4]
                      rw [hL, hl4, hs'len]
                    have hJMP : codeF[s3.code.length]?
                        = some ⟨.JUMP, some s.code.length⟩ := by
                      rw [hag s3.code.length (by omega) (by omega), hs'code,
                        patchJump_getElem_other _ (by omega) _, h4code,
                        List.getElem?_concat_length]
                    have hagc : ∀ p, s.code.length ≤ p → p < s1.code.length →
                        codeF[p]? = s1.code[p]? := by
                      intro p hp1 hp2
                      rw [hag p hp1 (by omega), hs'code,
                        patchJump_getElem_other _ (by omega) _, h4code,
                        List.getElem?_append_left (by omega),
                        prefix_getElem? iht.1 (by omega), h2code,
                        List.getElem?_append_left (by omega)]
                    have hagb : ∀ p, s2.code.length ≤ p → p < s3.code.length →
                        codeF[p]? = s3.code[p]? := by
                      intro p hp1 hp2
                      rw [hag p (by omega) (by omega), hs'code,
                        patchJump_getElem_other _ (by omega) _, h4code,
                        List.getElem?_append_left (by omega)]
                    have hpkc : s1.consts <+: constsF := by
                      rw [hsc] at hpk
                      rw [← h2consts]
                      exact iht.2.1.trans hpk
                    have hpnc : s1.names <+: namesF := by
                      rw [hsn] at hpn
                      rw [← h2names]
                      exact iht.2.2.trans hpn
                    have hpkb : s3.consts <+: constsF := by
                      rw [hsc] at hpk
                      exact hpk
                    have hpnb : s3.names <+: namesF := by
                      rw [hsn] at hpn
                      exact hpn
                    rw [interpStmt_whileS] at hi
                    cases hv : interpExpr a.globals c with
                    | error er => rw [hv] at hi; cases hi
                    | ok v =>
                        simp only [hv] at hi
                        have condSteps := compileExpr_sim c s s1 h1 codeF constsF
                          namesF hagc hpkc hpnc a.globals v hv stk a.output
                        by_cases hvz : v = 0
                        · rw [if_pos hvz] at hi
                          injection hi with ha'2
                          subst ha'2
                          refine condSteps.trans (Relation.ReflTransGen.single ?_)
                          simp only [vmStep, hJIF]
                          rw [if_pos hvz]
                        · rw [if_neg hvz] at hi
                          cases hib : interpStmts f a body with
                          | ok a1 =>
                              simp only [hib] at hi
                              have bodySteps := IH.2 body s2 s3 h3 codeF constsF
                                namesF hagb hpkb hpnb a a1 hib stk
                              rw [hl2] at bodySteps
                              have recSteps := IH.1 (.whileS c body line) s s' h0
                                codeF constsF namesF hag hpk hpn a1 a' hi stk
                              refine ((condSteps.trans
                                (Relation.ReflTransGen.single ?_)).trans
                                bodySteps).trans
                                ((Relation.ReflTransGen.single ?_).trans recSteps)
                              · simp only [vmStep, hJIF]
                                rw [if_neg hvz]
                              · simp only [vmStep, hJMP]
                          | err er =>
                              simp only [hib] at hi
                              cases hi
                          | timeout =>
                              simp only [hib] at hi
                              cases hi
      · intro ss s s' h codeF constsF namesF hag hpk hpn a a' hi stk
        cases ss with
        | nil =>
            rw [compileStmts] at h
            injection h with h1
            subst h1
            rw [interpStmts_nil] at hi
            injection hi with hi1
            subst hi1
            exact Relation.ReflTransGen.refl
        | cons st rest =>
            rw [compileStmts] at h
            cases h1 : compileStmt s st with
            | error e1 => rw [h1, except_bind_error] at h; cases h
            | ok s1 =>
                rw [h1, except_bind_ok] at h
                have hmono1 := compileStmt_mono st s s1 h1
                have hmono2 := compileStmts_mono rest s1 s' h
                have hle1 : s.code.length ≤ s1.code.length := hmono1.1.length_le
                have hle2 : s1.code.length ≤ s'.code.length := hmono2.1.length_le
                rw [interpStmts_cons] at hi
                cases him : interpStmt f a st with
                | ok a1 =>
                    simp only [him] at hi
                    have hag1 : ∀ p, s.code.length ≤ p → p < s1.code.length →
                        codeF[p]? = s1.code[p]? := by
                      intro p hp1 hp2
                      rw [hag p hp1 (by omega), prefix_getElem? hmono2.1 hp2]
                    have steps1 := IH.1 st s s1 h1 codeF constsF namesF hag1
                      (hmono2.2.1.trans hpk) (hmono2.2.2.trans hpn) a a1 him stk
                    have hag2 : ∀ p, s1.code.length ≤ p → p < s'.code.length →
                        codeF[p]? = s'.code[p]? := by
                      intro p hp1 hp2
                      exact hag p (by omega) hp2
                    have steps2 := IH.2 rest s1 s' h codeF constsF namesF hag2
                      hpk hpn a1 a' hi stk
                    exact steps1.trans steps2
                | err er =>
                    simp only [him] at hi
                    cases hi
                | timeout =>
                    simp only [him] at hi
                    cases hi

/-- C2: for any program in the compiled language (literals, arithmetic,
comparisons, assignment, if, while, print) whose interpretation terminates
without a runtime fault, running the compiled bytecode on the VM terminates
with the same output (and the same final globals) as the tree-walk
interpreter on the unoptimized AST. -/
theorem vm_matches_interpreter (p : Program) (code : List Instr)
    (consts : List Int) (names : List String)
    (h : compileProgram p = .ok (code, consts, names))
    (fuel : Nat) (st : InterpSt)
    (hr : interpProgram fuel p = .ok st) :
    ∃ N, vmRun N code consts names ⟨[], [], [], 0⟩ = .ok st.globals st.output := by
  rw [compileProgram] at h
  cases hs : compileStmts ⟨[], [], []⟩ p.statements with
  | error e => rw [hs, except_bind_error] at h; cases h
  | ok s =>
      simp only [hs, except_bind_ok] at h
      injection h with h2
      injection h2 with hcode hrest
      injection hrest with hconsts hnames
      have hcode2 : code = s.code ++ [(⟨.HALT, none⟩ : Instr)] := by
        rw [← hcode]
        rfl
      have hconsts2 : consts = s.consts := by rw [← hconsts]; rfl
      have hnames2 : names = s.names := by rw [← hnames]; rfl
      rw [interpProgram] at hr
      have hag : ∀ p', (⟨[], [], []⟩ : CompSt).code.length ≤ p' →
          p' < s.code.length → code[p']? = s.code[p']? := by
        intro p' hp1 hp2
        rw [hcode2, List.getElem?_append_left hp2]
      have hsteps := (stmt_sim fuel).2 p.statements ⟨[], [], []⟩ s hs code consts names
        hag (by rw [hconsts2]) (by rw [hnames2]) ⟨[], []⟩ st hr []
      have hhalt : code[s.code.length]? = some ⟨.HALT, none⟩ := by
        rw [hcode2, List.getElem?_concat_length]
      have hstep : vmStep code consts names ⟨[], st.globals, st.output, s.code.length⟩
          = .halted ⟨[], st.globals, st.output, s.code.length⟩ := by
        simp only [vmStep, hhalt]
      have hrun : vmRun (0 + 1) code consts names
          ⟨[], st.globals, st.output, s.code.length⟩ = .ok st.globals st.output := by
        rw [vmRun, hstep]
      exact steps_vmRun hsteps (0 + 1) st.globals st.output hrun

/-- Witness for C2: `loopDemo` (`x = 0` / `while x < 3: x = x + 1` /
`print(x)`) interprets to globals x=3 with output [3], and the compiled
bytecode run on the VM produces the same globals and output. -/
theorem vm_matches_interpreter_witness :
    compileProgram loopDemo = .ok (loopDemoCode, [0, 3, 1], ["x"]) ∧
      interpProgram 20 loopDemo = .ok ⟨[("x", 3)], [3]⟩ ∧
      ∃ N, vmRun N loopDemoCode [0, 3, 1] ["x"] ⟨[], [], [], 0⟩
        = .ok [("x", 3)] [3] :=
  ⟨rfl, rfl,
    vm_matches_interpreter loopDemo loopDemoCode [0, 3, 1] ["x"] rfl 20
      ⟨[("x", 3)], [3]⟩ rfl⟩

end MiniPy
